import Mathlib

/-!
# Urban planner analyzer: a verification development

A shallow embedding of `src/utils/urbanPlannerAnalyzer.js` and of the parts of
`src/public/main.js` and `src/server.js` it interacts with.

Conventions of the embedding.

* JavaScript values are `JsVal`.  Strings are Lean `String`s (sequences of Unicode
  scalar values), so JavaScript strings holding unpaired surrogates are not
  represented.
* A JavaScript computation that may throw returns `Except JsError α`.
* The outside world (file system, generative model, clock) is explicit: a `World`
  value is threaded through the stateful functions, the clock reading is an
  argument, and the model's answers are given by a function of the call number.
* A stateful function returns its outcome together with the world it leaves, also
  when it throws.  Writing a file always succeeds; a file's content is the base64
  text of its bytes.  Calls of `console` are left out.
-/

set_option maxRecDepth 100000

namespace UrbanPlanner

/-! ## JavaScript values -/

/-- JavaScript values: what `JSON.parse` can produce, plus `undefined` (the result of
reading an absent property).  A number is carried as the text JavaScript prints for
it. -/
inductive JsVal where
  | undefined
  | null
  | bool (b : Bool)
  | num (text : String)
  | str (s : String)
  | arr (items : List JsVal)
  | obj (fields : List (String × JsVal))

instance : Inhabited JsVal := ⟨JsVal.undefined⟩

/-- Exceptions raised by the code or by the libraries it calls. -/
inductive JsError where
  /-- `SyntaxError` thrown by `JSON.parse`. -/
  | syntaxError
  /-- `TypeError`: property read on `null`/`undefined`, or call of a non-function. -/
  | typeError
  /-- An `Error` object created by `new Error(message)`. -/
  | error (message : String)
  /-- The call to the generative model was rejected. -/
  | rejected (reason : String)
  /-- A file read by `fs.readFileSync`/`fs.copyFileSync` does not exist. -/
  | noEntry (path : String)
  /-- The input leaves the modelled fragment of JavaScript (see `nonEmptyArray`). -/
  | unmodelled
  /-- The `QuotaExceededError` of `localStorage.setItem`. -/
  | quotaExceeded
  deriving DecidableEq, Repr

/-- Own property `key` of an object given by its entries in assignment order: a later
entry for the same key overrides an earlier one. -/
def ownProperty (key : String) : List (String × JsVal) → Option JsVal
  | [] => none
  | (k, v) :: rest =>
    match ownProperty key rest with
    | some w => some w
    | none => if k = key then some v else none

/-- Property read `v.key`, for the data property names this program reads
(`improvement_recommendations`, `category`, ...): a `TypeError` on `null` and
`undefined`, the own property of an object, `undefined` otherwise. -/
def JsVal.prop (v : JsVal) (key : String) : Except JsError JsVal :=
  match v with
  | .undefined => .error .typeError
  | .null => .error .typeError
  | .obj fields => .ok ((ownProperty key fields).getD .undefined)
  | _ => .ok .undefined

/-! ## Locating the JSON candidate (`String.prototype.match`) -/

/-- Split a text at the first occurrence of `pat`: the text before it and the text
after it. -/
def splitAtFirst (pat : List Char) : List Char → Option (List Char × List Char)
  | [] => if pat = [] then some ([], []) else none
  | c :: cs =>
    if pat.isPrefixOf (c :: cs) then some ([], (c :: cs).drop pat.length)
    else (splitAtFirst pat cs).map fun r => (c :: r.1, r.2)

/-- Split a text at the last occurrence of `pat`. -/
def splitAtLast (pat : List Char) : List Char → Option (List Char × List Char)
  | [] => if pat = [] then some ([], []) else none
  | c :: cs =>
    match splitAtLast pat cs with
    | some r => some (c :: r.1, r.2)
    | none => if pat.isPrefixOf (c :: cs) then some ([], (c :: cs).drop pat.length) else none

/-- The opening fence of the first pattern. -/
def fenceOpen : List Char := ['`', '`', '`', 'j', 's', 'o', 'n', '\n']

/-- The closing fence of the first pattern. -/
def fenceClose : List Char := ['\n', '`', '`', '`']

/-- A successful match: the matched text and the first capture group
(`undefined`, here `none`, when the pattern has no group). -/
structure RegExpMatch where
  whole : String
  group1 : Option String
  deriving DecidableEq, Repr

/-- A greedy `open [\s\S]* close` pattern: the leftmost match starts at the first
`open` that is followed by a `close`, and the greedy middle runs to the last `close`.
If the first `open` is followed by no `close`, no later `open` is either. -/
def matchDelimited (open_ close : List Char) (text : List Char) :
    Option (List Char) :=
  match splitAtFirst open_ text with
  | none => none
  | some (_, rest) =>
    match splitAtLast close rest with
    | none => none
    | some (body, _) => some body

/-- The match `analysisText.match(/```json\n([\s\S]*)\n```/)`. -/
def matchFencedJson (analysisText : String) : Option RegExpMatch :=
  (matchDelimited fenceOpen fenceClose analysisText.data).map fun body =>
    { whole := ⟨fenceOpen ++ body ++ fenceClose⟩, group1 := some ⟨body⟩ }

/-- The match `analysisText.match(/{[\s\S]*}/)`. -/
def matchBraces (analysisText : String) : Option RegExpMatch :=
  (matchDelimited ['{'] ['}'] analysisText.data).map fun body =>
    { whole := ⟨['{'] ++ body ++ ['}']⟩, group1 := none }

/-- The text handed to the decoder, `jsonMatch[1] || jsonMatch[0]`: the capture group
unless it is `undefined` or the empty string. -/
def RegExpMatch.jsonStr (m : RegExpMatch) : String :=
  match m.group1 with
  | some g => if g = "" then m.whole else g
  | none => m.whole

/-- The candidate located in the text, `none` when neither pattern matches. -/
def jsonCandidate (analysisText : String) : Option String :=
  ((matchFencedJson analysisText).orElse fun _ => matchBraces analysisText).map
    RegExpMatch.jsonStr

/-! ## `parseAnalysisResponse` -/

/-- The object returned when no JSON is found in the text. -/
def noJsonAnalysis (analysisText : String) : JsVal :=
  .obj [
    ("current_assessment", .obj [
      ("overall_description", .str "Urban space requiring improvements"),
      ("identified_issues", .arr [
        .obj [("category", .str "General"),
              ("details", .str "Please see the full analysis text below")]])]),
    ("improvement_recommendations", .arr [
      .obj [("category", .str "General"),
            ("recommendation", .str "See full analysis text"),
            ("expected_benefits", .str "Multiple benefits detailed in analysis")]]),
    ("urban_planning_principles", .arr [
      .str "Improved walkability", .str "Enhanced public spaces",
      .str "Increased greenery", .str "Better sustainability"]),
    ("raw_analysis", .str analysisText)]

/-- The object returned by the `catch` block. -/
def parseErrorAnalysis (analysisText : String) : JsVal :=
  .obj [
    ("current_assessment", .obj [
      ("overall_description", .str "Urban space analysis completed"),
      ("identified_issues", .arr [
        .obj [("category", .str "General"),
              ("details", .str "Analysis text could not be structured properly")]])]),
    ("improvement_recommendations", .arr [
      .obj [("category", .str "General"),
            ("recommendation", .str "See raw analysis text below"),
            ("expected_benefits", .str "Various urban improvements")]]),
    ("urban_planning_principles", .arr [
      .str "Improved walkability", .str "Enhanced public spaces",
      .str "Increased greenery"]),
    ("raw_analysis", .str analysisText)]

/-- The `try` block of `parseAnalysisResponse`.  `jsonParse` is the built-in
`JSON.parse`: a function of the text that returns a value or throws. -/
def parseAnalysisResponseTry (jsonParse : String → Except JsError JsVal)
    (analysisText : String) : Except JsError JsVal :=
  match (matchFencedJson analysisText).orElse fun _ => matchBraces analysisText with
  | some jsonMatch => jsonParse jsonMatch.jsonStr
  | none => .ok (noJsonAnalysis analysisText)

/-- The function `parseAnalysisResponse`: the `try` block, and the `catch` block on any
exception. -/
def parseAnalysisResponse (jsonParse : String → Except JsError JsVal)
    (analysisText : String) : Except JsError JsVal :=
  match parseAnalysisResponseTry jsonParse analysisText with
  | .ok v => .ok v
  | .error _ => .ok (parseErrorAnalysis analysisText)

/-! ## String conversion and prompts -/

/-- Conversion to string in a template literal: the text of `v`, or the text of the
elements of an array `v` joined by commas.  An object prints as `[object Object]`
unless it has an own `toString` entry, which is not callable and makes the conversion
throw a `TypeError`. -/
def JsVal.toStr : JsVal → Except JsError String
  | .undefined => .ok "undefined"
  | .null => .ok "null"
  | .bool b => .ok (if b then "true" else "false")
  | .num text => .ok text
  | .str s => .ok s
  | .obj fields =>
    match ownProperty "toString" fields with
    | some _ => .error .typeError
    | none => .ok "[object Object]"
  | .arr items => joinItems items
where
  /-- The method `Array.prototype.join` with separator `,`: `null` and `undefined`
  elements print as the empty string. -/
  joinItems : List JsVal → Except JsError String
    | [] => .ok ""
    | v :: rest =>
      let first : Except JsError String :=
        match v with
        | .undefined => .ok ""
        | .null => .ok ""
        | w => JsVal.toStr w
      match first with
      | .error e => .error e
      | .ok head =>
        match rest with
        | [] => .ok head
        | _ :: _ =>
          match joinItems rest with
          | .error e => .error e
          | .ok tail => .ok (head ++ "," ++ tail)

/-- Text of `createIncrementalPrompt` before the step number. -/
def incrementalPromptHead : String :=
  "You are a skilled urban planner and architectural visualizer. I need you to make ONE SPECIFIC CHANGE to this urban space image.\n\nIMPROVEMENT ("

/-- Text of `createIncrementalPrompt` after the recommendation. -/
def incrementalPromptTail : String :=
  "\n\nCRITICAL REQUIREMENTS:\n1. Make ONLY this ONE specific change to the image. Do not add any other improvements.\n2. Keep the image photorealistic - not a sketch, drawing or cartoon.\n3. Maintain the EXACT same perspective, angle, scale, and composition as the original.\n4. Preserve all buildings, people, vehicles, and infrastructure EXCEPT for the specific area you are improving.\n5. Maintain all lighting conditions, weather, and time of day exactly as in the original.\n6. Make the change VISUALLY OBVIOUS - ensure it\x27s clearly visible what has been improved.\n7. Avoid adding text, labels, or annotations to the image.\n\nThe goal is to show incremental, realistic improvements that could actually be implemented. This will be part of a sequence showing step-by-step enhancements, so it\x27s crucial that ONLY the specified change is made while everything else remains identical to the previous image.\n\nGenerate a photorealistic visualization showing ONLY this specific urban improvement implemented in the space."

/-- The function `createIncrementalPrompt`.  Reading a property of a `null`
recommendation throws. -/
def createIncrementalPrompt (recommendation : JsVal) (stepNumber totalSteps : Nat) :
    Except JsError String :=
  match recommendation.prop "category" with
  | .error e => .error e
  | .ok category =>
    match category.toStr with
    | .error e => .error e
    | .ok categoryText =>
      match recommendation.prop "recommendation" with
      | .error e => .error e
      | .ok rec =>
        match rec.toStr with
        | .error e => .error e
        | .ok recText =>
          .ok (incrementalPromptHead ++ toString stepNumber ++ " of " ++ toString totalSteps
            ++ "): " ++ categoryText ++ "\n" ++ recText ++ incrementalPromptTail)

/-- The elements a call `v.map(...)` iterates: those of an array.  Any other JSON
value has no callable `map`, and the call throws a `TypeError`. -/
def mapItems : JsVal → Except JsError (List JsVal)
  | .arr items => .ok items
  | _ => .error .typeError

/-- Apply a callback that may throw to the elements in order, stopping at the first
exception. -/
def mapExcept {α β : Type} (f : α → Except JsError β) : List α → Except JsError (List β)
  | [] => .ok []
  | a :: rest =>
    match f a with
    | .error e => .error e
    | .ok b =>
      match mapExcept f rest with
      | .error e => .error e
      | .ok bs => .ok (b :: bs)

/-- The line of the visualization prompt for one recommendation. -/
def recommendationLine (rec : JsVal) : Except JsError String :=
  match rec.prop "recommendation" with
  | .error e => .error e
  | .ok r =>
    match r.toStr with
    | .error e => .error e
    | .ok text => .ok ("- " ++ text)

/-- The line of the visualization prompt for one principle. -/
def principleLine (principle : JsVal) : Except JsError String :=
  match principle.toStr with
  | .error e => .error e
  | .ok text => .ok ("- " ++ text)

/-- Text of `createVisualizationPrompt` before the recommendations. -/
def visualizationPromptHead : String :=
  "Transform this urban space image according to best urban planning practices. Create a realistic visualization that incorporates the following specific improvements:\n\n"

/-- Text of `createVisualizationPrompt` between recommendations and principles. -/
def visualizationPromptMiddle : String := "\n\nApply these urban planning principles:\n"

/-- Text of `createVisualizationPrompt` after the principles. -/
def visualizationPromptTail : String :=
  "\n\nCRITICAL REQUIREMENTS:\n1. Make REALISTIC and PRACTICAL changes that could actually be implemented in this exact location\n2. Maintain the EXACT same perspective, angle, and scale as the original image\n3. The result must be PHOTOREALISTIC - not a sketch, drawing, or cartoon\n4. Keep the same buildings and major infrastructure, but enhance them with the suggested improvements\n5. Preserve the character and unique identity of the original location\n6. Do not add floating text, labels, arrows, or UI elements to the image\n\nIMPORTANT: Do not create an entirely new scene. The improved version should be clearly recognizable as the same location with specific enhancements applied. Someone familiar with this location should be able to recognize it after the improvements.\n\nGenerate a detailed visualization showing how these urban improvements would look when implemented at this exact location."

/-- The function `createVisualizationPrompt`. -/
def createVisualizationPrompt (analysis : JsVal) : Except JsError String :=
  match analysis.prop "improvement_recommendations" with
  | .error e => .error e
  | .ok recs =>
    match mapItems recs with
    | .error e => .error e
    | .ok recItems =>
      match mapExcept recommendationLine recItems with
      | .error e => .error e
      | .ok recLines =>
        match analysis.prop "urban_planning_principles" with
        | .error e => .error e
        | .ok ps =>
          match mapItems ps with
          | .error e => .error e
          | .ok principleItems =>
            match mapExcept principleLine principleItems with
            | .error e => .error e
            | .ok principleLines =>
              .ok (visualizationPromptHead ++ "\n".intercalate recLines
                ++ visualizationPromptMiddle ++ "\n".intercalate principleLines
                ++ visualizationPromptTail)

/-! ## Paths and MIME types -/

/-- The function `path.extname` of Node.js (POSIX flavour): the text from the last dot
of the last path component to its end; empty when that component has no dot, starts
with its only dot, or is `..`. -/
def extname (path : String) : String :=
  let trimmed := (path.data.reverse.dropWhile (· = '/')).reverse
  let base := (trimmed.reverse.takeWhile (· ≠ '/')).reverse
  let afterDot := (base.reverse.takeWhile (· ≠ '.')).reverse
  if afterDot.length = base.length then ""
  else
    let beforeDot := base.take (base.length - afterDot.length - 1)
    if beforeDot = [] then ""
    else if beforeDot = ['.'] ∧ afterDot = [] then ""
    else ⟨'.' :: afterDot⟩

/-- The function `getMimeType`.  `toLowerCase` is applied to ASCII letters; no other
character lower-cases to a letter of `.jpg`, `.jpeg` or `.png`. -/
def getMimeType (filePath : String) : String :=
  let ext : String := ⟨(extname filePath).data.map Char.toLower⟩
  if ext = ".jpg" ∨ ext = ".jpeg" then "image/jpeg"
  else if ext = ".png" then "image/png"
  else "application/octet-stream"

/-- The call `path.join(outputDir, name)` for a normalised directory path without a
trailing slash and a file name. -/
def pathJoin (outputDir name : String) : String :=
  if outputDir = "" then name else outputDir ++ "/" ++ name

/-- Name of the final image of a session. -/
def finalImageName (timestamp : Nat) : String :=
  "improved-" ++ toString timestamp ++ ".png"

/-- Name of the image of step `i` (counted from zero) of a session. -/
def stepImageName (timestamp i : Nat) : String :=
  "improved-" ++ toString timestamp ++ "-step-" ++ toString (i + 1) ++ ".png"

/-! ## The upload of the server (`src/server.js`) -/

/-- The extensions of the pattern `/\.(jpg|jpeg|png)$/`. -/
def imageExtensions : List String := [".jpg", ".jpeg", ".png"]

/-- The test of `fileFilter`, `file.originalname.match(/\.(jpg|jpeg|png)$/)`: the pattern
has no flag, so it matches when the name ends in a dot followed by `jpg`, `jpeg` or
`png`, in lower case.  The result tells whether the file is accepted. -/
def fileFilter (originalname : String) : Bool :=
  imageExtensions.any fun ext => ext.data.isSuffixOf originalname.data

/-- The text `Date.now() + "-" + Math.round(Math.random() * 1e9)`; `now` and `rnd` are
the two numbers. -/
def uniqueSuffix (now rnd : Nat) : String :=
  toString now ++ "-" ++ toString rnd

/-- The name given by `filename` of the disk storage to an upload. -/
def filename (now rnd : Nat) (originalname : String) : String :=
  "upload-" ++ uniqueSuffix now rnd ++ extname originalname

/-- The path `req.file.path` of a stored upload: the name joined to the directory
`uploads` under `dirname`. -/
def uploadPath (dirname : String) (now rnd : Nat) (originalname : String) : String :=
  pathJoin (pathJoin dirname "uploads") (filename now rnd originalname)

/-! ## The outside world -/

/-- The `inlineData` of a part of a model response. -/
structure InlineData where
  mimeType : String
  data : String
  deriving DecidableEq, Repr

/-- A part of a model response: text, or inline image data. -/
structure Part where
  text : Option String
  inlineData : Option InlineData
  deriving DecidableEq, Repr

/-- A model response, reduced to `response.candidates`: the parts of each candidate. -/
structure GenerateContentResponse where
  candidates : List (List Part)
  deriving DecidableEq, Repr

/-- The prompt parts sent to the model: one image and one text. -/
structure PromptParts where
  mimeType : String
  data : String
  text : String
  deriving DecidableEq, Repr

/-- The generative model as a script: the outcome of each call, by call number. -/
abbrev ModelScript := Nat → Except JsError GenerateContentResponse

/-- The world: the file system (most recent write first; contents are the base64 text
of the bytes), the paths written so far and the requests sent to the model so far
(oldest first). -/
structure World where
  files : List (String × String)
  written : List String
  requests : List PromptParts
  deriving DecidableEq, Repr

/-- The call `fs.readFileSync(path)` followed by `toString("base64")`. -/
def readFileSync (path : String) (w : World) : Except JsError String :=
  match w.files.lookup path with
  | some content => .ok content
  | none => .error (.noEntry path)

/-- The call `fs.writeFileSync(path, Buffer.from(data, "base64"))`. -/
def writeFileSync (path data : String) (w : World) : World :=
  { w with files := (path, data) :: w.files, written := w.written ++ [path] }

/-- The call `fs.copyFileSync(src, dest)`. -/
def copyFileSync (src dest : String) (w : World) : Except JsError World :=
  match readFileSync src w with
  | .ok content => .ok (writeFileSync dest content w)
  | .error e => .error e

/-- The call `imageModel.generateContent(promptParts)`: the request is logged and the
script gives the outcome of this call. -/
def generateContent (model : ModelScript) (promptParts : PromptParts) (w : World) :
    Except JsError GenerateContentResponse × World :=
  (model w.requests.length, { w with requests := w.requests ++ [promptParts] })

/-- The value `response.response.candidates[0].content.parts`; a `TypeError` when the
response has no candidate. -/
def responseParts (response : GenerateContentResponse) : Except JsError (List Part) :=
  match response.candidates with
  | parts :: _ => .ok parts
  | [] => .error .typeError

/-! ## Image generation -/

/-- An entry of `incrementalChanges`. -/
structure Change where
  id : Nat
  category : JsVal
  description : JsVal
  benefits : JsVal

/-- The object returned by `visualizeUrbanImprovements` and `generateFinalImage`. -/
structure VisualizationResult where
  finalImagePath : String
  incrementalImages : List String
  incrementalChanges : List Change

/-- The object `{ id: i, category: rec.category, description: rec.recommendation,
benefits: rec.expected_benefits }`. -/
def makeChange (i : Nat) (rec : JsVal) : Except JsError Change :=
  match rec.prop "category" with
  | .error e => .error e
  | .ok category =>
    match rec.prop "recommendation" with
    | .error e => .error e
    | .ok description =>
      match rec.prop "expected_benefits" with
      | .error e => .error e
      | .ok benefits => .ok { id := i, category, description, benefits }

/-- The callback `(rec, i) => ...` applied to the elements from index `i` on. -/
def makeChangesFrom : Nat → List JsVal → Except JsError (List Change)
  | _, [] => .ok []
  | i, rec :: rest =>
    match makeChange i rec with
    | .error e => .error e
    | .ok change =>
      match makeChangesFrom (i + 1) rest with
      | .error e => .error e
      | .ok changes => .ok (change :: changes)

/-- The loop `for (const part of ...)` of `generateFinalImage`: every image part is
written to `outputPath`; the flag tells whether there was one. -/
def saveFinalParts (outputPath : String) : List Part → Bool → World → Bool × World
  | [], imageGenerated, w => (imageGenerated, w)
  | part :: rest, imageGenerated, w =>
    match part.inlineData with
    | some inline => saveFinalParts outputPath rest true (writeFileSync outputPath inline.data w)
    | none => saveFinalParts outputPath rest imageGenerated w

/-- The function `generateFinalImage`. -/
def generateFinalImage (model : ModelScript) (imageBase64 mimeType : String)
    (analysis : JsVal) (outputPath : String) (w : World) :
    Except JsError VisualizationResult × World :=
  match createVisualizationPrompt analysis with
  | .error e => (.error e, w)
  | .ok visualizationPrompt =>
    match generateContent model
      { mimeType := mimeType, data := imageBase64, text := visualizationPrompt } w with
    | (.error e, w1) => (.error e, w1)
    | (.ok response, w1) =>
      match responseParts response with
      | .error e => (.error e, w1)
      | .ok parts =>
        match saveFinalParts outputPath parts false w1 with
        | (false, w2) => (.error (.error "No image was generated in the response"), w2)
        | (true, w2) =>
          match analysis.prop "improvement_recommendations" with
          | .error e => (.error e, w2)
          | .ok recs =>
            match mapItems recs with
            | .error e => (.error e, w2)
            | .ok recItems =>
              match makeChangesFrom 0 recItems with
              | .error e => (.error e, w2)
              | .ok changes =>
                (.ok { finalImagePath := outputPath, incrementalImages := [outputPath],
                       incrementalChanges := changes }, w2)

/-- The variables of the incremental loop. -/
structure LoopState where
  currentImageBase64 : String
  currentImagePath : String
  incrementalImages : List String
  incrementalChanges : List Change

/-- The body of `if (part.inlineData)` in the incremental loop, for the recommendation
at index `i` of `total`. -/
def saveIncrementalPart (timestamp : Nat) (outputDir finalImagePath : String)
    (i total : Nat) (rec : JsVal) (inline : InlineData) (st : LoopState) (w : World) :
    Except JsError LoopState × World :=
  let incrementalImagePath := pathJoin outputDir (stepImageName timestamp i)
  let w1 := writeFileSync incrementalImagePath inline.data w
  match makeChange i rec with
  | .error e => (.error e, w1)
  | .ok change =>
    let st1 : LoopState :=
      { currentImageBase64 := inline.data
        currentImagePath := incrementalImagePath
        incrementalImages := st.incrementalImages ++ [incrementalImagePath]
        incrementalChanges := st.incrementalChanges ++ [change] }
    if i = total - 1 then
      match copyFileSync incrementalImagePath finalImagePath w1 with
      | .error e => (.error e, w1)
      | .ok w2 => (.ok st1, w2)
    else (.ok st1, w1)

/-- The loop `for (const part of ...)` of the incremental branch.  The flag
`imageGenerated` only selects a log message and is left out. -/
def saveIncrementalParts (timestamp : Nat) (outputDir finalImagePath : String)
    (i total : Nat) (rec : JsVal) : List Part → LoopState → World →
    Except JsError LoopState × World
  | [], st, w => (.ok st, w)
  | part :: rest, st, w =>
    match part.inlineData with
    | none => saveIncrementalParts timestamp outputDir finalImagePath i total rec rest st w
    | some inline =>
      match saveIncrementalPart timestamp outputDir finalImagePath i total rec inline st w with
      | (.error e, w1) => (.error e, w1)
      | (.ok st1, w1) =>
        saveIncrementalParts timestamp outputDir finalImagePath i total rec rest st1 w1

/-- The loop `for (let i = 0; i < recommendations.length; i++)`, from index `i` with
the recommendations that remain. -/
def incrementalLoop (model : ModelScript) (timestamp : Nat)
    (outputDir finalImagePath mimeType : String) (total : Nat) :
    Nat → List JsVal → LoopState → World → Except JsError LoopState × World
  | _, [], st, w => (.ok st, w)
  | i, rec :: rest, st, w =>
    match createIncrementalPrompt rec (i + 1) total with
    | .error e => (.error e, w)
    | .ok incrementalPrompt =>
      match generateContent model
        { mimeType := mimeType, data := st.currentImageBase64, text := incrementalPrompt } w with
      | (.error e, w1) => (.error e, w1)
      | (.ok response, w1) =>
        match responseParts response with
        | .error e => (.error e, w1)
        | .ok parts =>
          match saveIncrementalParts timestamp outputDir finalImagePath i total rec parts st w1 with
          | (.error e, w2) => (.error e, w2)
          | (.ok st1, w2) =>
            incrementalLoop model timestamp outputDir finalImagePath mimeType total (i + 1)
              rest st1 w2

/-- The test `recs && recs.length > 0`: the array to iterate when it holds, `none` when
it does not.  Strings and objects with an own `length` entry, which JavaScript would
iterate like arrays, are outside the model. -/
def nonEmptyArray : JsVal → Except JsError (Option (List JsVal))
  | .arr items => .ok (if items.length > 0 then some items else none)
  | .undefined => .ok none
  | .null => .ok none
  | .bool _ => .ok none
  | .num _ => .ok none
  | .str s => if s = "" then .ok none else .error .unmodelled
  | .obj fields =>
    match ownProperty "length" fields with
    | none => .ok none
    | some _ => .error .unmodelled

/-- The function `visualizeUrbanImprovements`; `timestamp` is the reading of
`Date.now()`.  The outer `try`/`catch` logs and rethrows. -/
def visualizeUrbanImprovements (model : ModelScript) (timestamp : Nat)
    (inputImagePath : String) (analysis : JsVal) (outputDir : String) (incremental : Bool)
    (w : World) : Except JsError VisualizationResult × World :=
  match readFileSync inputImagePath w with
  | .error e => (.error e, w)
  | .ok imageBase64 =>
    let mimeType := getMimeType inputImagePath
    let finalImagePath := pathJoin outputDir (finalImageName timestamp)
    let single := generateFinalImage model imageBase64 mimeType analysis finalImagePath
    if incremental then
      match analysis.prop "improvement_recommendations" with
      | .error e => (.error e, w)
      | .ok recs =>
        match nonEmptyArray recs with
        | .error e => (.error e, w)
        | .ok none => single w
        | .ok (some recommendations) =>
          match incrementalLoop model timestamp outputDir finalImagePath mimeType
            recommendations.length 0 recommendations
            { currentImageBase64 := imageBase64, currentImagePath := inputImagePath,
              incrementalImages := [], incrementalChanges := [] } w with
          | (.error e, w1) => (.error e, w1)
          | (.ok st, w1) =>
            if st.incrementalImages.length = 0 then single w1
            else
              (.ok { finalImagePath := finalImagePath,
                     incrementalImages := st.incrementalImages,
                     incrementalChanges := st.incrementalChanges }, w1)
    else single w

/-! ## A JSON decoder

`jsonDecode` follows the JSON grammar that `JSON.parse` accepts.  The functions above
take the decoder as an argument; this one instantiates it in the concrete examples.
Number literals are carried over as written, which is the text JavaScript prints only
for a literal in canonical form such as `12`, and a `\u` escape that denotes an
unpaired surrogate is rendered as U+FFFD. -/

/-- JSON white space. -/
def isJsonWs (c : Char) : Bool := c = ' ' || c = '\t' || c = '\n' || c = '\r'

/-- Drop leading JSON white space. -/
def skipWs : List Char → List Char
  | [] => []
  | c :: cs => if isJsonWs c then skipWs cs else c :: cs

/-- Value of a hexadecimal digit. -/
def hexVal (c : Char) : Option Nat :=
  if '0' ≤ c ∧ c ≤ '9' then some (c.toNat - 48)
  else if 'a' ≤ c ∧ c ≤ 'f' then some (c.toNat - 87)
  else if 'A' ≤ c ∧ c ≤ 'F' then some (c.toNat - 55)
  else none

/-- Four hexadecimal digits as a UTF-16 code unit. -/
def hex4 (a b c d : Char) : Option Nat := do
  let w ← hexVal a
  let x ← hexVal b
  let y ← hexVal c
  let z ← hexVal d
  pure (((w * 16 + x) * 16 + y) * 16 + z)

/-- The character denoted by the escape sequence that follows a backslash, and the
text after the sequence. -/
def decodeEscape : List Char → Option (Char × List Char)
  | [] => none
  | e :: rest1 =>
    if e = '"' then some ('"', rest1)
    else if e = '\\' then some ('\\', rest1)
    else if e = '/' then some ('/', rest1)
    else if e = 'b' then some (Char.ofNat 8, rest1)
    else if e = 'f' then some (Char.ofNat 12, rest1)
    else if e = 'n' then some ('\n', rest1)
    else if e = 'r' then some ('\r', rest1)
    else if e = 't' then some ('\t', rest1)
    else if e = 'u' then
      match rest1 with
      | a :: b :: c1 :: d :: rest2 =>
        match hex4 a b c1 d with
        | none => none
        | some u =>
          if 0xD800 ≤ u ∧ u < 0xDC00 then
            match rest2 with
            | s :: t :: a2 :: b2 :: c2 :: d2 :: rest3 =>
              match hex4 a2 b2 c2 d2 with
              | some l =>
                if s = '\\' ∧ t = 'u' ∧ 0xDC00 ≤ l ∧ l < 0xE000 then
                  some (Char.ofNat (0x10000 + (u - 0xD800) * 0x400 + (l - 0xDC00)), rest3)
                else some (Char.ofNat 0xFFFD, rest2)
              | none => some (Char.ofNat 0xFFFD, rest2)
            | _ => some (Char.ofNat 0xFFFD, rest2)
          else if 0xDC00 ≤ u ∧ u < 0xE000 then some (Char.ofNat 0xFFFD, rest2)
          else some (Char.ofNat u, rest2)
      | _ => none
    else none

/-- The body of a string literal, after the opening quote: the decoded string and the
text after the closing quote.  `fuel` bounds the number of characters read. -/
def decodeString : Nat → List Char → List Char → Option (String × List Char)
  | 0, _, _ => none
  | _ + 1, _, [] => none
  | fuel + 1, acc, c :: rest =>
    if c = '"' then some (⟨acc.reverse⟩, rest)
    else if c = '\\' then
      match decodeEscape rest with
      | none => none
      | some (ch, rest1) => decodeString fuel (ch :: acc) rest1
    else if c.toNat < 0x20 then none
    else decodeString fuel (c :: acc) rest

/-- The leading decimal digits of a text and what follows them. -/
def spanDigits : List Char → List Char × List Char
  | [] => ([], [])
  | c :: cs =>
    if c.isDigit then ((spanDigits cs).map (c :: ·) id) else ([], c :: cs)

/-- A number literal `-? int frac? exp?` at the head of the text. -/
def decodeNumber (cs : List Char) : Option (String × List Char) :=
  let (sign, cs1) := match cs with
    | c :: r => if c = '-' then (['-'], r) else ([], cs)
    | [] => ([], [])
  let (int, cs2) := spanDigits cs1
  if int = [] ∨ (int.head? = some '0' ∧ int.length ≠ 1) then none else
  let fracPart : Option (List Char × List Char) := match cs2 with
    | c :: r =>
      if c = '.' then
        let (ds, r1) := spanDigits r
        if ds = [] then none else some ('.' :: ds, r1)
      else some ([], cs2)
    | [] => some ([], [])
  match fracPart with
  | none => none
  | some (frac, cs3) =>
    let expPart : Option (List Char × List Char) := match cs3 with
      | c :: r =>
        if c = 'e' ∨ c = 'E' then
          let (sg, r1) := match r with
            | s :: r2 => if s = '+' ∨ s = '-' then ([s], r2) else ([], r)
            | [] => ([], [])
          let (ds, r3) := spanDigits r1
          if ds = [] then none else some (c :: sg ++ ds, r3)
        else some ([], cs3)
      | [] => some ([], [])
    match expPart with
    | none => none
    | some (ex, cs4) => some (⟨sign ++ int ++ frac ++ ex⟩, cs4)

/-- Remove a literal word from the head of the text. -/
def dropWord (word cs : List Char) : Option (List Char) :=
  if word.isPrefixOf cs then some (cs.drop word.length) else none

/-- What the decoder is reading: a value, the elements of an array after `[` or `,`,
or the members of an object after `{` or `,`. -/
inductive DecodeMode where
  | value
  | elements (acc : List JsVal)
  | members (acc : List (String × JsVal))

/-- The decoder proper, with `fuel` bounding the number of values read.  It returns
the value read and the rest of the text. -/
def decodeValue : Nat → DecodeMode → List Char → Option (JsVal × List Char)
  | 0, _, _ => none
  | fuel + 1, .value, cs =>
    match skipWs cs with
    | [] => none
    | c :: rest =>
      if c = '{' then
        match skipWs rest with
        | d :: rest1 =>
          if d = '}' then some (.obj [], rest1) else decodeValue fuel (.members []) rest
        | [] => none
      else if c = '[' then
        match skipWs rest with
        | d :: rest1 =>
          if d = ']' then some (.arr [], rest1) else decodeValue fuel (.elements []) rest
        | [] => none
      else if c = '"' then (decodeString rest.length [] rest).map fun r => (.str r.1, r.2)
      else if c = 't' then (dropWord ['r', 'u', 'e'] rest).map fun r => (.bool true, r)
      else if c = 'f' then (dropWord ['a', 'l', 's', 'e'] rest).map fun r => (.bool false, r)
      else if c = 'n' then (dropWord ['u', 'l', 'l'] rest).map fun r => (.null, r)
      else (decodeNumber (c :: rest)).map fun r => (.num r.1, r.2)
  | fuel + 1, .elements acc, cs =>
    match decodeValue fuel .value cs with
    | none => none
    | some (v, rest) =>
      match skipWs rest with
      | d :: rest1 =>
        if d = ',' then decodeValue fuel (.elements (acc ++ [v])) rest1
        else if d = ']' then some (.arr (acc ++ [v]), rest1)
        else none
      | [] => none
  | fuel + 1, .members acc, cs =>
    match skipWs cs with
    | q :: rest =>
      if q = '"' then
        match decodeString rest.length [] rest with
        | none => none
        | some (key, rest1) =>
          match skipWs rest1 with
          | colon :: rest2 =>
            if colon = ':' then
              match decodeValue fuel .value rest2 with
              | none => none
              | some (v, rest3) =>
                match skipWs rest3 with
                | d :: rest4 =>
                  if d = ',' then decodeValue fuel (.members (acc ++ [(key, v)])) rest4
                  else if d = '}' then some (.obj (acc ++ [(key, v)]), rest4)
                  else none
                | [] => none
            else none
          | [] => none
      else none
    | [] => none

/-- The decoder: one JSON value surrounded by optional white space, a `SyntaxError`
otherwise. -/
def jsonDecode (text : String) : Except JsError JsVal :=
  match decodeValue (2 * text.data.length + 2) .value text.data with
  | some (v, rest) => if skipWs rest = [] then .ok v else .error .syntaxError
  | none => .error .syntaxError

/-! ## The client (`src/public/main.js`)

The component's `data()` is a `ClientState`; each method is a function on it.  The
effects of a method (alerts, requests posted, the value kept in `localStorage`) are
logged in the state.  An `async` method is modelled as one step, given the outcome of
the request it awaits.  Readings of `Date.now()` are arguments. -/

/-- A file chosen by the user: the fields of `File` the program reads. -/
structure UploadedFile where
  name : String
  type : String
  size : Nat
  deriving DecidableEq, Repr

/-- An entry of the history (`savedAnalyses`). -/
structure SavedAnalysis where
  id : Nat
  originalImageDataUrl : String
  resultImageUrl : String
  analysis : JsVal
  improvements : List Change
  generatedImages : List String
  timestamp : String

/-- The three calls of `alert`: wrong file type, file too large, and
`Error: ${error.message || "Failed to analyze urban space"}` for a caught exception. -/
inductive Alert where
  | invalidType
  | tooLarge
  | failure (e : JsError)
  deriving DecidableEq, Repr

/-- The reactive data of the component, and the log of its effects. -/
structure ClientState where
  previewVisible : Bool
  resultVisible : Bool
  isProcessing : Bool
  activeTab : String
  showHistoryModal : Bool
  uploadedFile : Option UploadedFile
  previewImageUrl : String
  originalImageUrl : String
  resultImageUrl : String
  analysisResults : JsVal
  improvements : List Change
  currentChangeIndex : Int
  generatedImages : List String
  savedAnalyses : List SavedAnalysis
  /-- The alerts shown so far, oldest first. -/
  alerts : List Alert
  /-- The files posted to `/api/analyze-urban-space` so far, oldest first. -/
  posted : List UploadedFile
  /-- The history last written to `localStorage`, if any. -/
  stored : Option (List SavedAnalysis)

/-- The state returned by `data()`. -/
def initialState : ClientState :=
  { previewVisible := false, resultVisible := false, isProcessing := false,
    activeTab := "comparison", showHistoryModal := false, uploadedFile := none,
    previewImageUrl := "", originalImageUrl := "", resultImageUrl := "",
    analysisResults := .obj [], improvements := [], currentChangeIndex := 0,
    generatedImages := [], savedAnalyses := [], alerts := [], posted := [], stored := none }

/-- Truthiness of a value. -/
def JsVal.truthy : JsVal → Bool
  | .undefined => false
  | .null => false
  | .bool b => b
  | .num text => text != "0" && text != "NaN"
  | .str s => s != ""
  | .arr _ => true
  | .obj _ => true

/-- Strict equality `a === b`: equal primitives are equal, and an object or array is
equal to itself only.  Whether two objects, or two arrays, are one and the same object is
not told by their content (a step built by `setupIncrementalChanges` holds the very
category object of its recommendation, a step sent by the server holds a copy), so it is
the argument `same`. -/
def strictEquals (same : Bool) : JsVal → JsVal → Bool
  | .undefined, .undefined => true
  | .null, .null => true
  | .bool a, .bool b => a == b
  | .num a, .num b => a == b && a != "NaN"
  | .str a, .str b => a == b
  | .arr _, .arr _ => same
  | .obj _, .obj _ => same
  | _, _ => false

/-- The element `v[i]` of a value: the item of an array, the own entry named by the
decimal text of `i` of an object, `undefined` for a number or boolean.  Indexing a
string, which gives a UTF-16 unit, is outside the model. -/
def elementOf (v : JsVal) (i : Nat) : Except JsError JsVal :=
  match v with
  | .undefined => .error .typeError
  | .null => .error .typeError
  | .arr items => .ok (items[i]?.getD .undefined)
  | .obj fields => .ok ((ownProperty (toString i) fields).getD .undefined)
  | .str _ => .error .unmodelled
  | _ => .ok .undefined

/-- The element `images[index]` of the image list, `undefined` (here `none`) outside
it. -/
def imageAt (images : List String) (index : Int) : Option String :=
  if index < 0 then none else images[index.toNat]?

/-- The method `refreshCurrentImage`; `now` is the reading of `Date.now()`. -/
def refreshCurrentImage (now : Nat) (st : ClientState) : ClientState :=
  match imageAt st.generatedImages st.currentChangeIndex with
  | none => st
  | some currentUrl =>
    if currentUrl = "" then st
    else
      let baseUrl : String := ⟨currentUrl.data.takeWhile (· ≠ '?')⟩
      { st with generatedImages :=
          st.generatedImages.set st.currentChangeIndex.toNat (baseUrl ++ "?t=" ++ toString now) }

/-- The method `prevChange`. -/
def prevChange (now : Nat) (st : ClientState) : ClientState :=
  if st.currentChangeIndex > 0 then
    refreshCurrentImage now { st with currentChangeIndex := st.currentChangeIndex - 1 }
  else st

/-- The method `nextChange`. -/
def nextChange (now : Nat) (st : ClientState) : ClientState :=
  if st.currentChangeIndex < (st.improvements.length : Int) - 1 then
    refreshCurrentImage now { st with currentChangeIndex := st.currentChangeIndex + 1 }
  else st

/-- The call `list.findIndex(p)`, scanning from position `i`: the position of the first
element that satisfies `p`, which is given the element and its position, and -1 when
there is none. -/
def findIndexFrom (p : Change → Nat → Bool) : Nat → List Change → Int
  | _, [] => -1
  | i, c :: rest => if p c i then (i : Int) else findIndexFrom p (i + 1) rest

/-- The method `showChangeForRecommendation`, without the scrolling of the page.
`same j` tells whether the category of step `j` and the category of the recommendation
are one and the same object (it matters only when both are objects or both arrays). -/
def showChangeForRecommendation (same : Nat → Bool) (now recIndex : Nat) (st : ClientState) :
    Except JsError Unit × ClientState :=
  let st1 := { st with activeTab := "comparison" }
  match st1.analysisResults.prop "improvement_recommendations" with
  | .error e => (.error e, st1)
  | .ok recs =>
    if !recs.truthy then (.ok (), st1)
    else
      match elementOf recs recIndex with
      | .error e => (.error e, st1)
      | .ok recommendation =>
        if !recommendation.truthy then (.ok (), st1)
        else
          match recommendation.prop "category" with
          | .error e => (.error e, st1)
          | .ok category =>
            let improvementIndex :=
              findIndexFrom (fun imp j => strictEquals (same j) imp.category category) 0
                st1.improvements
            if improvementIndex ≠ -1 then
              (.ok (), refreshCurrentImage now { st1 with currentChangeIndex := improvementIndex })
            else (.ok (), st1)

/-- The constant `maxSize` of `handleFileSelect`. -/
def maxSize : Nat := 15 * 1024 * 1024

/-- The constant `validTypes` of `handleFileSelect`. -/
def validTypes : List String := ["image/jpeg", "image/jpg", "image/png"]

/-- The method `handleFileSelect`, up to the start of the asynchronous read of the
file. -/
def handleFileSelect (file : UploadedFile) (st : ClientState) : ClientState :=
  if !validTypes.contains file.type then { st with alerts := st.alerts ++ [.invalidType] }
  else if file.size > maxSize then { st with alerts := st.alerts ++ [.tooLarge] }
  else { st with uploadedFile := some file }

/-- The handler `reader.onload` installed by `handleFileSelect`; `result` is the data
URL of the file. -/
def readerOnload (result : String) (st : ClientState) : ClientState :=
  { st with previewImageUrl := result, previewVisible := true }

/-- The method `resetUpload`. -/
def resetUpload (st : ClientState) : ClientState :=
  { st with uploadedFile := none, previewImageUrl := "", previewVisible := false }

/-- The body of a reply of the server, after `response.json()`: `success` is the
truthiness of `data.success`, `error` is `data.error` (empty when absent), and the two
lists are `none` when absent. -/
structure ResponseData where
  success : Bool
  error : String
  analysis : JsVal
  imageUrl : String
  incrementalImages : Option (List String)
  incrementalChanges : Option (List Change)

/-- The outcome of `fetch` followed by `response.json()`: an exception, or the body of
the reply. -/
inductive FetchOutcome where
  | failed (e : JsError)
  | data (d : ResponseData)

/-- The loop `recommendations.forEach(...)` of `setupIncrementalChanges`, from index `i`:
the entries pushed, and the exception that stopped the loop if any. -/
def pushChangesFrom : Nat → List JsVal → List Change → Except JsError Unit × List Change
  | _, [], acc => (.ok (), acc)
  | i, rec :: rest, acc =>
    match makeChange i rec with
    | .error e => (.error e, acc)
    | .ok change => pushChangesFrom (i + 1) rest (acc ++ [change])

/-- The method `setupIncrementalChanges`. -/
def setupIncrementalChanges (data : ResponseData) (st : ClientState) :
    Except JsError Unit × ClientState :=
  let st1 := { st with improvements := [], generatedImages := [] }
  let serverChanges : List Change := data.incrementalChanges.getD []
  if serverChanges.length > 0 then
    let serverImages : List String := data.incrementalImages.getD []
    let images : List String :=
      if serverImages.length > 0 then
        serverImages.map fun img => if "/".isPrefixOf img then img else "/results/" ++ img
      else [data.imageUrl]
    (.ok (), { st1 with improvements := serverChanges, generatedImages := images,
                        currentChangeIndex := 0 })
  else
    match st1.analysisResults.prop "improvement_recommendations" with
    | .error e => (.error e, st1)
    | .ok recs =>
      let recommendations : Except JsError (List JsVal) :=
        if recs.truthy then mapItems recs else .ok []
      match recommendations with
      | .error e => (.error e, st1)
      | .ok items =>
        match pushChangesFrom 0 items [] with
        | (.error e, pushed) => (.error e, { st1 with improvements := pushed })
        | (.ok (), pushed) =>
          (.ok (), { st1 with improvements := pushed, generatedImages := [data.imageUrl],
                              currentChangeIndex := 0 })

/-- The method `saveAnalysisToHistory`; `now` and `iso` are the readings of `Date.now()`
and `new Date().toISOString()`, and `full` tells whether `localStorage` refuses the
write. -/
def saveAnalysisToHistory (now : Nat) (iso : String) (full : Bool) (st : ClientState) :
    Except JsError Unit × ClientState :=
  let newAnalysis : SavedAnalysis :=
    { id := now
      originalImageDataUrl := st.originalImageUrl
      resultImageUrl := st.resultImageUrl
      analysis := st.analysisResults
      improvements := st.improvements
      generatedImages := st.generatedImages
      timestamp := iso }
  let unshifted := newAnalysis :: st.savedAnalyses
  let kept := if unshifted.length > 20 then unshifted.take 20 else unshifted
  if full then (.error .quotaExceeded, { st with savedAnalyses := kept })
  else (.ok (), { st with savedAnalyses := kept, stored := some kept })

/-- The `try` block of `analyzeUrbanSpace`, after the request is posted. -/
def analyzeUrbanSpaceTry (outcome : FetchOutcome) (now : Nat) (iso : String) (full : Bool)
    (st : ClientState) : Except JsError Unit × ClientState :=
  match outcome with
  | .failed e => (.error e, st)
  | .data d =>
    if d.success then
      match setupIncrementalChanges d
        { st with analysisResults := d.analysis, resultImageUrl := d.imageUrl } with
      | (.error e, st1) => (.error e, st1)
      | (.ok (), st1) => saveAnalysisToHistory now iso full st1
    else
      (.error (.error (if d.error = "" then "Failed to analyze urban space" else d.error)), st)

/-- The method `analyzeUrbanSpace`, as one step given the outcome of the request. -/
def analyzeUrbanSpace (outcome : FetchOutcome) (now : Nat) (iso : String) (full : Bool)
    (st : ClientState) : ClientState :=
  match st.uploadedFile with
  | none => st
  | some file =>
    let st1 := { st with resultVisible := true, isProcessing := true,
                         originalImageUrl := st.previewImageUrl,
                         posted := st.posted ++ [file] }
    match analyzeUrbanSpaceTry outcome now iso full st1 with
    | (.ok (), st2) => { st2 with isProcessing := false }
    | (.error e, st2) => { st2 with alerts := st2.alerts ++ [.failure e], isProcessing := false }

/-- The two navigation actions. -/
inductive NavAction where
  | prev
  | next
  deriving DecidableEq, Repr

/-- One navigation action, with the reading of the clock at that time. -/
def navigate (action : NavAction × Nat) (st : ClientState) : ClientState :=
  match action.1 with
  | .prev => prevChange action.2 st
  | .next => nextChange action.2 st

/-- A sequence of navigation actions, in order. -/
def navigateAll : List (NavAction × Nat) → ClientState → ClientState
  | [], st => st
  | action :: rest, st => navigateAll rest (navigate action st)

/-- The computed property `currentImageUrl`; `none` stands for `undefined`. -/
def currentImageUrl (st : ClientState) : Option String :=
  if st.generatedImages.length = 0 then
    some (if st.originalImageUrl ≠ "" then st.originalImageUrl else "")
  else
    let index : Int := min st.currentChangeIndex ((st.generatedImages.length : Int) - 1)
    imageAt st.generatedImages index

/-! ## Predicates of the specification -/

/-- The text contains a fenced block: an opening fence followed, later, by a closing
fence. -/
def HasFencedBlock (text : String) : Prop :=
  ∃ pre body post : List Char, text.data = pre ++ fenceOpen ++ (body ++ fenceClose ++ post)

/-- The text contains a `{` followed, later, by a `}`. -/
def HasBraceSpan (text : String) : Prop :=
  ∃ pre body post : List Char, text.data = pre ++ ['{'] ++ (body ++ ['}'] ++ post)

/-- The occurrence of `pat` right after `pre` is the first one in `pre ++ pat ++ rest`. -/
def IsFirstOccurrence (pat pre rest : List Char) : Prop :=
  ∀ p s : List Char, pre ++ pat ++ rest = p ++ pat ++ s → pre.length ≤ p.length

/-- The occurrence of `pat` right after `body` is the last one in `body ++ pat ++ post`. -/
def IsLastOccurrence (pat body post : List Char) : Prop :=
  ∀ p s : List Char, body ++ pat ++ post = p ++ pat ++ s → p.length ≤ body.length

/-- The analysis has at least one issue, one recommendation and one principle, and
keeps the given text as `raw_analysis`. -/
def IsDefaultShaped (text : String) (v : JsVal) : Prop :=
  ∃ assessment : JsVal, ∃ issues recs principles : List JsVal,
    v.prop "current_assessment" = .ok assessment ∧
    assessment.prop "identified_issues" = .ok (.arr issues) ∧ 1 ≤ issues.length ∧
    v.prop "improvement_recommendations" = .ok (.arr recs) ∧ 1 ≤ recs.length ∧
    v.prop "urban_planning_principles" = .ok (.arr principles) ∧ 1 ≤ principles.length ∧
    v.prop "raw_analysis" = .ok (.str text)

/-- The image parts among the parts of a response. -/
def imageParts (parts : List Part) : List InlineData :=
  parts.filterMap (·.inlineData)

/-- The data of the last image part among the parts of a response. -/
def lastImageData : List Part → Option String
  | [] => none
  | part :: rest =>
    match lastImageData rest with
    | some d => some d
    | none => part.inlineData.map (·.data)

/-- The parts of the response to call number `k`; none when the call is rejected or the
response has no candidate. -/
def partsOfCall (model : ModelScript) (k : Nat) : List Part :=
  match model k with
  | .ok response =>
    match responseParts response with
    | .ok parts => parts
    | .error _ => []
  | .error _ => []

/-- No response of the model carries more than one image part. -/
def AtMostOneImagePerResponse (model : ModelScript) : Prop :=
  ∀ k : Nat, (imageParts (partsOfCall model k)).length ≤ 1

/-- The step recorded for the recommendation at index `i`: its index and its three
fields (`undefined` for a field it lacks). -/
def stepOf (i : Nat) (rec : JsVal) : Change :=
  { id := i
    category := match rec.prop "category" with | .ok v => v | .error _ => .undefined
    description := match rec.prop "recommendation" with | .ok v => v | .error _ => .undefined
    benefits := match rec.prop "expected_benefits" with | .ok v => v | .error _ => .undefined }

/-- The steps the specification describes for an incremental run whose first call has
number `n`: the recommendations whose call returned an image, in order, each with the
index `i` of the recommendation. -/
def stepsWithImage (model : ModelScript) : Nat → Nat → List JsVal → List Change
  | _, _, [] => []
  | n, i, rec :: rest =>
    (if imageParts (partsOfCall model n) = [] then [] else [stepOf i rec])
      ++ stepsWithImage model (n + 1) (i + 1) rest

/-- The image carried into the call for recommendation `i` of a run whose first call has
number `n`: the image returned by the most recent earlier call of the run that returned
one, the original image when there is none. -/
def chainedImage (model : ModelScript) (original : String) (n : Nat) : Nat → String
  | 0 => original
  | i + 1 =>
    match lastImageData (partsOfCall model (n + i)) with
    | some d => d
    | none => chainedImage model original n i

/-- The steps an incremental run records when its first call has number `n`: for each
recommendation, one step per image part of the response to its call. -/
def stepsPerImagePart (model : ModelScript) : Nat → Nat → List JsVal → List Change
  | _, _, [] => []
  | n, i, rec :: rest =>
    List.replicate (imageParts (partsOfCall model n)).length (stepOf i rec)
      ++ stepsPerImagePart model (n + 1) (i + 1) rest

/-- The image paths an incremental run records, one per image part. -/
def pathsPerImagePart (model : ModelScript) (timestamp : Nat) (outputDir : String) :
    Nat → Nat → List JsVal → List String
  | _, _, [] => []
  | n, i, _ :: rest =>
    List.replicate (imageParts (partsOfCall model n)).length
        (pathJoin outputDir (stepImageName timestamp i))
      ++ pathsPerImagePart model timestamp outputDir (n + 1) (i + 1) rest

/-- One step per recommendation, numbered from `i`. -/
def stepsOfAll : Nat → List JsVal → List Change
  | _, [] => []
  | i, rec :: rest => stepOf i rec :: stepsOfAll (i + 1) rest

/-! ## Example inputs -/

/-- The JSON text
`{"improvement_recommendations": [{"category": "Safety", "recommendation": "Add lighting", "expected_benefits": "Safer streets"}]}`. -/
def lightingObject : String :=
  "\x7b\"improvement_recommendations\": [\x7b\"category\": \"Safety\", \"recommendation\": \"Add lighting\", \"expected_benefits\": \"Safer streets\"\x7d]\x7d"

/-- The text `Use {braces} freely. ` followed by `lightingObject`. -/
def proseThenObject : String :=
  "Use \x7bbraces\x7d freely. \x7b\"improvement_recommendations\": [\x7b\"category\": \"Safety\", \"recommendation\": \"Add lighting\", \"expected_benefits\": \"Safer streets\"\x7d]\x7d"

/-- The JSON text `{"improvement_recommendations": []}`. -/
def emptyPlanObject : String := "\x7b\"improvement_recommendations\": []\x7d"

/-- Three recommendations with categories `A`, `B` and `C`. -/
def exampleRecommendations : List JsVal := [
  .obj [("category", .str "A"), ("recommendation", .str "widen the pavement"),
        ("expected_benefits", .str "walkability")],
  .obj [("category", .str "B"), ("recommendation", .str "plant trees"),
        ("expected_benefits", .str "shade")],
  .obj [("category", .str "C"), ("recommendation", .str "add a crossing"),
        ("expected_benefits", .str "safety")]]

/-- An analysis with the three example recommendations and one principle. -/
def exampleAnalysis : JsVal :=
  .obj [("improvement_recommendations", .arr exampleRecommendations),
        ("urban_planning_principles", .arr [.str "Improved walkability"])]

/-- A response with a text part and one image part carrying `data`. -/
def imageResponse (data : String) : GenerateContentResponse :=
  { candidates := [[{ text := some "Here is the image.", inlineData := none },
                    { text := none, inlineData := some { mimeType := "image/png", data := data } }]] }

/-- A response with a text part only. -/
def textResponse : GenerateContentResponse :=
  { candidates := [[{ text := some "I cannot draw this.", inlineData := none }]] }

/-- A response with two image parts. -/
def twoImageResponse (first second : String) : GenerateContentResponse :=
  { candidates := [[{ text := none, inlineData := some { mimeType := "image/png", data := first } },
                    { text := none, inlineData := some { mimeType := "image/png", data := second } }]] }

/-- A world whose only file is the uploaded image, with content `ORIGINAL`. -/
def exampleWorld : World :=
  { files := [("uploads/in.png", "ORIGINAL")], written := [], requests := [] }

/-- A model that returns an image for the first and the third call and text for the
others. -/
def scriptFirstAndThird : ModelScript := fun k =>
  if k = 0 then .ok (imageResponse "IMAGE-A")
  else if k = 2 then .ok (imageResponse "IMAGE-C")
  else .ok textResponse

/-- A model that returns an image for every call, numbered by the call. -/
def scriptAlways : ModelScript := fun k => .ok (imageResponse ("IMAGE-" ++ toString k))

/-- A model that returns text for the first three calls and an image for the fourth. -/
def scriptOnlyFourth : ModelScript := fun k =>
  if k = 3 then .ok (imageResponse "IMAGE-ALL") else .ok textResponse

/-- A model whose first response carries two image parts. -/
def scriptTwoImages : ModelScript := fun k =>
  if k = 0 then .ok (twoImageResponse "IMAGE-1" "IMAGE-2") else .ok textResponse

/-- An analysis with a single recommendation. -/
def singleAnalysis : JsVal :=
  .obj [("improvement_recommendations", .arr [
          .obj [("category", .str "A"), ("recommendation", .str "widen the pavement"),
                ("expected_benefits", .str "walkability")]]),
        ("urban_planning_principles", .arr [.str "Improved walkability"])]

/-- The ids of the steps of a result, `none` for an exception. -/
def stepIds (r : Except JsError VisualizationResult) : Option (List Nat) :=
  match r with
  | .ok res => some (res.incrementalChanges.map (·.id))
  | .error _ => none

/-- The categories of the steps of a result, as text. -/
def stepCategories (r : Except JsError VisualizationResult) : Option (List String) :=
  match r with
  | .ok res => some (res.incrementalChanges.map fun c =>
      match c.category with
      | .str s => s
      | _ => "")
  | .error _ => none

/-- The number a text of decimal digits denotes, read from the left. -/
def decimalValue (cs : List Char) : Nat :=
  cs.foldl (fun acc c => 10 * acc + (c.toNat - 48)) 0

/-- A model that returns an image for the first call only. -/
def scriptOnlyFirst : ModelScript := fun k =>
  if k = 0 then .ok (imageResponse "IMAGE-A") else .ok textResponse

/-- The position `k` is the first one of the list whose category is strictly equal to
`category`. -/
def IsFirstWithCategory (same : Nat → Bool) (improvements : List Change) (category : JsVal)
    (k : Nat) : Prop :=
  (∃ c, improvements[k]? = some c ∧ strictEquals (same k) c.category category = true) ∧
  ∀ (j : Nat) (c : Change), j < k → improvements[j]? = some c →
    strictEquals (same j) c.category category = false

/-- No step of the list has a category strictly equal to `category`. -/
def NoneWithCategory (same : Nat → Bool) (improvements : List Change) (category : JsVal) :
    Prop :=
  ∀ (j : Nat) (c : Change), improvements[j]? = some c →
    strictEquals (same j) c.category category = false

/-- The request failed: the fetch raised, or the reply lacks `success`. -/
def RequestFailed : FetchOutcome → Prop
  | .failed _ => True
  | .data d => d.success = false

/-- The file type is accepted and the size is within the limit. -/
def IsValidUpload (file : UploadedFile) : Prop :=
  file.type ∈ validTypes ∧ file.size ≤ maxSize

/-- A PNG file of 2 MB. -/
def smallFile : UploadedFile := { name := "street.png", type := "image/png", size := 2097152 }

/-- A PNG file of 20 MB. -/
def bigFile : UploadedFile := { name := "big.png", type := "image/png", size := 20971520 }

/-- The state after `smallFile` was selected and read: the preview is shown, nothing
was submitted yet. -/
def previewState : ClientState :=
  { initialState with uploadedFile := some smallFile,
                      previewImageUrl := "data:image/png;base64,AAAA",
                      previewVisible := true }

/-- A state showing the three steps of the example recommendations. -/
def threeStepState : ClientState :=
  { initialState with analysisResults := exampleAnalysis,
                      improvements := stepsOfAll 0 exampleRecommendations,
                      generatedImages := ["/results/improved-5-step-1.png",
                        "/results/improved-5-step-2.png", "/results/improved-5-step-3.png"],
                      resultVisible := true }

/-- A history entry with the given id. -/
def historyEntry (id : Nat) : SavedAnalysis :=
  { id := id, originalImageDataUrl := "", resultImageUrl := "", analysis := .obj [],
    improvements := [], generatedImages := [], timestamp := "" }

/-- A state whose history holds the twenty entries with ids 20, 19, ..., 1. -/
def fullHistoryState : ClientState :=
  { initialState with savedAnalyses := (List.range 20).map fun i => historyEntry (20 - i) }

/-- The state after a single-shot result: three steps and one image, the cursor on the
last step. -/
def singleShotState : ClientState :=
  { initialState with
    originalImageUrl := "data:image/png;base64,AAAA"
    improvements := [⟨0, .str "A", .str "a", .str "x"⟩, ⟨1, .str "B", .str "b", .str "y"⟩,
                     ⟨2, .str "C", .str "c", .str "z"⟩]
    generatedImages := ["/results/improved-5.png"]
    currentChangeIndex := 2 }

/-- A model whose first response has no candidate (a blocked prompt) and whose later
responses carry an image. -/
def scriptBlockedFirst : ModelScript := fun k =>
  if k = 0 then .ok { candidates := [] } else .ok (imageResponse "IMAGE-ALL")

/-- An analysis whose two recommendations have objects as categories. -/
def objectCategoryAnalysis : JsVal :=
  .obj [("improvement_recommendations", .arr [
          .obj [("category", .obj [("name", .str "Green")]),
                ("recommendation", .str "plant street trees"),
                ("expected_benefits", .str "shade")],
          .obj [("category", .obj [("name", .str "Mobility")]),
                ("recommendation", .str "add a cycle lane"),
                ("expected_benefits", .str "safer cycling")]]),
        ("urban_planning_principles", .arr [])]

/-- The state after `setupIncrementalChanges` built the steps from the recommendations
of `objectCategoryAnalysis`: each step holds the category object of its recommendation. -/
def objectCategoryState : ClientState :=
  { initialState with
    analysisResults := objectCategoryAnalysis
    improvements := [⟨0, .obj [("name", .str "Green")], .str "plant street trees", .str "shade"⟩,
                     ⟨1, .obj [("name", .str "Mobility")], .str "add a cycle lane",
                      .str "safer cycling"⟩]
    generatedImages := ["/results/improved-5.png"]
    resultVisible := true }

/-! # Theorems -/

/-! ## Locating the candidate -/

theorem splitAtFirst_cons (pat : List Char) (c : Char) (cs : List Char) :
    splitAtFirst pat (c :: cs) =
      if pat.isPrefixOf (c :: cs) then some ([], (c :: cs).drop pat.length)
      else (splitAtFirst pat cs).map fun r => (c :: r.1, r.2) := rfl

theorem splitAtLast_cons (pat : List Char) (c : Char) (cs : List Char) :
    splitAtLast pat (c :: cs) =
      match splitAtLast pat cs with
      | some r => some (c :: r.1, r.2)
      | none =>
        if pat.isPrefixOf (c :: cs) then some ([], (c :: cs).drop pat.length) else none := rfl

theorem drop_of_isPrefixOf (pat text : List Char) (h : pat.isPrefixOf text = true) :
    text = pat ++ text.drop pat.length := by
  obtain ⟨t, ht⟩ := List.isPrefixOf_iff_prefix.mp h
  rw [← ht]
  simp

theorem isPrefixOf_append (pat rest : List Char) : pat.isPrefixOf (pat ++ rest) = true :=
  List.isPrefixOf_iff_prefix.mpr ⟨rest, rfl⟩

theorem splitAtFirst_sound (pat : List Char) :
    ∀ (text a b : List Char), splitAtFirst pat text = some (a, b) → text = a ++ pat ++ b := by
  intro text
  induction text with
  | nil =>
    intro a b h
    by_cases hp : pat = []
    · simp [splitAtFirst, hp] at h
      simp [hp, h.1, h.2]
    · simp [splitAtFirst, hp] at h
  | cons c cs ih =>
    intro a b h
    rw [splitAtFirst_cons] at h
    by_cases hpre : pat.isPrefixOf (c :: cs) = true
    · rw [if_pos hpre] at h
      simp only [Option.some.injEq, Prod.mk.injEq] at h
      rw [← h.1, ← h.2]
      simpa using drop_of_isPrefixOf pat (c :: cs) hpre
    · rw [if_neg hpre] at h
      cases hrec : splitAtFirst pat cs with
      | none => rw [hrec] at h; simp at h
      | some r =>
        rw [hrec] at h
        simp only [Option.map_some', Option.some.injEq, Prod.mk.injEq] at h
        have := ih r.1 r.2 hrec
        rw [← h.1, ← h.2, this]
        simp

theorem splitAtLast_sound (pat : List Char) :
    ∀ (text a b : List Char), splitAtLast pat text = some (a, b) → text = a ++ pat ++ b := by
  intro text
  induction text with
  | nil =>
    intro a b h
    by_cases hp : pat = []
    · simp [splitAtLast, hp] at h
      simp [hp, h.1, h.2]
    · simp [splitAtLast, hp] at h
  | cons c cs ih =>
    intro a b h
    rw [splitAtLast_cons] at h
    cases hrec : splitAtLast pat cs with
    | some r =>
      rw [hrec] at h
      simp only [Option.some.injEq, Prod.mk.injEq] at h
      have := ih r.1 r.2 hrec
      rw [← h.1, ← h.2, this]
      simp
    | none =>
      rw [hrec] at h
      by_cases hpre : pat.isPrefixOf (c :: cs) = true
      · simp only [hpre, if_true, Option.some.injEq, Prod.mk.injEq] at h
        rw [← h.1, ← h.2]
        simpa using drop_of_isPrefixOf pat (c :: cs) hpre
      · simp [hpre] at h

theorem splitAtFirst_of_first (pat : List Char) (hpat : pat ≠ []) (rest : List Char) :
    ∀ pre : List Char, IsFirstOccurrence pat pre rest →
      splitAtFirst pat (pre ++ pat ++ rest) = some (pre, rest) := by
  intro pre
  induction pre with
  | nil =>
    intro _
    obtain ⟨c, pt, rfl⟩ := List.exists_cons_of_ne_nil hpat
    have hpre : (c :: pt).isPrefixOf (c :: (pt ++ rest)) = true :=
      isPrefixOf_append (c :: pt) rest
    rw [List.nil_append, List.cons_append, splitAtFirst_cons, if_pos hpre]
    simp
  | cons c pre ih =>
    intro hfirst
    have hnot : ¬ pat.isPrefixOf (c :: (pre ++ pat ++ rest)) = true := by
      intro hpre
      have h1 := drop_of_isPrefixOf pat _ hpre
      have := hfirst [] _ (by simpa using h1)
      simp at this
    have ih1 := ih (fun p s h => by
      have := hfirst (c :: p) s (by simpa using h)
      simpa using this)
    rw [List.cons_append, List.cons_append, splitAtFirst_cons, if_neg hnot, ih1]
    rfl

theorem splitAtLast_of_last (pat : List Char) (hpat : pat ≠ []) (post : List Char) :
    ∀ body : List Char, IsLastOccurrence pat body post →
      splitAtLast pat (body ++ pat ++ post) = some (body, post) := by
  intro body
  induction body with
  | nil =>
    intro hlast
    obtain ⟨c, pt, rfl⟩ := List.exists_cons_of_ne_nil hpat
    have hpre : (c :: pt).isPrefixOf (c :: (pt ++ post)) = true :=
      isPrefixOf_append (c :: pt) post
    have hrec : splitAtLast (c :: pt) (pt ++ post) = none := by
      cases h : splitAtLast (c :: pt) (pt ++ post) with
      | none => rfl
      | some r =>
        have hs := splitAtLast_sound (c :: pt) (pt ++ post) r.1 r.2 h
        have := hlast (c :: r.1) r.2 (by simp [hs])
        simp at this
    rw [List.nil_append, List.cons_append, splitAtLast_cons, hrec]
    simp only [hpre, if_true]
    simp
  | cons c body ih =>
    intro hlast
    have ih1 := ih (fun p s h => by
      have := hlast (c :: p) s (by simpa using h)
      simpa using this)
    rw [List.cons_append, List.cons_append, splitAtLast_cons, ih1]

theorem splitAtFirst_is_first (pat : List Char) :
    ∀ (text pre rest : List Char), splitAtFirst pat text = some (pre, rest) →
      ∀ p s : List Char, text = p ++ pat ++ s → pre.length ≤ p.length := by
  intro text
  induction text with
  | nil =>
    intro pre rest h p s _
    by_cases hp : pat = []
    · simp [splitAtFirst, hp] at h
      simp [h.1]
    · simp [splitAtFirst, hp] at h
  | cons c cs ih =>
    intro pre rest h p s hps
    rw [splitAtFirst_cons] at h
    by_cases hpre : pat.isPrefixOf (c :: cs) = true
    · rw [if_pos hpre] at h
      simp only [Option.some.injEq, Prod.mk.injEq] at h
      simp [← h.1]
    · rw [if_neg hpre] at h
      cases hrec : splitAtFirst pat cs with
      | none => rw [hrec] at h; simp at h
      | some r =>
        rw [hrec] at h
        simp only [Option.map_some', Option.some.injEq, Prod.mk.injEq] at h
        cases p with
        | nil =>
          exfalso
          apply hpre
          rw [hps]
          simp
        | cons c1 p1 =>
          have hcs : cs = p1 ++ pat ++ s := by
            have := congrArg List.tail hps
            simpa using this
          have := ih r.1 r.2 hrec p1 s hcs
          rw [← h.1]
          simpa using this

theorem splitAtLast_ne_none (pat : List Char) (hpat : pat ≠ []) (s : List Char) :
    ∀ p : List Char, splitAtLast pat (p ++ pat ++ s) ≠ none := by
  intro p
  induction p with
  | nil =>
    obtain ⟨c, pt, rfl⟩ := List.exists_cons_of_ne_nil hpat
    rw [List.nil_append, List.cons_append, splitAtLast_cons]
    cases splitAtLast (c :: pt) (pt ++ s) with
    | some r => simp
    | none =>
      have hpre : (c :: pt).isPrefixOf (c :: (pt ++ s)) = true := isPrefixOf_append (c :: pt) s
      simp [hpre]
  | cons c p ih =>
    rw [List.cons_append, List.cons_append, splitAtLast_cons]
    cases h : splitAtLast pat (p ++ pat ++ s) with
    | some r => simp
    | none => exact absurd h ih

theorem splitAtLast_is_last (pat : List Char) (hpat : pat ≠ []) :
    ∀ (text body post : List Char), splitAtLast pat text = some (body, post) →
      ∀ p s : List Char, text = p ++ pat ++ s → p.length ≤ body.length := by
  intro text
  induction text with
  | nil =>
    intro body post h
    simp [splitAtLast, hpat] at h
  | cons c cs ih =>
    intro body post h p s hps
    rw [splitAtLast_cons] at h
    cases p with
    | nil => simp
    | cons c1 p1 =>
      have hcs : cs = p1 ++ pat ++ s := by
        have := congrArg List.tail hps
        simpa using this
      cases hrec : splitAtLast pat cs with
      | none =>
        exfalso
        rw [hcs] at hrec
        exact splitAtLast_ne_none pat hpat s p1 hrec
      | some r =>
        rw [hrec] at h
        simp only [Option.some.injEq, Prod.mk.injEq] at h
        have := ih r.1 r.2 hrec p1 s hcs
        rw [← h.1]
        simpa using this

theorem isFirstOccurrence_of_splitAtFirst (pat pre rest : List Char)
    (h : splitAtFirst pat (pre ++ pat ++ rest) = some (pre, rest)) :
    IsFirstOccurrence pat pre rest :=
  fun p s e => splitAtFirst_is_first pat _ pre rest h p s e

theorem isLastOccurrence_of_splitAtLast (pat body post : List Char) (hpat : pat ≠ [])
    (h : splitAtLast pat (body ++ pat ++ post) = some (body, post)) :
    IsLastOccurrence pat body post :=
  fun p s e => splitAtLast_is_last pat hpat _ body post h p s e

theorem isFirstOccurrence_of_not_mem (c : Char) (rest : List Char) :
    ∀ pre : List Char, c ∉ pre → IsFirstOccurrence [c] pre rest := by
  intro pre
  induction pre with
  | nil => intro _ p s _; simp
  | cons a pre ih =>
    intro hmem p s h
    cases p with
    | nil =>
      exfalso
      have : a = c := by
        have := congrArg List.head? h
        simpa using this
      exact hmem (by simp [this])
    | cons b p =>
      have ht : pre ++ [c] ++ rest = p ++ [c] ++ s := by
        have := congrArg List.tail h
        simpa using this
      have := ih (fun hc => hmem (List.mem_cons_of_mem _ hc)) p s ht
      simpa using this

theorem isLastOccurrence_of_not_mem (c : Char) (body post : List Char) (hmem : c ∉ post) :
    IsLastOccurrence [c] body post := by
  intro p s h
  have hrev : post.reverse ++ [c] ++ body.reverse = s.reverse ++ [c] ++ p.reverse := by
    have := congrArg List.reverse h
    simpa using this
  have h1 := isFirstOccurrence_of_not_mem c body.reverse post.reverse (by simpa using hmem)
    s.reverse p.reverse hrev
  have hlen := congrArg List.length h
  simp only [List.length_append, List.length_reverse, List.length_singleton] at h1 hlen
  omega

theorem matchDelimited_of_occurrences (open_ close pre body post : List Char)
    (ho : open_ ≠ []) (hc : close ≠ [])
    (hfirst : IsFirstOccurrence open_ pre (body ++ close ++ post))
    (hlast : IsLastOccurrence close body post) :
    matchDelimited open_ close (pre ++ open_ ++ (body ++ close ++ post)) = some body := by
  unfold matchDelimited
  rw [splitAtFirst_of_first open_ ho _ pre hfirst]
  simp only
  rw [splitAtLast_of_last close hc post body hlast]

theorem hasDelimited_of_matchDelimited (open_ close text body : List Char)
    (h : matchDelimited open_ close text = some body) :
    ∃ pre post : List Char, text = pre ++ open_ ++ (body ++ close ++ post) := by
  unfold matchDelimited at h
  cases h1 : splitAtFirst open_ text with
  | none => rw [h1] at h; simp at h
  | some r =>
    rw [h1] at h
    simp only at h
    cases h2 : splitAtLast close r.2 with
    | none => rw [h2] at h; simp at h
    | some q =>
      rw [h2] at h
      simp only [Option.some.injEq] at h
      have e1 := splitAtFirst_sound open_ text r.1 r.2 h1
      have e2 := splitAtLast_sound close r.2 q.1 q.2 h2
      exact ⟨r.1, q.2, by rw [e1, e2, h]⟩

theorem matchFencedJson_none_of_not_hasFencedBlock (text : String) (h : ¬ HasFencedBlock text) :
    matchFencedJson text = none := by
  unfold matchFencedJson
  cases hm : matchDelimited fenceOpen fenceClose text.data with
  | none => rfl
  | some body =>
    exfalso
    obtain ⟨pre, post, e⟩ := hasDelimited_of_matchDelimited _ _ _ _ hm
    exact h ⟨pre, body, post, e⟩

theorem matchBraces_none_of_not_hasBraceSpan (text : String) (h : ¬ HasBraceSpan text) :
    matchBraces text = none := by
  unfold matchBraces
  cases hm : matchDelimited ['{'] ['}'] text.data with
  | none => rfl
  | some body =>
    exfalso
    obtain ⟨pre, post, e⟩ := hasDelimited_of_matchDelimited _ _ _ _ hm
    exact h ⟨pre, body, post, e⟩

theorem backtick_mem_of_hasFencedBlock (text : String) (h : HasFencedBlock text) :
    '`' ∈ text.data := by
  obtain ⟨pre, body, post, e⟩ := h
  rw [e]
  simp [fenceOpen]

theorem brace_mem_of_hasBraceSpan (text : String) (h : HasBraceSpan text) :
    '{' ∈ text.data := by
  obtain ⟨pre, body, post, e⟩ := h
  rw [e]
  simp

theorem isDefaultShaped_noJsonAnalysis (text : String) :
    IsDefaultShaped text (noJsonAnalysis text) :=
  ⟨_, _, _, _, rfl, rfl, by decide, rfl, by decide, rfl, by decide, rfl⟩

theorem isDefaultShaped_parseErrorAnalysis (text : String) :
    IsDefaultShaped text (parseErrorAnalysis text) :=
  ⟨_, _, _, _, rfl, rfl, by decide, rfl, by decide, rfl, by decide, rfl⟩

/-! ## Claims about `parseAnalysisResponse` -/

/-- C1: for every input string and whatever the decoder does, `parseAnalysisResponse`
returns a value and raises no exception. -/
theorem parseAnalysisResponse_never_throws (jsonParse : String → Except JsError JsVal)
    (analysisText : String) :
    ∃ v : JsVal, parseAnalysisResponse jsonParse analysisText = .ok v := by
  unfold parseAnalysisResponse
  cases parseAnalysisResponseTry jsonParse analysisText with
  | ok v => exact ⟨v, rfl⟩
  | error e => exact ⟨_, rfl⟩

/-- C2: when the text contains neither a fenced block nor a brace span, or when the
located candidate fails to decode, `parseAnalysisResponse` returns a non-null analysis
with at least one issue, one recommendation and one principle, whose `raw_analysis` is
the input text. -/
theorem parseAnalysisResponse_default_of_malformed (jsonParse : String → Except JsError JsVal)
    (analysisText : String)
    (h : (¬ HasFencedBlock analysisText ∧ ¬ HasBraceSpan analysisText) ∨
      ∃ c e, jsonCandidate analysisText = some c ∧ jsonParse c = .error e) :
    ∃ v : JsVal, parseAnalysisResponse jsonParse analysisText = .ok v ∧ v ≠ .null ∧
      IsDefaultShaped analysisText v := by
  rcases h with ⟨hf, hb⟩ | ⟨c, e, hc, he⟩
  · refine ⟨noJsonAnalysis analysisText, ?_, by simp [noJsonAnalysis],
      isDefaultShaped_noJsonAnalysis analysisText⟩
    simp [parseAnalysisResponse, parseAnalysisResponseTry,
      matchFencedJson_none_of_not_hasFencedBlock analysisText hf,
      matchBraces_none_of_not_hasBraceSpan analysisText hb]
  · refine ⟨parseErrorAnalysis analysisText, ?_, by simp [parseErrorAnalysis],
      isDefaultShaped_parseErrorAnalysis analysisText⟩
    unfold jsonCandidate at hc
    unfold parseAnalysisResponse parseAnalysisResponseTry
    cases hm : (matchFencedJson analysisText).orElse fun _ => matchBraces analysisText with
    | none => rw [hm] at hc; simp at hc
    | some m =>
      rw [hm] at hc
      simp only [Option.map_some', Option.some.injEq] at hc
      simp only [hc, he]

/-- Witness for C2: the text of the specification's example. -/
theorem parseAnalysisResponse_default_of_malformed_witness :
    ∃ v : JsVal, parseAnalysisResponse jsonDecode "I think this space needs work." = .ok v ∧
      v ≠ .null ∧ IsDefaultShaped "I think this space needs work." v :=
  parseAnalysisResponse_default_of_malformed jsonDecode "I think this space needs work."
    (Or.inl ⟨fun h => absurd (backtick_mem_of_hasFencedBlock _ h) (by decide),
      fun h => absurd (brace_mem_of_hasBraceSpan _ h) (by decide)⟩)

/-- The candidate handed to the decoder when a non-empty fenced text is matched. -/
theorem parseAnalysisResponseTry_fenced (jsonParse : String → Except JsError JsVal)
    (text : String) (body : List Char) (hbody : body ≠ [])
    (hm : matchDelimited fenceOpen fenceClose text.data = some body) :
    parseAnalysisResponseTry jsonParse text = jsonParse ⟨body⟩ := by
  have hne : (⟨body⟩ : String) ≠ "" := by
    intro h
    exact hbody (congrArg String.data h)
  simp [parseAnalysisResponseTry, matchFencedJson, hm, RegExpMatch.jsonStr, hne]

/-- The candidate handed to the decoder when only the brace pattern matches. -/
theorem parseAnalysisResponseTry_braces (jsonParse : String → Except JsError JsVal)
    (text : String) (body : List Char) (hf : matchFencedJson text = none)
    (hm : matchDelimited ['{'] ['}'] text.data = some body) :
    parseAnalysisResponseTry jsonParse text = jsonParse ⟨['{'] ++ body ++ ['}']⟩ := by
  simp [parseAnalysisResponseTry, hf, matchBraces, hm, RegExpMatch.jsonStr]

/-- C3 (as stated) fails: `proseThenObject` embeds the valid JSON object
`lightingObject` after prose that contains braces.  The object alone decodes to one
recommendation "Add lighting", but the candidate runs from the first `{` of the prose,
does not decode, and the analysis of the `catch` block is returned. -/
theorem parseAnalysisResponse_embedded_counterexample :
    proseThenObject = "Use \x7bbraces\x7d freely. " ++ lightingObject ∧
    jsonDecode lightingObject
      = .ok (.obj [("improvement_recommendations", .arr [.obj [
          ("category", .str "Safety"), ("recommendation", .str "Add lighting"),
          ("expected_benefits", .str "Safer streets")]])]) ∧
    parseAnalysisResponse jsonDecode proseThenObject
      = .ok (parseErrorAnalysis proseThenObject) ∧
    (parseErrorAnalysis proseThenObject).prop "improvement_recommendations"
      = .ok (.arr [.obj [("category", .str "General"),
          ("recommendation", .str "See raw analysis text below"),
          ("expected_benefits", .str "Various urban improvements")]]) :=
  ⟨by decide, rfl, rfl, rfl⟩

/-- C3 (amended): the decoded value of an embedded JSON text is returned (so its
recommendations are those of the embedded JSON, in the same order) in two cases.
Fenced: the text is non-empty, its opening fence is the first opening fence of the whole
text and its closing fence is the last closing fence.  Bare: the text contains no fenced
block, the JSON text starts with `{` and ends with `}`, no `{` occurs before it and no `}`
occurs after it. -/
theorem parseAnalysisResponse_recovers_embedded (jsonParse : String → Except JsError JsVal)
    (pre body post : List Char) (v : JsVal) (hdec : jsonParse ⟨body⟩ = .ok v) :
    (body ≠ [] → IsFirstOccurrence fenceOpen pre (body ++ fenceClose ++ post) →
      IsLastOccurrence fenceClose body post →
      parseAnalysisResponse jsonParse ⟨pre ++ fenceOpen ++ (body ++ fenceClose ++ post)⟩
        = .ok v) ∧
    (∀ inner : List Char, body = ['{'] ++ inner ++ ['}'] → '{' ∉ pre → '}' ∉ post →
      ¬ HasFencedBlock ⟨pre ++ body ++ post⟩ →
      parseAnalysisResponse jsonParse ⟨pre ++ body ++ post⟩ = .ok v) := by
  constructor
  · intro hbody hfirst hlast
    have hm := matchDelimited_of_occurrences fenceOpen fenceClose pre body post
      (by simp [fenceOpen]) (by simp [fenceClose]) hfirst hlast
    unfold parseAnalysisResponse
    rw [parseAnalysisResponseTry_fenced jsonParse _ body hbody hm, hdec]
  · intro inner hinner hpre hpost hfence
    have hm : matchDelimited ['{'] ['}'] (pre ++ body ++ post) = some inner := by
      have := matchDelimited_of_occurrences ['{'] ['}'] pre inner post (by simp) (by simp)
        (isFirstOccurrence_of_not_mem '{' _ pre hpre)
        (isLastOccurrence_of_not_mem '}' inner post hpost)
      rw [hinner]
      simpa using this
    unfold parseAnalysisResponse
    rw [parseAnalysisResponseTry_braces jsonParse _ inner
      (matchFencedJson_none_of_not_hasFencedBlock _ hfence) hm, ← hinner, hdec]

/-- Witness for C3 (amended): the object `emptyPlanObject` fenced between two lines of
prose that contain braces, and the same object bare between brace-free prose. -/
theorem parseAnalysisResponse_recovers_embedded_witness :
    parseAnalysisResponse jsonDecode
        ("Plan \x7bv1\x7d:\n```json\n" ++ emptyPlanObject ++ "\n```\nDone \x7bok\x7d.")
      = .ok (.obj [("improvement_recommendations", .arr [])]) ∧
    parseAnalysisResponse jsonDecode ("Here it is: " ++ emptyPlanObject ++ " as asked.")
      = .ok (.obj [("improvement_recommendations", .arr [])]) :=
  ⟨(parseAnalysisResponse_recovers_embedded jsonDecode "Plan \x7bv1\x7d:\n".data
      emptyPlanObject.data "\nDone \x7bok\x7d.".data
      (.obj [("improvement_recommendations", .arr [])]) rfl).1 (by decide)
      (isFirstOccurrence_of_splitAtFirst fenceOpen _ _ (by decide))
      (isLastOccurrence_of_splitAtLast fenceClose _ _ (by decide) (by decide)),
    (parseAnalysisResponse_recovers_embedded jsonDecode "Here it is: ".data
      emptyPlanObject.data " as asked.".data
      (.obj [("improvement_recommendations", .arr [])]) rfl).2
      "\"improvement_recommendations\": []".data (by decide) (by decide) (by decide)
      (fun h => absurd (backtick_mem_of_hasFencedBlock _ h) (by decide))⟩

/-! ## Property reads -/

theorem prop_ok_of_ne (v : JsVal) (key : String) (h1 : v ≠ .null) (h2 : v ≠ .undefined) :
    ∃ x, v.prop key = .ok x := by
  cases v <;> simp [JsVal.prop] at *

theorem ne_of_prop_ok (v : JsVal) (key : String) (x : JsVal) (h : v.prop key = .ok x) :
    v ≠ .null ∧ v ≠ .undefined := by
  cases v <;> simp [JsVal.prop] at *

theorem makeChange_eq_stepOf (i : Nat) (rec : JsVal) (h1 : rec ≠ .null)
    (h2 : rec ≠ .undefined) : makeChange i rec = .ok (stepOf i rec) := by
  cases rec <;> simp [makeChange, stepOf, JsVal.prop] at *

theorem ne_of_createIncrementalPrompt (rec : JsVal) (a b : Nat) (prompt : String)
    (h : createIncrementalPrompt rec a b = .ok prompt) : rec ≠ .null ∧ rec ≠ .undefined := by
  cases rec <;> simp [createIncrementalPrompt, JsVal.prop] at *

theorem ne_of_makeChange (i : Nat) (rec : JsVal) (c : Change) (h : makeChange i rec = .ok c) :
    rec ≠ .null ∧ rec ≠ .undefined := by
  cases rec <;> simp [makeChange, JsVal.prop] at *

theorem ne_of_recommendationLine (rec : JsVal) (line : String)
    (h : recommendationLine rec = .ok line) : rec ≠ .null ∧ rec ≠ .undefined := by
  cases rec <;> simp [recommendationLine, JsVal.prop] at *

/-! ## The file system -/

theorem lookup_writeFileSync_same (path data : String) (w : World) :
    (writeFileSync path data w).files.lookup path = some data := by
  simp [writeFileSync, List.lookup]

theorem copyFileSync_after_write (src dest data : String) (w : World) :
    copyFileSync src dest (writeFileSync src data w)
      = .ok (writeFileSync dest data (writeFileSync src data w)) := by
  simp [copyFileSync, readFileSync, lookup_writeFileSync_same]

theorem lookup_after_copy (src dest data : String) (w : World) :
    (writeFileSync dest data (writeFileSync src data w)).files.lookup src = some data := by
  by_cases h : src = dest
  · subst h
    exact lookup_writeFileSync_same _ _ _
  · have : (src == dest) = false := by simpa using h
    simp [writeFileSync, List.lookup, this]

/-! ## The parts of one response -/

theorem saveIncrementalPart_eq (timestamp : Nat) (outputDir finalImagePath : String)
    (i total : Nat) (rec : JsVal) (inline : InlineData) (st : LoopState) (w : World)
    (h1 : rec ≠ .null) (h2 : rec ≠ .undefined) :
    saveIncrementalPart timestamp outputDir finalImagePath i total rec inline st w =
      (.ok { currentImageBase64 := inline.data
             currentImagePath := pathJoin outputDir (stepImageName timestamp i)
             incrementalImages :=
               st.incrementalImages ++ [pathJoin outputDir (stepImageName timestamp i)]
             incrementalChanges := st.incrementalChanges ++ [stepOf i rec] },
        if i = total - 1 then
          writeFileSync finalImagePath inline.data
            (writeFileSync (pathJoin outputDir (stepImageName timestamp i)) inline.data w)
        else writeFileSync (pathJoin outputDir (stepImageName timestamp i)) inline.data w) := by
  unfold saveIncrementalPart
  simp only [makeChange_eq_stepOf i rec h1 h2, copyFileSync_after_write]
  split <;> rfl

theorem imageParts_cons_none (part : Part) (rest : List Part) (h : part.inlineData = none) :
    imageParts (part :: rest) = imageParts rest := by
  simp [imageParts, List.filterMap_cons, h]

theorem imageParts_cons_some (part : Part) (rest : List Part) (inline : InlineData)
    (h : part.inlineData = some inline) :
    imageParts (part :: rest) = inline :: imageParts rest := by
  simp [imageParts, List.filterMap_cons, h]

theorem lastImageData_cons_none (part : Part) (rest : List Part) (h : part.inlineData = none) :
    lastImageData (part :: rest) = lastImageData rest := by
  simp only [lastImageData, h, Option.map_none']
  cases lastImageData rest <;> rfl

theorem lastImageData_cons_some (part : Part) (rest : List Part) (inline : InlineData)
    (h : part.inlineData = some inline) :
    lastImageData (part :: rest) = some ((lastImageData rest).getD inline.data) := by
  simp only [lastImageData, h, Option.map_some']
  cases lastImageData rest <;> rfl

theorem lastImageData_eq_none_iff (parts : List Part) :
    lastImageData parts = none ↔ imageParts parts = [] := by
  induction parts with
  | nil => simp [lastImageData, imageParts]
  | cons part rest ih =>
    cases h : part.inlineData with
    | none => rw [lastImageData_cons_none _ _ h, imageParts_cons_none _ _ h, ih]
    | some inline =>
      rw [lastImageData_cons_some _ _ _ h, imageParts_cons_some _ _ _ h]
      simp

/-- Effect of the inner loop of the incremental branch on one response, for a
recommendation that is neither `null` nor `undefined`: one step and one image path per
image part, the last image part becomes the current image and the content of the step
file (and of the final file, at the last recommendation); no request is sent. -/
theorem saveIncrementalParts_spec (timestamp : Nat) (outputDir finalImagePath : String)
    (i total : Nat) (rec : JsVal) (h1 : rec ≠ .null) (h2 : rec ≠ .undefined) :
    ∀ (parts : List Part) (st : LoopState) (w : World), ∃ (st1 : LoopState) (w1 : World),
      saveIncrementalParts timestamp outputDir finalImagePath i total rec parts st w
        = (.ok st1, w1) ∧
      st1.incrementalChanges
        = st.incrementalChanges ++ List.replicate (imageParts parts).length (stepOf i rec) ∧
      st1.incrementalImages
        = st.incrementalImages ++ List.replicate (imageParts parts).length
            (pathJoin outputDir (stepImageName timestamp i)) ∧
      st1.currentImageBase64 = (lastImageData parts).getD st.currentImageBase64 ∧
      w1.requests = w.requests ∧
      w1.files.lookup (pathJoin outputDir (stepImageName timestamp i))
        = (lastImageData parts).or
            (w.files.lookup (pathJoin outputDir (stepImageName timestamp i))) ∧
      (i = total - 1 →
        w1.files.lookup finalImagePath
          = (lastImageData parts).or (w.files.lookup finalImagePath)) := by
  intro parts
  induction parts with
  | nil =>
    intro st w
    exact ⟨st, w, rfl, by simp [imageParts], by simp [imageParts], by simp [lastImageData],
      rfl, by simp [lastImageData], fun _ => by simp [lastImageData]⟩
  | cons part rest ih =>
    intro st w
    cases h : part.inlineData with
    | none =>
      obtain ⟨st1, w1, e, hc, hi, hcur, hreq, hstep, hfin⟩ := ih st w
      refine ⟨st1, w1, ?_, ?_, ?_, ?_, hreq, ?_, ?_⟩
      · simp only [saveIncrementalParts, h]
        exact e
      · rw [imageParts_cons_none _ _ h]; exact hc
      · rw [imageParts_cons_none _ _ h]; exact hi
      · rw [lastImageData_cons_none _ _ h]; exact hcur
      · rw [lastImageData_cons_none _ _ h]; exact hstep
      · rw [lastImageData_cons_none _ _ h]; exact hfin
    | some inline =>
      have hpart := saveIncrementalPart_eq timestamp outputDir finalImagePath i total rec
        inline st w h1 h2
      obtain ⟨st1, w1, e, hc, hi, hcur, hreq, hstep, hfin⟩ := ih
        { currentImageBase64 := inline.data
          currentImagePath := pathJoin outputDir (stepImageName timestamp i)
          incrementalImages :=
            st.incrementalImages ++ [pathJoin outputDir (stepImageName timestamp i)]
          incrementalChanges := st.incrementalChanges ++ [stepOf i rec] }
        (if i = total - 1 then
          writeFileSync finalImagePath inline.data
            (writeFileSync (pathJoin outputDir (stepImageName timestamp i)) inline.data w)
        else writeFileSync (pathJoin outputDir (stepImageName timestamp i)) inline.data w)
      refine ⟨st1, w1, ?_, ?_, ?_, ?_, ?_, ?_, ?_⟩
      · simp only [saveIncrementalParts, h, hpart]
        exact e
      · rw [imageParts_cons_some _ _ _ h, hc]
        simp [List.replicate_succ]
      · rw [imageParts_cons_some _ _ _ h, hi]
        simp [List.replicate_succ]
      · rw [lastImageData_cons_some _ _ _ h, hcur]
        simp
      · rw [hreq]
        split <;> simp [writeFileSync]
      · rw [lastImageData_cons_some _ _ _ h, hstep]
        split
        · rw [lookup_after_copy]
          cases lastImageData rest <;> simp
        · rw [lookup_writeFileSync_same]
          cases lastImageData rest <;> simp
      · intro hlast
        rw [lastImageData_cons_some _ _ _ h, hfin hlast, if_pos hlast,
          lookup_writeFileSync_same]
        cases lastImageData rest <;> simp

/-! ## The incremental loop -/

theorem partsOfCall_eq (model : ModelScript) (k : Nat) (response : GenerateContentResponse)
    (parts : List Part) (hm : model k = .ok response) (hp : responseParts response = .ok parts) :
    partsOfCall model k = parts := by
  simp [partsOfCall, hm, hp]

/-- One iteration of the incremental loop whose prompt is built and whose call is
answered with a candidate. -/
theorem incrementalLoop_cons (model : ModelScript) (timestamp : Nat)
    (outputDir finalImagePath mimeType : String) (total i : Nat) (rec : JsVal)
    (rest : List JsVal) (st : LoopState) (w : World) (prompt : String)
    (response : GenerateContentResponse) (parts : List Part)
    (hprompt : createIncrementalPrompt rec (i + 1) total = .ok prompt)
    (hm : model w.requests.length = .ok response)
    (hparts : responseParts response = .ok parts) :
    incrementalLoop model timestamp outputDir finalImagePath mimeType total i (rec :: rest) st w
      = match saveIncrementalParts timestamp outputDir finalImagePath i total rec parts st
          { w with requests := w.requests ++
              [{ mimeType := mimeType, data := st.currentImageBase64, text := prompt }] } with
        | (.error e, w2) => (.error e, w2)
        | (.ok st1, w2) =>
          incrementalLoop model timestamp outputDir finalImagePath mimeType total (i + 1)
            rest st1 w2 := by
  simp [incrementalLoop, hprompt, generateContent, hm, hparts]

/-- An iteration of the incremental loop that returns has built its prompt and received
a response with a candidate. -/
theorem incrementalLoop_cons_inv (model : ModelScript) (timestamp : Nat)
    (outputDir finalImagePath mimeType : String) (total i : Nat) (rec : JsVal)
    (rest : List JsVal) (st st2 : LoopState) (w w2 : World)
    (h : incrementalLoop model timestamp outputDir finalImagePath mimeType total i
      (rec :: rest) st w = (.ok st2, w2)) :
    ∃ prompt response parts, createIncrementalPrompt rec (i + 1) total = .ok prompt ∧
      model w.requests.length = .ok response ∧ responseParts response = .ok parts := by
  cases hp : createIncrementalPrompt rec (i + 1) total with
  | error e => simp [incrementalLoop, hp] at h
  | ok prompt =>
    cases hm : model w.requests.length with
    | error e => simp [incrementalLoop, hp, generateContent, hm] at h
    | ok response =>
      cases hparts : responseParts response with
      | error e => simp [incrementalLoop, hp, generateContent, hm, hparts] at h
      | ok parts => exact ⟨prompt, response, parts, rfl, rfl, hparts⟩

/-- What a returning incremental loop has recorded: the steps and paths, one per image
part in recommendation order, and one request per recommendation. -/
theorem incrementalLoop_ok_spec (model : ModelScript) (timestamp : Nat)
    (outputDir finalImagePath mimeType : String) (total : Nat) :
    ∀ (rest : List JsVal) (i : Nat) (st st2 : LoopState) (w w2 : World),
      incrementalLoop model timestamp outputDir finalImagePath mimeType total i rest st w
        = (.ok st2, w2) →
      st2.incrementalChanges
        = st.incrementalChanges ++ stepsPerImagePart model w.requests.length i rest ∧
      st2.incrementalImages
        = st.incrementalImages
            ++ pathsPerImagePart model timestamp outputDir w.requests.length i rest ∧
      w2.requests.length = w.requests.length + rest.length := by
  intro rest
  induction rest with
  | nil =>
    intro i st st2 w w2 h
    simp only [incrementalLoop, Prod.mk.injEq, Except.ok.injEq] at h
    obtain ⟨rfl, rfl⟩ := h
    simp [stepsPerImagePart, pathsPerImagePart]
  | cons rec rest ih =>
    intro i st st2 w w2 h
    obtain ⟨prompt, response, parts, hp, hm, hparts⟩ :=
      incrementalLoop_cons_inv _ _ _ _ _ _ _ _ _ _ _ _ _ h
    obtain ⟨hn1, hn2⟩ := ne_of_createIncrementalPrompt _ _ _ _ hp
    rw [incrementalLoop_cons _ _ _ _ _ _ _ _ _ _ _ _ _ _ hp hm hparts] at h
    obtain ⟨st1, w1, e, hc, hi, _, hreq, _, _⟩ :=
      saveIncrementalParts_spec timestamp outputDir finalImagePath i total rec hn1 hn2 parts st
        { w with requests := w.requests ++
            [{ mimeType := mimeType, data := st.currentImageBase64, text := prompt }] }
    rw [e] at h
    obtain ⟨h1, h2, h3⟩ := ih (i + 1) st1 st2 w1 w2 h
    have hlen : w1.requests.length = w.requests.length + 1 := by simp [hreq]
    rw [hlen] at h1 h2 h3
    refine ⟨?_, ?_, ?_⟩
    · rw [h1, hc]
      simp [stepsPerImagePart, partsOfCall_eq model _ _ _ hm hparts]
    · rw [h2, hi]
      simp [pathsPerImagePart, partsOfCall_eq model _ _ _ hm hparts]
    · rw [h3]
      simp only [List.length_cons]
      omega

/-! ## Single-shot generation -/

theorem makeChangesFrom_eq_stepsOfAll :
    ∀ (recs : List JsVal) (i : Nat), (∀ rec ∈ recs, rec ≠ .null ∧ rec ≠ .undefined) →
      makeChangesFrom i recs = .ok (stepsOfAll i recs) := by
  intro recs
  induction recs with
  | nil => intro i _; rfl
  | cons rec rest ih =>
    intro i h
    have hr := h rec (List.mem_cons_self _ _)
    simp [makeChangesFrom, stepsOfAll, makeChange_eq_stepOf i rec hr.1 hr.2,
      ih (i + 1) (fun r hm => h r (List.mem_cons_of_mem _ hm))]

theorem stepsOfAll_of_makeChangesFrom :
    ∀ (recs : List JsVal) (i : Nat) (changes : List Change),
      makeChangesFrom i recs = .ok changes →
      changes = stepsOfAll i recs ∧ ∀ rec ∈ recs, rec ≠ .null ∧ rec ≠ .undefined := by
  intro recs
  induction recs with
  | nil =>
    intro i changes h
    simp only [makeChangesFrom, Except.ok.injEq] at h
    simp [← h, stepsOfAll]
  | cons rec rest ih =>
    intro i changes h
    cases hc : makeChange i rec with
    | error e => simp [makeChangesFrom, hc] at h
    | ok c =>
      cases hr : makeChangesFrom (i + 1) rest with
      | error e => simp [makeChangesFrom, hc, hr] at h
      | ok cs =>
        simp only [makeChangesFrom, hc, hr, Except.ok.injEq] at h
        obtain ⟨hn1, hn2⟩ := ne_of_makeChange i rec c hc
        obtain ⟨hcs, hall⟩ := ih (i + 1) cs hr
        rw [makeChange_eq_stepOf i rec hn1 hn2] at hc
        simp only [Except.ok.injEq] at hc
        refine ⟨by rw [← h, ← hc, hcs, stepsOfAll], ?_⟩
        intro r hm
        rcases List.mem_cons.mp hm with rfl | hm
        · exact ⟨hn1, hn2⟩
        · exact hall r hm

theorem ne_of_mapExcept_recommendationLine :
    ∀ (recs : List JsVal) (lines : List String),
      mapExcept recommendationLine recs = .ok lines →
      ∀ rec ∈ recs, rec ≠ .null ∧ rec ≠ .undefined := by
  intro recs
  induction recs with
  | nil => intro _ _ r hm; simp at hm
  | cons rec rest ih =>
    intro lines h r hm
    cases hl : recommendationLine rec with
    | error e => simp [mapExcept, hl] at h
    | ok line =>
      cases hr : mapExcept recommendationLine rest with
      | error e => simp [mapExcept, hl, hr] at h
      | ok ls =>
        rcases List.mem_cons.mp hm with rfl | hm
        · exact ne_of_recommendationLine _ _ hl
        · exact ih ls hr r hm

/-- When the visualization prompt can be built, the recommendations form an array of
values that are neither `null` nor `undefined`. -/
theorem recommendations_of_createVisualizationPrompt (analysis : JsVal) (prompt : String)
    (h : createVisualizationPrompt analysis = .ok prompt) :
    ∃ recs : List JsVal, analysis.prop "improvement_recommendations" = .ok (.arr recs) ∧
      ∀ rec ∈ recs, rec ≠ .null ∧ rec ≠ .undefined := by
  cases hp : analysis.prop "improvement_recommendations" with
  | error e => simp [createVisualizationPrompt, hp] at h
  | ok recs =>
    cases hmi : mapItems recs with
    | error e => simp [createVisualizationPrompt, hp, hmi] at h
    | ok items =>
      cases hl : mapExcept recommendationLine items with
      | error e => simp [createVisualizationPrompt, hp, hmi, hl] at h
      | ok lines =>
        cases recs <;> simp [mapItems] at hmi
        subst hmi
        exact ⟨_, rfl, ne_of_mapExcept_recommendationLine _ _ hl⟩

theorem saveFinalParts_flag (outputPath : String) :
    ∀ (parts : List Part) (flag : Bool) (w : World),
      (saveFinalParts outputPath parts flag w).1 = (flag || !(imageParts parts).isEmpty) := by
  intro parts
  induction parts with
  | nil => intro flag w; simp [saveFinalParts, imageParts]
  | cons part rest ih =>
    intro flag w
    cases h : part.inlineData with
    | none => simp only [saveFinalParts, h, ih, imageParts_cons_none _ _ h]
    | some inline => simp [saveFinalParts, h, ih, imageParts_cons_some _ _ _ h]

theorem saveFinalParts_requests (outputPath : String) :
    ∀ (parts : List Part) (flag : Bool) (w : World),
      (saveFinalParts outputPath parts flag w).2.requests = w.requests := by
  intro parts
  induction parts with
  | nil => intro flag w; rfl
  | cons part rest ih =>
    intro flag w
    cases h : part.inlineData with
    | none => simp only [saveFinalParts, h, ih]
    | some inline => simp [saveFinalParts, h, ih, writeFileSync]

/-- The outcome of `generateFinalImage` once the prompt is built and the call is answered:
an `Error` when the response has no image part, the result object otherwise. -/
theorem generateFinalImage_eq (model : ModelScript) (imageBase64 mimeType : String)
    (analysis : JsVal) (outputPath : String) (w : World) (prompt : String)
    (response : GenerateContentResponse) (parts : List Part) (recs : List JsVal)
    (hprompt : createVisualizationPrompt analysis = .ok prompt)
    (hm : model w.requests.length = .ok response)
    (hparts : responseParts response = .ok parts)
    (hrecs : analysis.prop "improvement_recommendations" = .ok (.arr recs)) :
    (generateFinalImage model imageBase64 mimeType analysis outputPath w).1 =
      if imageParts parts = [] then .error (.error "No image was generated in the response")
      else .ok { finalImagePath := outputPath, incrementalImages := [outputPath],
                 incrementalChanges := stepsOfAll 0 recs } := by
  obtain ⟨recs1, hrecs1, hall⟩ := recommendations_of_createVisualizationPrompt _ _ hprompt
  rw [hrecs] at hrecs1
  simp only [Except.ok.injEq, JsVal.arr.injEq] at hrecs1
  subst hrecs1
  have hflag := saveFinalParts_flag outputPath parts false
    { w with requests := w.requests ++
        [{ mimeType := mimeType, data := imageBase64, text := prompt }] }
  simp only [generateFinalImage, hprompt, generateContent, hm, hparts]
  cases hs : saveFinalParts outputPath parts false
    { w with requests := w.requests ++
        [{ mimeType := mimeType, data := imageBase64, text := prompt }] } with
  | mk flag w2 =>
    rw [hs] at hflag
    simp only [Bool.false_or] at hflag
    cases flag with
    | false =>
      have : imageParts parts = [] := by
        have := hflag.symm
        simpa using this
      simp [this]
    | true =>
      have : imageParts parts ≠ [] := by
        intro hc
        simp [hc] at hflag
      simp [this, hrecs, mapItems, makeChangesFrom_eq_stepsOfAll recs 0 hall]

theorem generateFinalImage_ok_inv (model : ModelScript) (imageBase64 mimeType : String)
    (analysis : JsVal) (outputPath : String) (w : World) (res : VisualizationResult)
    (h : (generateFinalImage model imageBase64 mimeType analysis outputPath w).1 = .ok res) :
    ∃ prompt response parts, createVisualizationPrompt analysis = .ok prompt ∧
      model w.requests.length = .ok response ∧ responseParts response = .ok parts := by
  cases hp : createVisualizationPrompt analysis with
  | error e => simp [generateFinalImage, hp] at h
  | ok prompt =>
    cases hm : model w.requests.length with
    | error e => simp [generateFinalImage, hp, generateContent, hm] at h
    | ok response =>
      cases hparts : responseParts response with
      | error e => simp [generateFinalImage, hp, generateContent, hm, hparts] at h
      | ok parts => exact ⟨prompt, response, parts, rfl, rfl, hparts⟩

theorem length_stepsOfAll : ∀ (recs : List JsVal) (i : Nat),
    (stepsOfAll i recs).length = recs.length := by
  intro recs
  induction recs with
  | nil => intro i; rfl
  | cons rec rest ih => intro i; simp [stepsOfAll, ih]

theorem getElem?_stepsOfAll : ∀ (recs : List JsVal) (i j : Nat),
    (stepsOfAll i recs)[j]? = (recs[j]?).map (stepOf (i + j)) := by
  intro recs
  induction recs with
  | nil => intro i j; simp [stepsOfAll]
  | cons rec rest ih =>
    intro i j
    cases j with
    | zero => simp [stepsOfAll]
    | succ j =>
      simp only [stepsOfAll, List.getElem?_cons_succ, ih]
      rw [show i + 1 + j = i + (j + 1) by omega]

theorem stepOf_fields (i : Nat) (rec : JsVal) (h1 : rec ≠ .null) (h2 : rec ≠ .undefined) :
    (stepOf i rec).id = i ∧ rec.prop "category" = .ok (stepOf i rec).category ∧
      rec.prop "recommendation" = .ok (stepOf i rec).description ∧
      rec.prop "expected_benefits" = .ok (stepOf i rec).benefits := by
  cases rec <;> simp [stepOf, JsVal.prop] at *

/-- A successful `generateFinalImage` returns the output path twice and one step per
recommendation. -/
theorem generateFinalImage_ok_eq (model : ModelScript) (imageBase64 mimeType : String)
    (analysis : JsVal) (outputPath : String) (w : World) (res : VisualizationResult)
    (h : (generateFinalImage model imageBase64 mimeType analysis outputPath w).1 = .ok res) :
    ∃ recs : List JsVal, analysis.prop "improvement_recommendations" = .ok (.arr recs) ∧
      (∀ rec ∈ recs, rec ≠ .null ∧ rec ≠ .undefined) ∧
      imageParts (partsOfCall model w.requests.length) ≠ [] ∧
      res = { finalImagePath := outputPath, incrementalImages := [outputPath],
              incrementalChanges := stepsOfAll 0 recs } := by
  obtain ⟨prompt, response, parts, hprompt, hm, hparts⟩ :=
    generateFinalImage_ok_inv _ _ _ _ _ _ _ h
  obtain ⟨recs, hrecs, hall⟩ := recommendations_of_createVisualizationPrompt _ _ hprompt
  have heq := generateFinalImage_eq model imageBase64 mimeType analysis outputPath w prompt
    response parts recs hprompt hm hparts hrecs
  rw [h] at heq
  by_cases himg : imageParts parts = []
  · simp [himg] at heq
  · simp only [himg, if_false, Except.ok.injEq] at heq
    exact ⟨recs, hrecs, hall, by rw [partsOfCall_eq model _ _ _ hm hparts]; exact himg, heq⟩

/-! ## Claims about `generateFinalImage` -/

/-- C8: once the prompt is built and the model has answered, `generateFinalImage` fails
with an error if and only if the response contains no image part; when the response
contains an image part it returns normally. -/
theorem generateFinalImage_fails_iff_no_image (model : ModelScript)
    (imageBase64 mimeType : String) (analysis : JsVal) (outputPath : String) (w : World)
    (prompt : String) (response : GenerateContentResponse)
    (hprompt : createVisualizationPrompt analysis = .ok prompt)
    (hm : model w.requests.length = .ok response) :
    ((∃ e, (generateFinalImage model imageBase64 mimeType analysis outputPath w).1 = .error e)
      ↔ imageParts (partsOfCall model w.requests.length) = []) ∧
    (imageParts (partsOfCall model w.requests.length) ≠ [] →
      ∃ res, (generateFinalImage model imageBase64 mimeType analysis outputPath w).1 = .ok res) := by
  obtain ⟨recs, hrecs, _⟩ := recommendations_of_createVisualizationPrompt _ _ hprompt
  cases hparts : responseParts response with
  | error e =>
    have hnone : partsOfCall model w.requests.length = [] := by
      simp [partsOfCall, hm, hparts]
    have herr : (generateFinalImage model imageBase64 mimeType analysis outputPath w).1
        = .error e := by
      simp [generateFinalImage, hprompt, generateContent, hm, hparts]
    rw [hnone, herr]
    simp [imageParts]
  | ok parts =>
    rw [partsOfCall_eq model _ _ _ hm hparts,
      generateFinalImage_eq model imageBase64 mimeType analysis outputPath w prompt response
        parts recs hprompt hm hparts hrecs]
    by_cases himg : imageParts parts = []
    · simp [himg]
    · simp [himg]

/-- Witness for C8: the example analysis and a model that answers with one image. -/
theorem generateFinalImage_fails_iff_no_image_witness :
    ((∃ e, (generateFinalImage scriptAlways "ORIGINAL" "image/png" exampleAnalysis
        "results/improved-5.png" exampleWorld).1 = .error e)
      ↔ imageParts (partsOfCall scriptAlways exampleWorld.requests.length) = []) ∧
    (imageParts (partsOfCall scriptAlways exampleWorld.requests.length) ≠ [] →
      ∃ res, (generateFinalImage scriptAlways "ORIGINAL" "image/png" exampleAnalysis
        "results/improved-5.png" exampleWorld).1 = .ok res) :=
  generateFinalImage_fails_iff_no_image scriptAlways "ORIGINAL" "image/png" exampleAnalysis
    "results/improved-5.png" exampleWorld _ (imageResponse "IMAGE-0") rfl rfl

/-- C9: a successful `generateFinalImage` returns one step per recommendation of the
analysis, in the same order, the step at position `i` having id `i` and the category,
recommendation and expected benefits of recommendation `i`; the final image path and the
sole image path are the given output path. -/
theorem generateFinalImage_result (model : ModelScript) (imageBase64 mimeType : String)
    (analysis : JsVal) (outputPath : String) (w : World) (res : VisualizationResult)
    (h : (generateFinalImage model imageBase64 mimeType analysis outputPath w).1 = .ok res) :
    ∃ recs : List JsVal, analysis.prop "improvement_recommendations" = .ok (.arr recs) ∧
      res.incrementalChanges.length = recs.length ∧
      (∀ (i : Nat) (rec : JsVal), recs[i]? = some rec →
        ∃ c : Change, res.incrementalChanges[i]? = some c ∧ c.id = i ∧
          rec.prop "category" = .ok c.category ∧
          rec.prop "recommendation" = .ok c.description ∧
          rec.prop "expected_benefits" = .ok c.benefits) ∧
      res.finalImagePath = outputPath ∧ res.incrementalImages = [outputPath] := by
  obtain ⟨recs, hrecs, hall, _, heq⟩ := generateFinalImage_ok_eq _ _ _ _ _ _ _ h
  subst heq
  refine ⟨recs, hrecs, length_stepsOfAll recs 0, ?_, rfl, rfl⟩
  intro i rec hi
  have hmem : rec ∈ recs := List.getElem?_mem hi
  obtain ⟨hn1, hn2⟩ := hall rec hmem
  refine ⟨stepOf i rec, ?_, stepOf_fields i rec hn1 hn2⟩
  simp [getElem?_stepsOfAll, hi]

/-- Witness for C9: the example analysis and a model that answers with one image. -/
theorem generateFinalImage_result_witness :
    ∃ recs : List JsVal,
      exampleAnalysis.prop "improvement_recommendations" = .ok (.arr recs) ∧
      (stepsOfAll 0 exampleRecommendations).length = recs.length ∧
      (∀ (i : Nat) (rec : JsVal), recs[i]? = some rec →
        ∃ c : Change, (stepsOfAll 0 exampleRecommendations)[i]? = some c ∧ c.id = i ∧
          rec.prop "category" = .ok c.category ∧
          rec.prop "recommendation" = .ok c.description ∧
          rec.prop "expected_benefits" = .ok c.benefits) ∧
      "results/improved-5.png" = "results/improved-5.png" ∧
      ["results/improved-5.png"] = ["results/improved-5.png"] :=
  generateFinalImage_result scriptAlways "ORIGINAL" "image/png" exampleAnalysis
    "results/improved-5.png" exampleWorld
    { finalImagePath := "results/improved-5.png"
      incrementalImages := ["results/improved-5.png"]
      incrementalChanges := stepsOfAll 0 exampleRecommendations }
    rfl

/-! ## Steps of an incremental run -/

theorem stepsPerImagePart_eq_stepsWithImage (model : ModelScript)
    (hone : AtMostOneImagePerResponse model) :
    ∀ (rest : List JsVal) (n i : Nat),
      stepsPerImagePart model n i rest = stepsWithImage model n i rest := by
  intro rest
  induction rest with
  | nil => intro n i; rfl
  | cons rec rest ih =>
    intro n i
    have hk := hone n
    simp only [stepsPerImagePart, stepsWithImage, ih]
    congr 1
    cases himg : imageParts (partsOfCall model n) with
    | nil => simp
    | cons a l =>
      rw [himg] at hk
      have hl : l = [] := by
        cases l with
        | nil => rfl
        | cons b l => simp at hk
      simp [hl]

theorem length_stepsWithImage_le (model : ModelScript) :
    ∀ (rest : List JsVal) (n i : Nat), (stepsWithImage model n i rest).length ≤ rest.length := by
  intro rest
  induction rest with
  | nil => intro n i; simp [stepsWithImage]
  | cons rec rest ih =>
    intro n i
    have := ih (n + 1) (i + 1)
    simp only [stepsWithImage, List.length_append, List.length_cons]
    split <;> simp <;> omega

theorem id_ge_of_mem_stepsWithImage (model : ModelScript) :
    ∀ (rest : List JsVal) (n i : Nat) (c : Change),
      c ∈ stepsWithImage model n i rest → i ≤ c.id ∧ c.id < i + rest.length := by
  intro rest
  induction rest with
  | nil => intro n i c h; simp [stepsWithImage] at h
  | cons rec rest ih =>
    intro n i c h
    simp only [stepsWithImage, List.mem_append] at h
    rcases h with h | h
    · split at h
      · simp at h
      · simp only [List.mem_singleton] at h
        subst h
        simp [stepOf]
    · have := ih (n + 1) (i + 1) c h
      simp only [List.length_cons]
      omega

theorem pairwise_id_stepsWithImage (model : ModelScript) :
    ∀ (rest : List JsVal) (n i : Nat),
      ((stepsWithImage model n i rest).map (·.id)).Pairwise (· < ·) := by
  intro rest
  induction rest with
  | nil => intro n i; simp [stepsWithImage]
  | cons rec rest ih =>
    intro n i
    simp only [stepsWithImage, List.map_append]
    rw [List.pairwise_append]
    refine ⟨?_, ih (n + 1) (i + 1), ?_⟩
    · split <;> simp
    · intro a ha b hb
      obtain ⟨c, hc, rfl⟩ := List.mem_map.mp hb
      have hge := (id_ge_of_mem_stepsWithImage model rest (n + 1) (i + 1) c hc).1
      split at ha
      · simp at ha
      · simp only [List.map_cons, List.map_nil, List.mem_singleton] at ha
        subst ha
        exact hge

theorem length_pathsPerImagePart (model : ModelScript) (timestamp : Nat) (outputDir : String) :
    ∀ (rest : List JsVal) (n i : Nat),
      (pathsPerImagePart model timestamp outputDir n i rest).length
        = (stepsPerImagePart model n i rest).length := by
  intro rest
  induction rest with
  | nil => intro n i; rfl
  | cons rec rest ih =>
    intro n i
    simp [pathsPerImagePart, stepsPerImagePart, ih]

theorem pairwise_id_stepsOfAll : ∀ (recs : List JsVal) (i : Nat),
    ((stepsOfAll i recs).map (·.id)).Pairwise (· < ·) ∧
      ∀ c ∈ stepsOfAll i recs, i ≤ c.id := by
  intro recs
  induction recs with
  | nil => intro i; simp [stepsOfAll]
  | cons rec rest ih =>
    intro i
    obtain ⟨hp, hge⟩ := ih (i + 1)
    refine ⟨?_, ?_⟩
    · simp only [stepsOfAll, List.map_cons, List.pairwise_cons]
      refine ⟨?_, hp⟩
      intro b hb
      obtain ⟨c, hc, rfl⟩ := List.mem_map.mp hb
      have := hge c hc
      simp only [stepOf]
      omega
    · intro c hc
      simp only [stepsOfAll, List.mem_cons] at hc
      rcases hc with rfl | hc
      · simp [stepOf]
      · have := hge c hc
        omega

/-! ## The whole of `visualizeUrbanImprovements` -/

/-- The incremental branch, entered with a non-empty array of recommendations. -/
theorem visualizeUrbanImprovements_incremental (model : ModelScript) (timestamp : Nat)
    (inputImagePath : String) (analysis : JsVal) (outputDir : String) (w : World)
    (imageBase64 : String) (recs : List JsVal)
    (hread : readFileSync inputImagePath w = .ok imageBase64)
    (hrecs : analysis.prop "improvement_recommendations" = .ok (.arr recs))
    (hne : recs ≠ []) :
    visualizeUrbanImprovements model timestamp inputImagePath analysis outputDir true w =
      match incrementalLoop model timestamp outputDir (pathJoin outputDir (finalImageName timestamp))
          (getMimeType inputImagePath) recs.length 0 recs
          { currentImageBase64 := imageBase64, currentImagePath := inputImagePath,
            incrementalImages := [], incrementalChanges := [] } w with
      | (.error e, w1) => (.error e, w1)
      | (.ok st, w1) =>
        if st.incrementalImages.length = 0 then
          generateFinalImage model imageBase64 (getMimeType inputImagePath) analysis
            (pathJoin outputDir (finalImageName timestamp)) w1
        else
          (.ok { finalImagePath := pathJoin outputDir (finalImageName timestamp),
                 incrementalImages := st.incrementalImages,
                 incrementalChanges := st.incrementalChanges }, w1) := by
  have hlen : 0 < recs.length := List.length_pos.mpr hne
  simp only [visualizeUrbanImprovements, hread, hrecs, nonEmptyArray, if_true, hlen,
    gt_iff_lt]

/-- With an empty array of recommendations the single-shot generation runs. -/
theorem visualizeUrbanImprovements_empty (model : ModelScript) (timestamp : Nat)
    (inputImagePath : String) (analysis : JsVal) (outputDir : String) (w : World)
    (imageBase64 : String)
    (hread : readFileSync inputImagePath w = .ok imageBase64)
    (hrecs : analysis.prop "improvement_recommendations" = .ok (.arr [])) :
    visualizeUrbanImprovements model timestamp inputImagePath analysis outputDir true w =
      generateFinalImage model imageBase64 (getMimeType inputImagePath) analysis
        (pathJoin outputDir (finalImageName timestamp)) w := by
  simp [visualizeUrbanImprovements, hread, hrecs, nonEmptyArray]

/-- The two ways an incremental run over a non-empty array returns: with the steps of
the loop when it recorded an image, with the result of the single-shot generation when
it recorded none. -/
theorem visualizeUrbanImprovements_ok_cases (model : ModelScript) (timestamp : Nat)
    (inputImagePath : String) (analysis : JsVal) (outputDir : String) (w : World)
    (imageBase64 : String) (recs : List JsVal) (res : VisualizationResult)
    (hread : readFileSync inputImagePath w = .ok imageBase64)
    (hrecs : analysis.prop "improvement_recommendations" = .ok (.arr recs))
    (hne : recs ≠ [])
    (hrun : (visualizeUrbanImprovements model timestamp inputImagePath analysis outputDir
      true w).1 = .ok res) :
    ∃ (st : LoopState) (w1 : World),
      incrementalLoop model timestamp outputDir (pathJoin outputDir (finalImageName timestamp))
          (getMimeType inputImagePath) recs.length 0 recs
          { currentImageBase64 := imageBase64, currentImagePath := inputImagePath,
            incrementalImages := [], incrementalChanges := [] } w = (.ok st, w1) ∧
      ((st.incrementalImages ≠ [] ∧
          res = { finalImagePath := pathJoin outputDir (finalImageName timestamp),
                  incrementalImages := st.incrementalImages,
                  incrementalChanges := st.incrementalChanges } ∧
          (visualizeUrbanImprovements model timestamp inputImagePath analysis outputDir
            true w).2 = w1) ∨
        (st.incrementalImages = [] ∧
          (generateFinalImage model imageBase64 (getMimeType inputImagePath) analysis
            (pathJoin outputDir (finalImageName timestamp)) w1).1 = .ok res ∧
          (visualizeUrbanImprovements model timestamp inputImagePath analysis outputDir
            true w).2 =
            (generateFinalImage model imageBase64 (getMimeType inputImagePath) analysis
              (pathJoin outputDir (finalImageName timestamp)) w1).2)) := by
  rw [visualizeUrbanImprovements_incremental model timestamp inputImagePath analysis outputDir
    w imageBase64 recs hread hrecs hne] at hrun ⊢
  cases hl : incrementalLoop model timestamp outputDir
      (pathJoin outputDir (finalImageName timestamp)) (getMimeType inputImagePath) recs.length 0
      recs { currentImageBase64 := imageBase64, currentImagePath := inputImagePath,
             incrementalImages := [], incrementalChanges := [] } w with
  | mk r w1 =>
    rw [hl] at hrun
    cases r with
    | error e => simp at hrun
    | ok st =>
      refine ⟨st, w1, rfl, ?_⟩
      simp only at hrun ⊢
      by_cases hz : st.incrementalImages.length = 0
      · right
        rw [if_pos hz] at hrun ⊢
        exact ⟨List.length_eq_zero.mp hz, hrun, rfl⟩
      · left
        rw [if_neg hz] at hrun ⊢
        simp only [Except.ok.injEq] at hrun
        exact ⟨fun hc => hz (by simp [hc]), hrun.symm, rfl⟩

/-! ## Claims about the incremental branch -/

/-- C4 (as stated) fails: with one recommendation and a response that carries two image
parts, the run returns two steps, both with id 0. -/
theorem incremental_steps_counterexample :
    singleAnalysis.prop "improvement_recommendations"
      = .ok (.arr [.obj [("category", .str "A"), ("recommendation", .str "widen the pavement"),
          ("expected_benefits", .str "walkability")]]) ∧
    stepIds (visualizeUrbanImprovements scriptTwoImages 5 "uploads/in.png" singleAnalysis
      "results" true exampleWorld).1 = some [0, 0] :=
  ⟨rfl, by decide⟩

/-- C4 (amended): when no response carries more than one image part, a run with the
incremental flag over an analysis with `R` recommendations returns at most `R` steps,
and their ids are strictly increasing along the list. -/
theorem incremental_steps_bounded_increasing (model : ModelScript) (timestamp : Nat)
    (inputImagePath : String) (analysis : JsVal) (outputDir : String) (w : World)
    (recs : List JsVal) (res : VisualizationResult)
    (hrecs : analysis.prop "improvement_recommendations" = .ok (.arr recs))
    (hone : AtMostOneImagePerResponse model)
    (hrun : (visualizeUrbanImprovements model timestamp inputImagePath analysis outputDir
      true w).1 = .ok res) :
    res.incrementalChanges.length ≤ recs.length ∧
      (res.incrementalChanges.map (·.id)).Pairwise (· < ·) := by
  cases hread : readFileSync inputImagePath w with
  | error e => simp [visualizeUrbanImprovements, hread] at hrun
  | ok imageBase64 =>
    have hsingle : ∀ w1 : World,
        (generateFinalImage model imageBase64 (getMimeType inputImagePath) analysis
          (pathJoin outputDir (finalImageName timestamp)) w1).1 = .ok res →
        res.incrementalChanges.length ≤ recs.length ∧
          (res.incrementalChanges.map (·.id)).Pairwise (· < ·) := by
      intro w1 h
      obtain ⟨recs1, hrecs1, _, _, heq⟩ := generateFinalImage_ok_eq _ _ _ _ _ _ _ h
      rw [hrecs] at hrecs1
      simp only [Except.ok.injEq, JsVal.arr.injEq] at hrecs1
      subst hrecs1
      subst heq
      exact ⟨by simp [length_stepsOfAll], (pairwise_id_stepsOfAll recs 0).1⟩
    by_cases hne : recs = []
    · subst hne
      rw [visualizeUrbanImprovements_empty model timestamp inputImagePath analysis outputDir w
        imageBase64 hread hrecs] at hrun
      exact hsingle w hrun
    · obtain ⟨st, w1, hloop, hcase⟩ := visualizeUrbanImprovements_ok_cases model timestamp
        inputImagePath analysis outputDir w imageBase64 recs res hread hrecs hne hrun
      rcases hcase with ⟨_, hres, _⟩ | ⟨_, hgen, _⟩
      · obtain ⟨hc, _, _⟩ := incrementalLoop_ok_spec _ _ _ _ _ _ _ _ _ _ _ _ hloop
        subst hres
        simp only [List.nil_append] at hc
        rw [hc, stepsPerImagePart_eq_stepsWithImage model hone]
        exact ⟨length_stepsWithImage_le model recs _ 0, pairwise_id_stepsWithImage model recs _ 0⟩
      · exact hsingle w1 hgen

theorem atMostOne_scriptFirstAndThird : AtMostOneImagePerResponse scriptFirstAndThird := by
  intro k
  unfold scriptFirstAndThird
  by_cases h0 : k = 0
  · subst h0; decide
  · by_cases h2 : k = 2
    · subst h2; decide
    · simp only [partsOfCall, h0, h2, if_false]
      decide

/-- Witness for C4 (amended): three recommendations, images for the first and the third
call only; the run returns two steps with ids 0 and 2. -/
theorem incremental_steps_bounded_increasing_witness :
    stepIds (visualizeUrbanImprovements scriptFirstAndThird 5 "uploads/in.png" exampleAnalysis
      "results" true exampleWorld).1 = some [0, 2] ∧
    [0, 2].length ≤ exampleRecommendations.length ∧ [0, 2].Pairwise (· < ·) :=
  ⟨by decide,
    incremental_steps_bounded_increasing scriptFirstAndThird 5 "uploads/in.png" exampleAnalysis
      "results" exampleWorld exampleRecommendations
      { finalImagePath := "results/improved-5.png"
        incrementalImages := ["results/improved-5-step-1.png", "results/improved-5-step-3.png"]
        incrementalChanges := [stepOf 0 (exampleRecommendations.get ⟨0, by decide⟩),
                               stepOf 2 (exampleRecommendations.get ⟨2, by decide⟩)] }
      rfl atMostOne_scriptFirstAndThird rfl⟩

theorem pathsPerImagePart_ne_nil (model : ModelScript) (timestamp : Nat) (outputDir : String) :
    ∀ (rest : List JsVal) (n i : Nat),
      (∃ j, j < rest.length ∧ imageParts (partsOfCall model (n + j)) ≠ []) →
      pathsPerImagePart model timestamp outputDir n i rest ≠ [] := by
  intro rest
  induction rest with
  | nil => intro n i h; obtain ⟨j, hj, _⟩ := h; simp at hj
  | cons rec rest ih =>
    intro n i h
    obtain ⟨j, hj, himg⟩ := h
    simp only [pathsPerImagePart, ne_eq, List.append_eq_nil, not_and]
    intro hrep
    cases j with
    | zero =>
      exfalso
      rw [List.replicate_eq_nil_iff, List.length_eq_zero] at hrep
      exact himg (by simpa using hrep)
    | succ j =>
      apply ih (n + 1) (i + 1)
      refine ⟨j, by simpa using hj, ?_⟩
      rw [show n + 1 + j = n + (j + 1) by omega]
      exact himg

theorem last_image_of_full_length (model : ModelScript) :
    ∀ (rest : List JsVal) (n i : Nat),
      (stepsWithImage model n i rest).length = rest.length → rest ≠ [] →
      imageParts (partsOfCall model (n + rest.length - 1)) ≠ [] := by
  intro rest
  induction rest with
  | nil => intro n i _ h; exact absurd rfl h
  | cons rec rest ih =>
    intro n i hlen _
    have hle := length_stepsWithImage_le model rest (n + 1) (i + 1)
    simp only [stepsWithImage, List.length_append, List.length_cons] at hlen
    by_cases himg : imageParts (partsOfCall model n) = []
    · simp only [himg, if_true, List.length_nil] at hlen
      omega
    · simp only [himg, if_false, List.length_singleton] at hlen
      cases rest with
      | nil => simpa using himg
      | cons r rs =>
        have := ih (n + 1) (i + 1) (by omega) (by simp)
        simp only [List.length_cons] at this ⊢
        rw [show n + (rs.length + 1 + 1) - 1 = n + 1 + (rs.length + 1) - 1 by omega]
        exact this

theorem getLast?_pathsPerImagePart (model : ModelScript) (timestamp : Nat)
    (outputDir : String) :
    ∀ (rest : List JsVal) (n i : Nat), rest ≠ [] →
      imageParts (partsOfCall model (n + rest.length - 1)) ≠ [] →
      (pathsPerImagePart model timestamp outputDir n i rest).getLast?
        = some (pathJoin outputDir (stepImageName timestamp (i + rest.length - 1))) := by
  intro rest
  induction rest with
  | nil => intro n i h; exact absurd rfl h
  | cons rec rest ih =>
    intro n i _ himg
    simp only [pathsPerImagePart, List.getLast?_append]
    cases rest with
    | nil =>
      simp only [pathsPerImagePart, List.getLast?_nil, Option.none_or, List.getLast?_replicate,
        List.length_singleton]
      have : (imageParts (partsOfCall model n)).length ≠ 0 := by
        intro hc
        exact himg (by simpa using List.length_eq_zero.mp hc)
      simp [this]
    | cons r rs =>
      have := ih (n + 1) (i + 1) (by simp) (by
        simp only [List.length_cons] at himg ⊢
        rw [show n + 1 + (rs.length + 1) - 1 = n + (rs.length + 1 + 1) - 1 by omega]
        exact himg)
      rw [this]
      simp only [List.length_cons]
      rw [show i + 1 + (rs.length + 1) - 1 = i + (rs.length + 1 + 1) - 1 by omega]
      rfl

/-- After a returning loop whose last call returned an image, the final file and the
file of the last step both hold the last image part of that call. -/
theorem incrementalLoop_final_content (model : ModelScript) (timestamp : Nat)
    (outputDir finalImagePath mimeType : String) (total : Nat) :
    ∀ (rest : List JsVal) (i : Nat) (st st2 : LoopState) (w w2 : World),
      incrementalLoop model timestamp outputDir finalImagePath mimeType total i rest st w
        = (.ok st2, w2) →
      rest ≠ [] → i + rest.length = total →
      ∀ d : String, lastImageData (partsOfCall model (w.requests.length + rest.length - 1))
          = some d →
        w2.files.lookup finalImagePath = some d ∧
        w2.files.lookup (pathJoin outputDir (stepImageName timestamp (total - 1))) = some d := by
  intro rest
  induction rest with
  | nil => intro i st st2 w w2 _ h; exact absurd rfl h
  | cons rec rest ih =>
    intro i st st2 w w2 h _ htotal d hd
    obtain ⟨prompt, response, parts, hp, hm, hparts⟩ :=
      incrementalLoop_cons_inv _ _ _ _ _ _ _ _ _ _ _ _ _ h
    obtain ⟨hn1, hn2⟩ := ne_of_createIncrementalPrompt _ _ _ _ hp
    rw [incrementalLoop_cons _ _ _ _ _ _ _ _ _ _ _ _ _ _ hp hm hparts] at h
    obtain ⟨st1, w1, e, _, _, _, hreq, hstep, hfin⟩ :=
      saveIncrementalParts_spec timestamp outputDir finalImagePath i total rec hn1 hn2 parts st
        { w with requests := w.requests ++
            [{ mimeType := mimeType, data := st.currentImageBase64, text := prompt }] }
    rw [e] at h
    simp only at h
    have hlen : w1.requests.length = w.requests.length + 1 := by simp [hreq]
    cases rest with
    | nil =>
      simp only [incrementalLoop, Prod.mk.injEq, Except.ok.injEq] at h
      obtain ⟨_, rfl⟩ := h
      simp only [List.length_singleton] at htotal hd
      have hi : i = total - 1 := by omega
      rw [show w.requests.length + 1 - 1 = w.requests.length by omega,
        partsOfCall_eq model _ _ _ hm hparts] at hd
      refine ⟨?_, ?_⟩
      · rw [hfin hi, hd]; rfl
      · rw [← hi, hstep, hd]; rfl
    | cons r rs =>
      apply ih (i + 1) st1 st2 w1 w2 h (by simp) (by simp only [List.length_cons] at htotal ⊢; omega) d
      rw [hlen]
      simp only [List.length_cons] at hd ⊢
      rw [show w.requests.length + 1 + (rs.length + 1) - 1
        = w.requests.length + (rs.length + 1 + 1) - 1 by omega]
      exact hd

theorem readFileSync_of_lookup (path content : String) (w : World)
    (h : w.files.lookup path = some content) : readFileSync path w = .ok content := by
  simp [readFileSync, h]

theorem saveFinalParts_lookup (outputPath : String) :
    ∀ (parts : List Part) (flag : Bool) (w : World),
      (saveFinalParts outputPath parts flag w).2.files.lookup outputPath
        = (lastImageData parts).or (w.files.lookup outputPath) := by
  intro parts
  induction parts with
  | nil => intro flag w; simp [saveFinalParts, lastImageData]
  | cons part rest ih =>
    intro flag w
    cases h : part.inlineData with
    | none => simp only [saveFinalParts, h, ih, lastImageData_cons_none _ _ h]
    | some inline =>
      simp only [saveFinalParts, h, ih, lastImageData_cons_some _ _ _ h,
        lookup_writeFileSync_same]
      cases lastImageData rest <;> rfl

/-- The world left by `generateFinalImage` once the prompt is built and the call is
answered with a candidate: the request is logged and the image parts are written. -/
theorem generateFinalImage_world (model : ModelScript) (imageBase64 mimeType : String)
    (analysis : JsVal) (outputPath : String) (w : World) (prompt : String)
    (response : GenerateContentResponse) (parts : List Part)
    (hprompt : createVisualizationPrompt analysis = .ok prompt)
    (hm : model w.requests.length = .ok response)
    (hparts : responseParts response = .ok parts) :
    (generateFinalImage model imageBase64 mimeType analysis outputPath w).2 =
      (saveFinalParts outputPath parts false
        { w with requests := w.requests ++
            [{ mimeType := mimeType, data := imageBase64, text := prompt }] }).2 := by
  simp only [generateFinalImage, hprompt, generateContent, hm, hparts]
  cases hs : saveFinalParts outputPath parts false
    { w with requests := w.requests ++
        [{ mimeType := mimeType, data := imageBase64, text := prompt }] } with
  | mk flag w2 =>
    cases flag with
    | false => rfl
    | true =>
      simp only
      repeat' split
      all_goals rfl

/-- C5 (as stated) fails: with recommendations `A`, `B`, `C` and an image for the first
and the third call only, the steps are `A` and `C` with ids 0 and 2, not 0 and 1. -/
theorem incremental_step_index_counterexample :
    stepCategories (visualizeUrbanImprovements scriptFirstAndThird 5 "uploads/in.png"
      exampleAnalysis "results" true exampleWorld).1 = some ["A", "C"] ∧
    stepIds (visualizeUrbanImprovements scriptFirstAndThird 5 "uploads/in.png"
      exampleAnalysis "results" true exampleWorld).1 = some [0, 2] ∧
    stepIds (visualizeUrbanImprovements scriptFirstAndThird 5 "uploads/in.png"
      exampleAnalysis "results" true exampleWorld).1 ≠ some [0, 1] :=
  ⟨by decide, by decide, by decide⟩

/-- C5 (amended): when no response carries more than one image part and at least one
call of the loop returns an image, the returned steps are exactly the recommendations
whose call returned an image, in recommendation order, each with the index of its
recommendation in the analysis as id; and when the call for the last recommendation
returned an image, the file at `finalImagePath` holds that image. -/
theorem incremental_steps_are_recommendations_with_image (model : ModelScript)
    (timestamp : Nat) (inputImagePath : String) (analysis : JsVal) (outputDir : String)
    (w : World) (recs : List JsVal) (res : VisualizationResult)
    (hrecs : analysis.prop "improvement_recommendations" = .ok (.arr recs))
    (hone : AtMostOneImagePerResponse model)
    (hsome : ∃ j, j < recs.length ∧ imageParts (partsOfCall model (w.requests.length + j)) ≠ [])
    (hrun : (visualizeUrbanImprovements model timestamp inputImagePath analysis outputDir
      true w).1 = .ok res) :
    res.incrementalChanges = stepsWithImage model w.requests.length 0 recs ∧
    ∀ d : String,
      lastImageData (partsOfCall model (w.requests.length + recs.length - 1)) = some d →
      readFileSync res.finalImagePath
        (visualizeUrbanImprovements model timestamp inputImagePath analysis outputDir
          true w).2 = .ok d := by
  have hne : recs ≠ [] := by
    obtain ⟨j, hj, _⟩ := hsome
    intro hc
    simp [hc] at hj
  cases hread : readFileSync inputImagePath w with
  | error e => simp [visualizeUrbanImprovements, hread] at hrun
  | ok imageBase64 =>
    obtain ⟨st, w1, hloop, hcase⟩ := visualizeUrbanImprovements_ok_cases model timestamp
      inputImagePath analysis outputDir w imageBase64 recs res hread hrecs hne hrun
    obtain ⟨hc, hi, _⟩ := incrementalLoop_ok_spec _ _ _ _ _ _ _ _ _ _ _ _ hloop
    simp only [List.nil_append] at hc hi
    rcases hcase with ⟨_, hres, hw⟩ | ⟨hnil, _, _⟩
    · subst hres
      refine ⟨by rw [hc, stepsPerImagePart_eq_stepsWithImage model hone], ?_⟩
      intro d hd
      rw [hw]
      exact readFileSync_of_lookup _ _ _
        (incrementalLoop_final_content _ _ _ _ _ _ _ _ _ _ _ _ hloop hne (by simp) d hd).1
    · exfalso
      rw [hnil] at hi
      exact pathsPerImagePart_ne_nil model timestamp outputDir recs _ 0 hsome hi.symm

/-- Witness for C5 (amended): the example of the specification.  The steps are those of
`A` and `C`, with ids 0 and 2, and the final file holds the image of the third call. -/
theorem incremental_steps_are_recommendations_with_image_witness :
    stepIds (visualizeUrbanImprovements scriptFirstAndThird 5 "uploads/in.png"
      exampleAnalysis "results" true exampleWorld).1 = some [0, 2] ∧
    readFileSync "results/improved-5.png"
      (visualizeUrbanImprovements scriptFirstAndThird 5 "uploads/in.png" exampleAnalysis
        "results" true exampleWorld).2 = .ok "IMAGE-C" :=
  ⟨by decide,
    (incremental_steps_are_recommendations_with_image scriptFirstAndThird 5 "uploads/in.png"
      exampleAnalysis "results" exampleWorld exampleRecommendations
      { finalImagePath := "results/improved-5.png"
        incrementalImages := ["results/improved-5-step-1.png", "results/improved-5-step-3.png"]
        incrementalChanges := [stepOf 0 (exampleRecommendations.get ⟨0, by decide⟩),
                               stepOf 2 (exampleRecommendations.get ⟨2, by decide⟩)] }
      rfl atMostOne_scriptFirstAndThird ⟨0, by decide, by decide⟩ rfl).2 "IMAGE-C" rfl⟩

/-- C6 (as stated) fails: with an image for each of three recommendations the run
returns three steps, and the final image path is not the path of the last step. -/
theorem final_image_path_counterexample :
    ((visualizeUrbanImprovements scriptAlways 5 "uploads/in.png" exampleAnalysis "results"
        true exampleWorld).1.toOption.map fun res =>
      (res.incrementalChanges.length, res.finalImagePath, res.incrementalImages.getLast?))
      = some (3, "results/improved-5.png", some "results/improved-5-step-3.png") ∧
    "results/improved-5.png" ≠ "results/improved-5-step-3.png" :=
  ⟨by decide, by decide⟩

/-- C6 (amended): when no response carries more than one image part and an incremental
run over `R` recommendations (`R > 0`) returns `R` steps, the file at `finalImagePath`
and the file at the last entry of `incrementalImages` hold the same image. -/
theorem final_image_copies_last_step (model : ModelScript) (timestamp : Nat)
    (inputImagePath : String) (analysis : JsVal) (outputDir : String) (w : World)
    (recs : List JsVal) (res : VisualizationResult)
    (hrecs : analysis.prop "improvement_recommendations" = .ok (.arr recs))
    (hne : recs ≠ [])
    (hone : AtMostOneImagePerResponse model)
    (hrun : (visualizeUrbanImprovements model timestamp inputImagePath analysis outputDir
      true w).1 = .ok res)
    (hfull : res.incrementalChanges.length = recs.length) :
    ∃ last content : String, res.incrementalImages.getLast? = some last ∧
      readFileSync last
        (visualizeUrbanImprovements model timestamp inputImagePath analysis outputDir
          true w).2 = .ok content ∧
      readFileSync res.finalImagePath
        (visualizeUrbanImprovements model timestamp inputImagePath analysis outputDir
          true w).2 = .ok content := by
  cases hread : readFileSync inputImagePath w with
  | error e => simp [visualizeUrbanImprovements, hread] at hrun
  | ok imageBase64 =>
    obtain ⟨st, w1, hloop, hcase⟩ := visualizeUrbanImprovements_ok_cases model timestamp
      inputImagePath analysis outputDir w imageBase64 recs res hread hrecs hne hrun
    obtain ⟨hc, hi, _⟩ := incrementalLoop_ok_spec _ _ _ _ _ _ _ _ _ _ _ _ hloop
    simp only [List.nil_append] at hc hi
    rcases hcase with ⟨_, hres, hw⟩ | ⟨_, hgen, hw⟩
    · subst hres
      simp only at hfull ⊢
      rw [hc, stepsPerImagePart_eq_stepsWithImage model hone] at hfull
      have himg := last_image_of_full_length model recs _ 0 hfull hne
      cases hd : lastImageData (partsOfCall model (w.requests.length + recs.length - 1)) with
      | none => exact absurd ((lastImageData_eq_none_iff _).mp hd) himg
      | some d =>
        obtain ⟨hfin, hstep⟩ :=
          incrementalLoop_final_content _ _ _ _ _ _ _ _ _ _ _ _ hloop hne (by simp) d hd
        refine ⟨pathJoin outputDir (stepImageName timestamp (recs.length - 1)), d, ?_, ?_, ?_⟩
        · rw [hi, getLast?_pathsPerImagePart model timestamp outputDir recs _ 0 hne himg]
          simp
        · rw [hw]; exact readFileSync_of_lookup _ _ _ hstep
        · rw [hw]; exact readFileSync_of_lookup _ _ _ hfin
    · obtain ⟨prompt, response, parts, hprompt, hm, hparts⟩ :=
        generateFinalImage_ok_inv _ _ _ _ _ _ _ hgen
      obtain ⟨_, _, _, himg, hres⟩ := generateFinalImage_ok_eq _ _ _ _ _ _ _ hgen
      rw [partsOfCall_eq model _ _ _ hm hparts] at himg
      have hworld := generateFinalImage_world model imageBase64 (getMimeType inputImagePath)
        analysis (pathJoin outputDir (finalImageName timestamp)) w1 prompt response parts
        hprompt hm hparts
      cases hd : lastImageData parts with
      | none => exact absurd ((lastImageData_eq_none_iff _).mp hd) himg
      | some d =>
        have hlook : ((visualizeUrbanImprovements model timestamp inputImagePath analysis
            outputDir true w).2).files.lookup (pathJoin outputDir (finalImageName timestamp))
            = some d := by
          rw [hw, hworld, saveFinalParts_lookup, hd]
          rfl
        subst hres
        exact ⟨pathJoin outputDir (finalImageName timestamp), d, rfl,
          readFileSync_of_lookup _ _ _ hlook, readFileSync_of_lookup _ _ _ hlook⟩

theorem atMostOne_scriptAlways : AtMostOneImagePerResponse scriptAlways := by
  intro k
  simp [partsOfCall, scriptAlways, responseParts, imageResponse, imageParts]

/-- Witness for C6 (amended): three recommendations, an image for each; the final file
and the file of the third step both hold the image of the third call. -/
theorem final_image_copies_last_step_witness :
    ∃ last content : String,
      ["results/improved-5-step-1.png", "results/improved-5-step-2.png",
        "results/improved-5-step-3.png"].getLast? = some last ∧
      readFileSync last
        (visualizeUrbanImprovements scriptAlways 5 "uploads/in.png" exampleAnalysis "results"
          true exampleWorld).2 = .ok content ∧
      readFileSync "results/improved-5.png"
        (visualizeUrbanImprovements scriptAlways 5 "uploads/in.png" exampleAnalysis "results"
          true exampleWorld).2 = .ok content :=
  final_image_copies_last_step scriptAlways 5 "uploads/in.png" exampleAnalysis "results"
    exampleWorld exampleRecommendations
    { finalImagePath := "results/improved-5.png"
      incrementalImages := ["results/improved-5-step-1.png", "results/improved-5-step-2.png",
        "results/improved-5-step-3.png"]
      incrementalChanges := stepsOfAll 0 exampleRecommendations }
    rfl (by simp [exampleRecommendations]) atMostOne_scriptAlways rfl rfl

/-! ## Runs in which no call returns an image -/

theorem saveIncrementalParts_no_image (timestamp : Nat) (outputDir finalImagePath : String)
    (i total : Nat) (rec : JsVal) :
    ∀ (parts : List Part) (st : LoopState) (w : World), imageParts parts = [] →
      saveIncrementalParts timestamp outputDir finalImagePath i total rec parts st w
        = (.ok st, w) := by
  intro parts
  induction parts with
  | nil => intro st w _; rfl
  | cons part rest ih =>
    intro st w h
    cases hp : part.inlineData with
    | none =>
      rw [imageParts_cons_none _ _ hp] at h
      simp only [saveIncrementalParts, hp]
      exact ih st w h
    | some inline =>
      rw [imageParts_cons_some _ _ _ hp] at h
      simp at h

/-- A loop whose prompts are all built and whose calls are all answered without an
image leaves its variables and the files untouched and logs one request per
recommendation, each carrying the image it started with. -/
theorem incrementalLoop_no_image (model : ModelScript) (timestamp : Nat)
    (outputDir finalImagePath mimeType : String) (total : Nat) :
    ∀ (rest : List JsVal) (i : Nat) (st : LoopState) (w : World),
      (∀ rec ∈ rest, ∀ a b : Nat, ∃ p, createIncrementalPrompt rec a b = .ok p) →
      (∀ j, j < rest.length → ∃ response parts,
        model (w.requests.length + j) = .ok response ∧
        responseParts response = .ok parts ∧ imageParts parts = []) →
      ∃ extra : List PromptParts,
        incrementalLoop model timestamp outputDir finalImagePath mimeType total i rest st w
          = (.ok st, { w with requests := w.requests ++ extra }) ∧
        extra.length = rest.length ∧
        ∀ req ∈ extra, req.data = st.currentImageBase64 := by
  intro rest
  induction rest with
  | nil =>
    intro i st w _ _
    exact ⟨[], by simp [incrementalLoop], rfl, by simp⟩
  | cons rec rest ih =>
    intro i st w hprompts hnone
    obtain ⟨prompt, hp⟩ := hprompts rec (List.mem_cons_self _ _) (i + 1) total
    obtain ⟨response, parts, hm, hparts, himg⟩ := hnone 0 (by simp)
    rw [Nat.add_zero] at hm
    obtain ⟨extra, hloop, hlen, hdata⟩ := ih (i + 1) st
      { w with requests := w.requests ++
          [{ mimeType := mimeType, data := st.currentImageBase64, text := prompt }] }
      (fun r hr => hprompts r (List.mem_cons_of_mem _ hr))
      (fun j hj => by
        have := hnone (j + 1) (by simpa using hj)
        simpa [Nat.add_assoc, Nat.add_comm 1 j] using this)
    refine ⟨{ mimeType := mimeType, data := st.currentImageBase64, text := prompt } :: extra,
      ?_, by simp [hlen], ?_⟩
    · rw [incrementalLoop_cons _ _ _ _ _ _ _ _ _ _ _ _ _ _ hp hm hparts,
        saveIncrementalParts_no_image _ _ _ _ _ _ _ _ _ himg]
      simp only [hloop, List.append_assoc, List.singleton_append]
    · intro req hreq
      rcases List.mem_cons.mp hreq with rfl | hreq
      · rfl
      · exact hdata req hreq

/-- C7 (as stated) fails: one recommendation, and the response to its call has no
candidate, hence no image.  Reading `candidates[0].content.parts` throws a `TypeError`,
which ends the run after that single request of the loop: `generateFinalImage`, which
would have received an image and returned one step, is not invoked, and the run is not
the outcome of a call of it after the request of the loop. -/
theorem fallback_counterexample :
    singleAnalysis.prop "improvement_recommendations" = .ok (.arr
      [.obj [("category", .str "A"), ("recommendation", .str "widen the pavement"),
             ("expected_benefits", .str "walkability")]]) ∧
    (∀ k, k < 1 → imageParts (partsOfCall scriptBlockedFirst k) = []) ∧
    (visualizeUrbanImprovements scriptBlockedFirst 5 "uploads/in.png" singleAnalysis "results"
      true exampleWorld).1 = .error .typeError ∧
    (visualizeUrbanImprovements scriptBlockedFirst 5 "uploads/in.png" singleAnalysis "results"
      true exampleWorld).2.requests.length = 1 ∧
    stepIds (generateFinalImage scriptBlockedFirst "ORIGINAL" (getMimeType "uploads/in.png")
      singleAnalysis (pathJoin "results" (finalImageName 5))
      (visualizeUrbanImprovements scriptBlockedFirst 5 "uploads/in.png" singleAnalysis "results"
        true exampleWorld).2).1 = some [0] ∧
    ¬ ∃ extra : List PromptParts, extra.length = 1 ∧
      visualizeUrbanImprovements scriptBlockedFirst 5 "uploads/in.png" singleAnalysis "results"
          true exampleWorld
        = generateFinalImage scriptBlockedFirst "ORIGINAL" (getMimeType "uploads/in.png")
            singleAnalysis (pathJoin "results" (finalImageName 5))
            { exampleWorld with requests := exampleWorld.requests ++ extra } := by
  refine ⟨rfl, ?_, rfl, by decide, by decide, ?_⟩
  · intro k hk
    obtain rfl : k = 0 := by omega
    rfl
  · rintro ⟨extra, hlen, heq⟩
    have hl : ({ exampleWorld with requests := exampleWorld.requests ++ extra } :
        World).requests.length = 1 := by
      simp [exampleWorld, hlen]
    have h1 := generateFinalImage_eq scriptBlockedFirst "ORIGINAL"
      (getMimeType "uploads/in.png") singleAnalysis (pathJoin "results" (finalImageName 5))
      { exampleWorld with requests := exampleWorld.requests ++ extra } _
      (imageResponse "IMAGE-ALL") _ _ rfl (by rw [hl]; rfl) rfl rfl
    rw [← heq] at h1
    have h2 : (visualizeUrbanImprovements scriptBlockedFirst 5 "uploads/in.png" singleAnalysis
        "results" true exampleWorld).1 = .error .typeError := rfl
    rw [h2, if_neg (by decide)] at h1
    exact Except.noConfusion h1

/-- C7 (amended): in an incremental run over a non-empty recommendation list in which
every prompt is built and every response of the loop has a first candidate whose parts
contain no image, the outcome of `visualizeUrbanImprovements` (result or exception, and
files) is that of one call of `generateFinalImage` on the original input image, made
after the requests of the loop, which all carried the original image. -/
theorem fallback_when_no_image (model : ModelScript) (timestamp : Nat)
    (inputImagePath : String) (analysis : JsVal) (outputDir : String) (w : World)
    (imageBase64 : String) (recs : List JsVal)
    (hread : readFileSync inputImagePath w = .ok imageBase64)
    (hrecs : analysis.prop "improvement_recommendations" = .ok (.arr recs))
    (hne : recs ≠ [])
    (hprompts : ∀ rec ∈ recs, ∀ a b : Nat, ∃ p, createIncrementalPrompt rec a b = .ok p)
    (hnone : ∀ j, j < recs.length → ∃ response parts,
      model (w.requests.length + j) = .ok response ∧
      responseParts response = .ok parts ∧ imageParts parts = []) :
    ∃ extra : List PromptParts, extra.length = recs.length ∧
      (∀ req ∈ extra, req.data = imageBase64) ∧
      visualizeUrbanImprovements model timestamp inputImagePath analysis outputDir true w
        = generateFinalImage model imageBase64 (getMimeType inputImagePath) analysis
            (pathJoin outputDir (finalImageName timestamp))
            { w with requests := w.requests ++ extra } := by
  obtain ⟨extra, hloop, hlen, hdata⟩ := incrementalLoop_no_image model timestamp outputDir
    (pathJoin outputDir (finalImageName timestamp)) (getMimeType inputImagePath) recs.length
    recs 0 { currentImageBase64 := imageBase64, currentImagePath := inputImagePath,
             incrementalImages := [], incrementalChanges := [] } w hprompts hnone
  refine ⟨extra, hlen, hdata, ?_⟩
  rw [visualizeUrbanImprovements_incremental model timestamp inputImagePath analysis outputDir
    w imageBase64 recs hread hrecs hne, hloop]
  simp

/-- Witness for C7 (amended): three recommendations, text for the three calls of the loop
and an image for the fourth call; the run returns the three steps of the single-shot
result. -/
theorem fallback_when_no_image_witness :
    stepIds (visualizeUrbanImprovements scriptOnlyFourth 5 "uploads/in.png" exampleAnalysis
      "results" true exampleWorld).1 = some [0, 1, 2] ∧
    ∃ extra : List PromptParts, extra.length = exampleRecommendations.length ∧
      (∀ req ∈ extra, req.data = "ORIGINAL") ∧
      visualizeUrbanImprovements scriptOnlyFourth 5 "uploads/in.png" exampleAnalysis "results"
          true exampleWorld
        = generateFinalImage scriptOnlyFourth "ORIGINAL" (getMimeType "uploads/in.png")
            exampleAnalysis (pathJoin "results" (finalImageName 5))
            { exampleWorld with requests := exampleWorld.requests ++ extra } :=
  ⟨by decide,
    fallback_when_no_image scriptOnlyFourth 5 "uploads/in.png" exampleAnalysis "results"
      exampleWorld "ORIGINAL" exampleRecommendations rfl rfl
      (by simp [exampleRecommendations])
      (by
        intro rec hrec a b
        simp only [exampleRecommendations, List.mem_cons, List.mem_singleton,
          List.not_mem_nil, or_false] at hrec
        rcases hrec with rfl | rfl | rfl <;> exact ⟨_, rfl⟩)
      (by
        intro j hj
        have hj3 : j < 3 := hj
        interval_cases j <;> exact ⟨textResponse, _, rfl, rfl, rfl⟩)⟩

/-! ## Chaining of images -/

theorem chainedImage_shift (model : ModelScript) (cur : String) (n : Nat) :
    ∀ j : Nat, chainedImage model ((lastImageData (partsOfCall model n)).getD cur) (n + 1) j
      = chainedImage model cur n (j + 1) := by
  intro j
  induction j with
  | zero =>
    simp only [chainedImage, Nat.add_zero]
    cases lastImageData (partsOfCall model n) <;> rfl
  | succ j ih =>
    rw [chainedImage, ih, chainedImage.eq_2 model cur n (j + 1),
      show n + 1 + j = n + (j + 1) by omega]

/-- The requests logged by the incremental loop, whatever its outcome: the request at
position `j` carries the chained image. -/
theorem incrementalLoop_requests (model : ModelScript) (timestamp : Nat)
    (outputDir finalImagePath mimeType : String) (total : Nat) :
    ∀ (rest : List JsVal) (i : Nat) (st : LoopState) (w : World),
      ∃ extra : List PromptParts,
        (incrementalLoop model timestamp outputDir finalImagePath mimeType total i rest st
          w).2.requests = w.requests ++ extra ∧
        ∀ (j : Nat) (req : PromptParts), extra[j]? = some req →
          req.data = chainedImage model st.currentImageBase64 w.requests.length j := by
  intro rest
  induction rest with
  | nil =>
    intro i st w
    exact ⟨[], by simp [incrementalLoop], by simp⟩
  | cons rec rest ih =>
    intro i st w
    cases hp : createIncrementalPrompt rec (i + 1) total with
    | error e => exact ⟨[], by simp [incrementalLoop, hp], by simp⟩
    | ok prompt =>
      have hfirst : ∀ (j : Nat) (req : PromptParts),
          [({ mimeType := mimeType, data := st.currentImageBase64, text := prompt } :
            PromptParts)][j]? = some req →
          req.data = chainedImage model st.currentImageBase64 w.requests.length j := by
        intro j req h
        cases j with
        | zero =>
          simp only [List.getElem?_cons_zero, Option.some.injEq] at h
          subst h
          rfl
        | succ j => simp at h
      cases hm : model w.requests.length with
      | error e =>
        exact ⟨[{ mimeType := mimeType, data := st.currentImageBase64, text := prompt }],
          by simp [incrementalLoop, hp, generateContent, hm], hfirst⟩
      | ok response =>
        cases hparts : responseParts response with
        | error e =>
          exact ⟨[{ mimeType := mimeType, data := st.currentImageBase64, text := prompt }],
            by simp [incrementalLoop, hp, generateContent, hm, hparts], hfirst⟩
        | ok parts =>
          obtain ⟨hn1, hn2⟩ := ne_of_createIncrementalPrompt _ _ _ _ hp
          obtain ⟨st1, w1, e, _, _, hcur, hreq, _, _⟩ :=
            saveIncrementalParts_spec timestamp outputDir finalImagePath i total rec hn1 hn2
              parts st
              { w with requests := w.requests ++
                  [{ mimeType := mimeType, data := st.currentImageBase64, text := prompt }] }
          obtain ⟨extra, hex, hdata⟩ := ih (i + 1) st1 w1
          have hlen : w1.requests.length = w.requests.length + 1 := by simp [hreq]
          refine ⟨{ mimeType := mimeType, data := st.currentImageBase64, text := prompt }
            :: extra, ?_, ?_⟩
          · rw [incrementalLoop_cons _ _ _ _ _ _ _ _ _ _ _ _ _ _ hp hm hparts, e]
            simp only [hex, hreq, List.append_assoc, List.singleton_append]
          · intro j req h
            cases j with
            | zero =>
              simp only [List.getElem?_cons_zero, Option.some.injEq] at h
              subst h
              rfl
            | succ j =>
              simp only [List.getElem?_cons_succ] at h
              have := hdata j req h
              rw [hlen, hcur, ← partsOfCall_eq model _ _ _ hm hparts, chainedImage_shift] at this
              exact this

theorem generateFinalImage_requests (model : ModelScript) (imageBase64 mimeType : String)
    (analysis : JsVal) (outputPath : String) (w : World) :
    ∃ extra : List PromptParts,
      (generateFinalImage model imageBase64 mimeType analysis outputPath w).2.requests
        = w.requests ++ extra := by
  cases hp : createVisualizationPrompt analysis with
  | error e => exact ⟨[], by simp [generateFinalImage, hp]⟩
  | ok prompt =>
    cases hm : model w.requests.length with
    | error e =>
      exact ⟨[{ mimeType := mimeType, data := imageBase64, text := prompt }],
        by simp [generateFinalImage, hp, generateContent, hm]⟩
    | ok response =>
      cases hparts : responseParts response with
      | error e =>
        exact ⟨[{ mimeType := mimeType, data := imageBase64, text := prompt }],
          by simp [generateFinalImage, hp, generateContent, hm, hparts]⟩
      | ok parts =>
        exact ⟨[{ mimeType := mimeType, data := imageBase64, text := prompt }], by
          rw [generateFinalImage_world model imageBase64 mimeType analysis outputPath w prompt
            response parts hp hm hparts, saveFinalParts_requests]⟩

/-- C10: in a run of the incremental branch, whether it returns or throws, the request
made for recommendation `i` carries the image returned by the most recent earlier call
of the loop that returned one (its last image part), and the original input image when
no earlier call returned an image. -/
theorem incremental_requests_chain (model : ModelScript) (timestamp : Nat)
    (inputImagePath : String) (analysis : JsVal) (outputDir : String) (w : World)
    (imageBase64 : String) (recs : List JsVal)
    (hread : readFileSync inputImagePath w = .ok imageBase64)
    (hrecs : analysis.prop "improvement_recommendations" = .ok (.arr recs))
    (hne : recs ≠ []) :
    ∀ (i : Nat) (req : PromptParts), i < recs.length →
      ((visualizeUrbanImprovements model timestamp inputImagePath analysis outputDir true
        w).2.requests)[w.requests.length + i]? = some req →
      req.data = chainedImage model imageBase64 w.requests.length i := by
  intro i req hi hreq
  obtain ⟨extra, hex, hdata⟩ := incrementalLoop_requests model timestamp outputDir
    (pathJoin outputDir (finalImageName timestamp)) (getMimeType inputImagePath) recs.length
    recs 0 { currentImageBase64 := imageBase64, currentImagePath := inputImagePath,
             incrementalImages := [], incrementalChanges := [] } w
  rw [visualizeUrbanImprovements_incremental model timestamp inputImagePath analysis outputDir
    w imageBase64 recs hread hrecs hne] at hreq
  cases hl : incrementalLoop model timestamp outputDir
      (pathJoin outputDir (finalImageName timestamp)) (getMimeType inputImagePath) recs.length 0
      recs { currentImageBase64 := imageBase64, currentImagePath := inputImagePath,
             incrementalImages := [], incrementalChanges := [] } w with
  | mk r w1 =>
    rw [hl] at hreq hex
    simp only at hex
    have hdirect : w1.requests[w.requests.length + i]? = some req →
        req.data = chainedImage model imageBase64 w.requests.length i := by
      intro h
      rw [hex, List.getElem?_append_right (by omega)] at h
      exact hdata i req (by simpa using h)
    cases r with
    | error e => exact hdirect hreq
    | ok st =>
      simp only at hreq
      by_cases hz : st.incrementalImages.length = 0
      · rw [if_pos hz] at hreq
        obtain ⟨extra2, hex2⟩ := generateFinalImage_requests model imageBase64
          (getMimeType inputImagePath) analysis (pathJoin outputDir (finalImageName timestamp)) w1
        obtain ⟨_, _, hlen⟩ := incrementalLoop_ok_spec _ _ _ _ _ _ _ _ _ _ _ _ hl
        rw [hex2, List.getElem?_append_left (by omega)] at hreq
        exact hdirect hreq
      · rw [if_neg hz] at hreq
        exact hdirect hreq

/-- Witness for C10: images for the first and the third of three calls.  The second and
the third request carry the image of the first call, the first request the original. -/
theorem incremental_requests_chain_witness :
    ((visualizeUrbanImprovements scriptFirstAndThird 5 "uploads/in.png" exampleAnalysis
      "results" true exampleWorld).2.requests.map (·.data))
      = ["ORIGINAL", "IMAGE-A", "IMAGE-A"] ∧
    ∀ (i : Nat) (req : PromptParts), i < exampleRecommendations.length →
      ((visualizeUrbanImprovements scriptFirstAndThird 5 "uploads/in.png" exampleAnalysis
        "results" true exampleWorld).2.requests)[exampleWorld.requests.length + i]? = some req →
      req.data = chainedImage scriptFirstAndThird "ORIGINAL" exampleWorld.requests.length i :=
  ⟨by decide,
    incremental_requests_chain scriptFirstAndThird 5 "uploads/in.png" exampleAnalysis "results"
      exampleWorld "ORIGINAL" exampleRecommendations rfl rfl
      (by simp [exampleRecommendations])⟩

/-! ## Names of the persisted images -/

theorem digitChar_value (k : Nat) (h : k < 10) : (Nat.digitChar k).toNat - 48 = k := by
  interval_cases k <;> rfl

theorem foldl_toDigitsCore (fuel : Nat) :
    ∀ (n : Nat) (ds : List Char) (a : Nat), n < fuel →
      ∃ k : Nat, (Nat.toDigitsCore 10 fuel n ds).foldl
          (fun acc c => 10 * acc + (c.toNat - 48)) a
        = ds.foldl (fun acc c => 10 * acc + (c.toNat - 48)) (a * 10 ^ k + n) := by
  induction fuel with
  | zero => intro n ds a h; omega
  | succ fuel ih =>
    intro n ds a h
    have hd := digitChar_value (n % 10) (Nat.mod_lt n (by decide))
    by_cases h0 : n / 10 = 0
    · refine ⟨1, ?_⟩
      simp only [Nat.toDigitsCore, h0, if_true, List.foldl_cons, hd]
      have : n % 10 = n := Nat.mod_eq_of_lt (by omega)
      rw [this]
      congr 1
      omega
    · have hlt : n / 10 < fuel := by omega
      obtain ⟨k, hk⟩ := ih (n / 10) (Nat.digitChar (n % 10) :: ds) a hlt
      refine ⟨k + 1, ?_⟩
      simp only [Nat.toDigitsCore, h0, if_false]
      rw [hk]
      simp only [List.foldl_cons, hd]
      congr 1
      rw [Nat.pow_succ]
      have := Nat.div_add_mod n 10
      nlinarith [Nat.div_add_mod n 10]

/-- Reading back the decimal text of a number gives the number. -/
theorem decimalValue_toString (n : Nat) : decimalValue (toString n).data = n := by
  obtain ⟨k, hk⟩ := foldl_toDigitsCore (n + 1) n [] 0 (by omega)
  show decimalValue (Nat.toDigits 10 n) = n
  unfold decimalValue Nat.toDigits
  rw [hk]
  simp

theorem toString_nat_injective (m n : Nat) (h : toString m = toString n) : m = n := by
  have := congrArg (fun s : String => decimalValue s.data) h
  simpa [decimalValue_toString] using this

theorem string_append_cancel_left (a b c : String) (h : a ++ b = a ++ c) : b = c := by
  have := congrArg String.data h
  simp only [String.data_append] at this
  exact String.ext (List.append_cancel_left this)

theorem string_append_cancel_right (a b c : String) (h : a ++ c = b ++ c) : a = b := by
  have := congrArg String.data h
  simp only [String.data_append] at this
  exact String.ext (List.append_cancel_right this)

theorem stepImageName_injective (timestamp i j : Nat)
    (h : stepImageName timestamp i = stepImageName timestamp j) : i = j := by
  unfold stepImageName at h
  have h1 := string_append_cancel_right _ _ _ h
  have h2 := string_append_cancel_left _ _ _ h1
  have := toString_nat_injective _ _ h2
  omega

theorem stepImageName_ne_finalImageName (timestamp i : Nat) :
    stepImageName timestamp i ≠ finalImageName timestamp := by
  intro h
  unfold stepImageName finalImageName at h
  simp only [String.append_assoc] at h
  have h1 := string_append_cancel_left _ _ _ h
  have h2 := string_append_cancel_left _ _ _ h1
  have h3 := congrArg String.data h2
  simp only [String.data_append] at h3
  have h4 := congrArg List.head? h3
  simp at h4

theorem pathJoin_injective (outputDir a b : String)
    (h : pathJoin outputDir a = pathJoin outputDir b) : a = b := by
  unfold pathJoin at h
  by_cases hd : outputDir = ""
  · simpa [hd] using h
  · simp only [hd, if_false, String.append_assoc] at h
    exact string_append_cancel_left _ _ _ (string_append_cancel_left _ _ _ h)

/-- C16: within one session timestamp the names of the persisted images never collide:
the names of two different steps differ, and every step name differs from the final
name. -/
theorem image_names_distinct (timestamp i j : Nat) (h : i ≠ j) :
    stepImageName timestamp i ≠ stepImageName timestamp j ∧
    stepImageName timestamp i ≠ finalImageName timestamp ∧
    stepImageName timestamp j ≠ finalImageName timestamp :=
  ⟨fun he => h (stepImageName_injective timestamp i j he),
    stepImageName_ne_finalImageName timestamp i, stepImageName_ne_finalImageName timestamp j⟩

/-- Witness for C16: the first two steps of the session with timestamp 5. -/
theorem image_names_distinct_witness :
    (stepImageName 5 0 = "improved-5-step-1.png" ∧
      stepImageName 5 1 = "improved-5-step-2.png" ∧
      finalImageName 5 = "improved-5.png") ∧
    (stepImageName 5 0 ≠ stepImageName 5 1 ∧
      stepImageName 5 0 ≠ finalImageName 5 ∧
      stepImageName 5 1 ≠ finalImageName 5) :=
  ⟨by decide, image_names_distinct 5 0 1 (by decide)⟩

/-! ## Images and steps side by side -/

theorem pathsPerImagePart_eq_map (model : ModelScript) (timestamp : Nat) (outputDir : String) :
    ∀ (rest : List JsVal) (n i : Nat),
      pathsPerImagePart model timestamp outputDir n i rest
        = (stepsPerImagePart model n i rest).map
            (fun c => pathJoin outputDir (stepImageName timestamp c.id)) := by
  intro rest
  induction rest with
  | nil => intro n i; rfl
  | cons rec rest ih =>
    intro n i
    simp only [pathsPerImagePart, stepsPerImagePart, List.map_append, List.map_replicate, ih]
    rfl

/-- C20: in the incremental loop the image paths and the steps are parallel.  From any
iteration on, a loop that starts with parallel lists returns parallel lists, and the
result of a run that recorded an image has as many image paths as steps, the `k`-th path
being the step file `improved-<ts>-step-<id+1>.png` (in the output directory) for the id
of the `k`-th step. -/
theorem incremental_images_parallel (model : ModelScript) (timestamp : Nat)
    (inputImagePath : String) (analysis : JsVal) (outputDir : String) (w : World)
    (recs : List JsVal) (res : VisualizationResult)
    (hrecs : analysis.prop "improvement_recommendations" = .ok (.arr recs))
    (hsome : ∃ j, j < recs.length ∧ imageParts (partsOfCall model (w.requests.length + j)) ≠ [])
    (hrun : (visualizeUrbanImprovements model timestamp inputImagePath analysis outputDir
      true w).1 = .ok res) :
    (res.incrementalImages.length = res.incrementalChanges.length ∧
      res.incrementalImages = res.incrementalChanges.map
        (fun c => pathJoin outputDir (stepImageName timestamp c.id))) ∧
    ∀ (finalImagePath mimeType : String) (total i : Nat) (rest : List JsVal)
      (st st2 : LoopState) (w1 w2 : World),
      incrementalLoop model timestamp outputDir finalImagePath mimeType total i rest st w1
        = (.ok st2, w2) →
      st.incrementalImages = st.incrementalChanges.map
        (fun c => pathJoin outputDir (stepImageName timestamp c.id)) →
      st2.incrementalImages.length = st2.incrementalChanges.length ∧
      st2.incrementalImages = st2.incrementalChanges.map
        (fun c => pathJoin outputDir (stepImageName timestamp c.id)) := by
  have hloopPar : ∀ (finalImagePath mimeType : String) (total i : Nat) (rest : List JsVal)
      (st st2 : LoopState) (w1 w2 : World),
      incrementalLoop model timestamp outputDir finalImagePath mimeType total i rest st w1
        = (.ok st2, w2) →
      st.incrementalImages = st.incrementalChanges.map
        (fun c => pathJoin outputDir (stepImageName timestamp c.id)) →
      st2.incrementalImages.length = st2.incrementalChanges.length ∧
      st2.incrementalImages = st2.incrementalChanges.map
        (fun c => pathJoin outputDir (stepImageName timestamp c.id)) := by
    intro finalImagePath mimeType total i rest st st2 w1 w2 hloop hpar
    obtain ⟨hc, hi, _⟩ := incrementalLoop_ok_spec _ _ _ _ _ _ _ _ _ _ _ _ hloop
    have heq : st2.incrementalImages = st2.incrementalChanges.map
        (fun c => pathJoin outputDir (stepImageName timestamp c.id)) := by
      rw [hi, hc, hpar, pathsPerImagePart_eq_map, List.map_append]
    exact ⟨by rw [heq, List.length_map], heq⟩
  refine ⟨?_, hloopPar⟩
  have hne : recs ≠ [] := by
    obtain ⟨j, hj, _⟩ := hsome
    intro hc
    simp [hc] at hj
  cases hread : readFileSync inputImagePath w with
  | error e => simp [visualizeUrbanImprovements, hread] at hrun
  | ok imageBase64 =>
    obtain ⟨st, w1, hloop, hcase⟩ := visualizeUrbanImprovements_ok_cases model timestamp
      inputImagePath analysis outputDir w imageBase64 recs res hread hrecs hne hrun
    rcases hcase with ⟨_, hres, _⟩ | ⟨hnil, _, _⟩
    · subst hres
      exact hloopPar _ _ _ _ _ _ _ _ _ hloop rfl
    · exfalso
      obtain ⟨_, hi, _⟩ := incrementalLoop_ok_spec _ _ _ _ _ _ _ _ _ _ _ _ hloop
      simp only [List.nil_append] at hi
      rw [hnil] at hi
      exact pathsPerImagePart_ne_nil model timestamp outputDir recs _ 0 hsome hi.symm

/-- Witness for C20: images for the first and the third of three calls; the two image
paths are the step files of the ids 0 and 2. -/
theorem incremental_images_parallel_witness :
    (["results/improved-5-step-1.png", "results/improved-5-step-3.png"].length
        = [stepOf 0 (exampleRecommendations.get ⟨0, by decide⟩),
           stepOf 2 (exampleRecommendations.get ⟨2, by decide⟩)].length ∧
      ["results/improved-5-step-1.png", "results/improved-5-step-3.png"]
        = [stepOf 0 (exampleRecommendations.get ⟨0, by decide⟩),
           stepOf 2 (exampleRecommendations.get ⟨2, by decide⟩)].map
            (fun c => pathJoin "results" (stepImageName 5 c.id))) :=
  (incremental_images_parallel scriptFirstAndThird 5 "uploads/in.png" exampleAnalysis
    "results" exampleWorld exampleRecommendations
    { finalImagePath := "results/improved-5.png"
      incrementalImages := ["results/improved-5-step-1.png", "results/improved-5-step-3.png"]
      incrementalChanges := [stepOf 0 (exampleRecommendations.get ⟨0, by decide⟩),
                             stepOf 2 (exampleRecommendations.get ⟨2, by decide⟩)] }
    rfl ⟨0, by decide, by decide⟩ rfl).1

/-! ## Content of the step files -/

theorem lookup_writeFileSync_other (p path data : String) (w : World) (h : p ≠ path) :
    (writeFileSync path data w).files.lookup p = w.files.lookup p := by
  have : (p == path) = false := by simpa using h
  simp [writeFileSync, List.lookup, this]

theorem saveIncrementalPart_lookup_other (timestamp : Nat) (outputDir finalImagePath : String)
    (i total : Nat) (rec : JsVal) (inline : InlineData) (st : LoopState) (w : World)
    (p : String) (hstep : p ≠ pathJoin outputDir (stepImageName timestamp i))
    (hfinal : p ≠ finalImagePath) :
    (saveIncrementalPart timestamp outputDir finalImagePath i total rec inline st w).2.files.lookup p
      = w.files.lookup p := by
  unfold saveIncrementalPart
  simp only [copyFileSync_after_write]
  cases makeChange i rec with
  | error e => simp only [lookup_writeFileSync_other _ _ _ _ hstep]
  | ok c =>
    simp only
    split
    · simp only [lookup_writeFileSync_other _ _ _ _ hfinal,
        lookup_writeFileSync_other _ _ _ _ hstep]
    · simp only [lookup_writeFileSync_other _ _ _ _ hstep]

theorem saveIncrementalParts_lookup_other (timestamp : Nat) (outputDir finalImagePath : String)
    (i total : Nat) (rec : JsVal) (p : String)
    (hstep : p ≠ pathJoin outputDir (stepImageName timestamp i)) (hfinal : p ≠ finalImagePath) :
    ∀ (parts : List Part) (st : LoopState) (w : World),
      (saveIncrementalParts timestamp outputDir finalImagePath i total rec parts st
        w).2.files.lookup p = w.files.lookup p := by
  intro parts
  induction parts with
  | nil => intro st w; rfl
  | cons part rest ih =>
    intro st w
    cases h : part.inlineData with
    | none => simp only [saveIncrementalParts, h, ih]
    | some inline =>
      have hpart := saveIncrementalPart_lookup_other timestamp outputDir finalImagePath i total
        rec inline st w p hstep hfinal
      simp only [saveIncrementalParts, h]
      cases hs : saveIncrementalPart timestamp outputDir finalImagePath i total rec inline st w with
      | mk r w1 =>
        rw [hs] at hpart
        cases r with
        | error e => exact hpart
        | ok st1 =>
          simp only
          rw [ih st1 w1]
          exact hpart

/-- A returning loop leaves alone every file that is neither the final file nor the
step file of one of its iterations. -/
theorem incrementalLoop_lookup_other (model : ModelScript) (timestamp : Nat)
    (outputDir finalImagePath mimeType : String) (total : Nat) (p : String)
    (hfinal : p ≠ finalImagePath) :
    ∀ (rest : List JsVal) (i : Nat) (st st2 : LoopState) (w w2 : World),
      incrementalLoop model timestamp outputDir finalImagePath mimeType total i rest st w
        = (.ok st2, w2) →
      (∀ j, i ≤ j → j < i + rest.length → p ≠ pathJoin outputDir (stepImageName timestamp j)) →
      w2.files.lookup p = w.files.lookup p := by
  intro rest
  induction rest with
  | nil =>
    intro i st st2 w w2 h _
    simp only [incrementalLoop, Prod.mk.injEq, Except.ok.injEq] at h
    rw [← h.2]
  | cons rec rest ih =>
    intro i st st2 w w2 h hsteps
    obtain ⟨prompt, response, parts, hp, hm, hparts⟩ :=
      incrementalLoop_cons_inv _ _ _ _ _ _ _ _ _ _ _ _ _ h
    rw [incrementalLoop_cons _ _ _ _ _ _ _ _ _ _ _ _ _ _ hp hm hparts] at h
    have hother := saveIncrementalParts_lookup_other timestamp outputDir finalImagePath i total
      rec p (hsteps i (Nat.le_refl i) (by simp)) hfinal parts st
      { w with requests := w.requests ++
          [{ mimeType := mimeType, data := st.currentImageBase64, text := prompt }] }
    cases hs : saveIncrementalParts timestamp outputDir finalImagePath i total rec parts st
      { w with requests := w.requests ++
          [{ mimeType := mimeType, data := st.currentImageBase64, text := prompt }] } with
    | mk r w1 =>
      rw [hs] at h hother
      cases r with
      | error e => simp at h
      | ok st1 =>
        simp only at h hother
        rw [ih (i + 1) st1 st2 w1 w2 h (fun j hj1 hj2 => hsteps j (by omega)
          (by simp only [List.length_cons]; omega)), hother]

/-- After a returning loop, the step file of an iteration whose response carried an
image holds the last image part of that response. -/
theorem incrementalLoop_step_content (model : ModelScript) (timestamp : Nat)
    (outputDir finalImagePath mimeType : String) (total : Nat)
    (hfinal : ∀ j, pathJoin outputDir (stepImageName timestamp j) ≠ finalImagePath) :
    ∀ (rest : List JsVal) (i : Nat) (st st2 : LoopState) (w w2 : World),
      incrementalLoop model timestamp outputDir finalImagePath mimeType total i rest st w
        = (.ok st2, w2) →
      ∀ (k : Nat) (d : String), k < rest.length →
        lastImageData (partsOfCall model (w.requests.length + k)) = some d →
        w2.files.lookup (pathJoin outputDir (stepImageName timestamp (i + k))) = some d := by
  intro rest
  induction rest with
  | nil => intro i st st2 w w2 _ k d hk; simp at hk
  | cons rec rest ih =>
    intro i st st2 w w2 h k d hk hd
    obtain ⟨prompt, response, parts, hp, hm, hparts⟩ :=
      incrementalLoop_cons_inv _ _ _ _ _ _ _ _ _ _ _ _ _ h
    obtain ⟨hn1, hn2⟩ := ne_of_createIncrementalPrompt _ _ _ _ hp
    rw [incrementalLoop_cons _ _ _ _ _ _ _ _ _ _ _ _ _ _ hp hm hparts] at h
    obtain ⟨st1, w1, e, _, _, _, hreq, hstep, _⟩ :=
      saveIncrementalParts_spec timestamp outputDir finalImagePath i total rec hn1 hn2 parts st
        { w with requests := w.requests ++
            [{ mimeType := mimeType, data := st.currentImageBase64, text := prompt }] }
    rw [e] at h
    simp only at h
    have hlen : w1.requests.length = w.requests.length + 1 := by simp [hreq]
    cases k with
    | zero =>
      rw [Nat.add_zero] at hd ⊢
      rw [partsOfCall_eq model _ _ _ hm hparts] at hd
      rw [incrementalLoop_lookup_other model timestamp outputDir finalImagePath mimeType total
        (pathJoin outputDir (stepImageName timestamp i)) (hfinal i) rest (i + 1) st1 st2 w1 w2 h
        (fun j hj1 _ hc => by
          have := stepImageName_injective timestamp i j (pathJoin_injective _ _ _ hc)
          omega),
        hstep, hd]
      rfl
    | succ k =>
      have := ih (i + 1) st1 st2 w1 w2 h k d (by simpa using hk) (by
        rw [hlen, show w.requests.length + 1 + k = w.requests.length + (k + 1) by omega]
        exact hd)
      rw [show i + (k + 1) = i + 1 + k by omega]
      exact this

/-- The requests logged by a run of the incremental branch carry the chained image. -/
theorem visualizeUrbanImprovements_requests (model : ModelScript) (timestamp : Nat)
    (inputImagePath : String) (analysis : JsVal) (outputDir : String) (w : World)
    (imageBase64 : String) (recs : List JsVal)
    (hread : readFileSync inputImagePath w = .ok imageBase64)
    (hrecs : analysis.prop "improvement_recommendations" = .ok (.arr recs))
    (hne : recs ≠ []) :
    ∀ (i : Nat) (req : PromptParts), i < recs.length →
      ((visualizeUrbanImprovements model timestamp inputImagePath analysis outputDir true
        w).2.requests)[w.requests.length + i]? = some req →
      req.data = chainedImage model imageBase64 w.requests.length i := by
  intro i req hi hreq
  obtain ⟨extra, hex, hdata⟩ := incrementalLoop_requests model timestamp outputDir
    (pathJoin outputDir (finalImageName timestamp)) (getMimeType inputImagePath) recs.length
    recs 0 { currentImageBase64 := imageBase64, currentImagePath := inputImagePath,
             incrementalImages := [], incrementalChanges := [] } w
  rw [visualizeUrbanImprovements_incremental model timestamp inputImagePath analysis outputDir
    w imageBase64 recs hread hrecs hne] at hreq
  cases hl : incrementalLoop model timestamp outputDir
      (pathJoin outputDir (finalImageName timestamp)) (getMimeType inputImagePath) recs.length 0
      recs { currentImageBase64 := imageBase64, currentImagePath := inputImagePath,
             incrementalImages := [], incrementalChanges := [] } w with
  | mk r w1 =>
    rw [hl] at hreq hex
    simp only at hex
    have hdirect : w1.requests[w.requests.length + i]? = some req →
        req.data = chainedImage model imageBase64 w.requests.length i := by
      intro h
      rw [hex, List.getElem?_append_right (by omega)] at h
      exact hdata i req (by simpa using h)
    cases r with
    | error e => exact hdirect hreq
    | ok st =>
      simp only at hreq
      by_cases hz : st.incrementalImages.length = 0
      · rw [if_pos hz] at hreq
        obtain ⟨extra2, hex2⟩ := generateFinalImage_requests model imageBase64
          (getMimeType inputImagePath) analysis (pathJoin outputDir (finalImageName timestamp)) w1
        obtain ⟨_, _, hlen⟩ := incrementalLoop_ok_spec _ _ _ _ _ _ _ _ _ _ _ _ hl
        rw [hex2, List.getElem?_append_left (by omega)] at hreq
        exact hdirect hreq
      · rw [if_neg hz] at hreq
        exact hdirect hreq

/-! ## Responses with several image parts -/

/-- C18 (as stated) fails: the first of three responses carries two image parts,
`IMAGE-1` and `IMAGE-2`.  Two steps with id 0 are recorded, the step file holds the
second image, and the second request carries the second image. -/
theorem several_images_counterexample :
    stepIds (visualizeUrbanImprovements scriptTwoImages 5 "uploads/in.png" exampleAnalysis
      "results" true exampleWorld).1 = some [0, 0] ∧
    readFileSync "results/improved-5-step-1.png"
      (visualizeUrbanImprovements scriptTwoImages 5 "uploads/in.png" exampleAnalysis
        "results" true exampleWorld).2 = .ok "IMAGE-2" ∧
    ((visualizeUrbanImprovements scriptTwoImages 5 "uploads/in.png" exampleAnalysis
      "results" true exampleWorld).2.requests.map (·.data))
      = ["ORIGINAL", "IMAGE-2", "IMAGE-2"] :=
  ⟨by decide, rfl, by decide⟩

/-- C18 (amended): in a run of the incremental branch that returns, one step is recorded
per image part of each response, all steps of a recommendation having its index as id;
and for a recommendation whose response carries image parts, the image persisted in its
step file and chained into the next call is the last image part of the response. -/
theorem several_images_last_wins (model : ModelScript) (timestamp : Nat)
    (inputImagePath : String) (analysis : JsVal) (outputDir : String) (w : World)
    (recs : List JsVal) (res : VisualizationResult) (i : Nat) (d : String)
    (hrecs : analysis.prop "improvement_recommendations" = .ok (.arr recs))
    (hi : i < recs.length)
    (hd : lastImageData (partsOfCall model (w.requests.length + i)) = some d)
    (hrun : (visualizeUrbanImprovements model timestamp inputImagePath analysis outputDir
      true w).1 = .ok res) :
    res.incrementalChanges = stepsPerImagePart model w.requests.length 0 recs ∧
    readFileSync (pathJoin outputDir (stepImageName timestamp i))
      (visualizeUrbanImprovements model timestamp inputImagePath analysis outputDir
        true w).2 = .ok d ∧
    ∀ req : PromptParts, i + 1 < recs.length →
      ((visualizeUrbanImprovements model timestamp inputImagePath analysis outputDir true
        w).2.requests)[w.requests.length + (i + 1)]? = some req →
      req.data = d := by
  have hne : recs ≠ [] := by
    intro hc
    simp [hc] at hi
  have hsome : ∃ j, j < recs.length ∧
      imageParts (partsOfCall model (w.requests.length + j)) ≠ [] :=
    ⟨i, hi, fun hc => by
      rw [(lastImageData_eq_none_iff _).mpr hc] at hd
      exact Option.noConfusion hd⟩
  cases hread : readFileSync inputImagePath w with
  | error e => simp [visualizeUrbanImprovements, hread] at hrun
  | ok imageBase64 =>
    obtain ⟨st, w1, hloop, hcase⟩ := visualizeUrbanImprovements_ok_cases model timestamp
      inputImagePath analysis outputDir w imageBase64 recs res hread hrecs hne hrun
    obtain ⟨hc, hpaths, _⟩ := incrementalLoop_ok_spec _ _ _ _ _ _ _ _ _ _ _ _ hloop
    simp only [List.nil_append] at hc hpaths
    rcases hcase with ⟨_, hres, hw⟩ | ⟨hnil, _, _⟩
    · subst hres
      refine ⟨hc, ?_, ?_⟩
      · rw [hw]
        apply readFileSync_of_lookup
        have := incrementalLoop_step_content model timestamp outputDir
          (pathJoin outputDir (finalImageName timestamp)) (getMimeType inputImagePath)
          recs.length
          (fun j hcon => stepImageName_ne_finalImageName timestamp j
            (pathJoin_injective _ _ _ hcon))
          recs 0 _ st w w1 hloop i d hi hd
        simpa using this
      · intro req hnext hreq
        have := visualizeUrbanImprovements_requests model timestamp inputImagePath analysis
          outputDir w imageBase64 recs hread hrecs hne (i + 1) req hnext hreq
        rw [this]
        simp [chainedImage, hd]
    · exfalso
      rw [hnil] at hpaths
      exact pathsPerImagePart_ne_nil model timestamp outputDir recs _ 0 hsome hpaths.symm

/-- Witness for C18 (amended): the first of three responses carries the image parts
`IMAGE-1` and `IMAGE-2`; the step file of the first recommendation holds `IMAGE-2`. -/
theorem several_images_last_wins_witness :
    lastImageData (partsOfCall scriptTwoImages (exampleWorld.requests.length + 0))
      = some "IMAGE-2" ∧
    readFileSync (pathJoin "results" (stepImageName 5 0))
      (visualizeUrbanImprovements scriptTwoImages 5 "uploads/in.png" exampleAnalysis
        "results" true exampleWorld).2 = .ok "IMAGE-2" :=
  ⟨by decide,
    (several_images_last_wins scriptTwoImages 5 "uploads/in.png" exampleAnalysis "results"
      exampleWorld exampleRecommendations
      { finalImagePath := "results/improved-5.png"
        incrementalImages := ["results/improved-5-step-1.png", "results/improved-5-step-1.png"]
        incrementalChanges := [stepOf 0 (exampleRecommendations.get ⟨0, by decide⟩),
                               stepOf 0 (exampleRecommendations.get ⟨0, by decide⟩)] }
      0 "IMAGE-2" rfl (by decide) (by decide) rfl).2.1⟩

/-! ## The final image when the last call returns no image -/

/-- C19: evaluation at the failing input.  Three recommendations, an image for the
first call only: the run returns without falling back, with one step, and its
`finalImagePath` is not among the paths written; reading it fails. -/
theorem final_image_not_written_example :
    ((visualizeUrbanImprovements scriptOnlyFirst 5 "uploads/in.png" exampleAnalysis "results"
        true exampleWorld).1.toOption.map fun res =>
      (res.finalImagePath, res.incrementalImages))
      = some ("results/improved-5.png", ["results/improved-5-step-1.png"]) ∧
    (visualizeUrbanImprovements scriptOnlyFirst 5 "uploads/in.png" exampleAnalysis "results"
      true exampleWorld).2.written = ["results/improved-5-step-1.png"] ∧
    "results/improved-5.png" ∉
      (visualizeUrbanImprovements scriptOnlyFirst 5 "uploads/in.png" exampleAnalysis "results"
        true exampleWorld).2.written ∧
    readFileSync "results/improved-5.png"
      (visualizeUrbanImprovements scriptOnlyFirst 5 "uploads/in.png" exampleAnalysis "results"
        true exampleWorld).2 = .error (.noEntry "results/improved-5.png") :=
  ⟨by decide, by decide, by decide, rfl⟩

/-! ## Prompts for analyses that lack fields -/

/-- C15: evaluation at the failing inputs.  The texts `{}` and
`{"improvement_recommendations": []}` are returned by `parseAnalysisResponse` as decoded;
`createVisualizationPrompt` throws a `TypeError` on both, and so does a run of
`visualizeUrbanImprovements` on the first, before any request is sent. -/
theorem createVisualizationPrompt_throws_example :
    parseAnalysisResponse jsonDecode "\x7b\x7d" = .ok (.obj []) ∧
    createVisualizationPrompt (.obj []) = .error .typeError ∧
    parseAnalysisResponse jsonDecode emptyPlanObject
      = .ok (.obj [("improvement_recommendations", .arr [])]) ∧
    createVisualizationPrompt (.obj [("improvement_recommendations", .arr [])])
      = .error .typeError ∧
    (visualizeUrbanImprovements scriptAlways 5 "uploads/in.png" (.obj []) "results" true
      exampleWorld).1.toOption.isNone = true ∧
    (visualizeUrbanImprovements scriptAlways 5 "uploads/in.png" (.obj []) "results" true
      exampleWorld).2.requests = [] :=
  ⟨rfl, rfl, rfl, rfl, rfl, by decide⟩

/-! ## Navigation of the cursor -/

theorem refreshCurrentImage_frame (now : Nat) (st : ClientState) :
    (refreshCurrentImage now st).currentChangeIndex = st.currentChangeIndex ∧
    (refreshCurrentImage now st).improvements = st.improvements := by
  unfold refreshCurrentImage
  split
  · exact ⟨rfl, rfl⟩
  · split <;> exact ⟨rfl, rfl⟩

theorem navigate_improvements (action : NavAction × Nat) (st : ClientState) :
    (navigate action st).improvements = st.improvements := by
  unfold navigate prevChange nextChange
  split <;> split <;> simp [(refreshCurrentImage_frame _ _).2]

theorem navigate_cursor (action : NavAction × Nat) (st : ClientState)
    (h : 0 ≤ st.currentChangeIndex ∧
      st.currentChangeIndex ≤ max 0 ((st.improvements.length : Int) - 1)) :
    0 ≤ (navigate action st).currentChangeIndex ∧
    (navigate action st).currentChangeIndex ≤ max 0 ((st.improvements.length : Int) - 1) := by
  unfold navigate prevChange nextChange
  split <;> split
  · rw [(refreshCurrentImage_frame _ _).1]
    dsimp only
    omega
  · exact h
  · rw [(refreshCurrentImage_frame _ _).1]
    dsimp only
    omega
  · exact h

/-- C11: starting from a state whose cursor is 0, after any finite sequence of
`nextChange` and `prevChange` actions the list of steps is the same and the cursor lies
between 0 and `max(0, improvements.length - 1)`; it is a valid index when the list is
not empty. -/
theorem cursor_in_range (st : ClientState) (h0 : st.currentChangeIndex = 0)
    (actions : List (NavAction × Nat)) :
    (navigateAll actions st).improvements = st.improvements ∧
    0 ≤ (navigateAll actions st).currentChangeIndex ∧
    (navigateAll actions st).currentChangeIndex ≤ max 0 ((st.improvements.length : Int) - 1) ∧
    (st.improvements ≠ [] →
      (navigateAll actions st).currentChangeIndex < (st.improvements.length : Int)) := by
  have hinv : ∀ (actions : List (NavAction × Nat)) (s : ClientState),
      0 ≤ s.currentChangeIndex ∧
        s.currentChangeIndex ≤ max 0 ((s.improvements.length : Int) - 1) →
      (navigateAll actions s).improvements = s.improvements ∧
      0 ≤ (navigateAll actions s).currentChangeIndex ∧
      (navigateAll actions s).currentChangeIndex ≤ max 0 ((s.improvements.length : Int) - 1) := by
    intro actions
    induction actions with
    | nil => intro s h; exact ⟨rfl, h.1, h.2⟩
    | cons action rest ih =>
      intro s h
      have hc := navigate_cursor action s h
      have hi := navigate_improvements action s
      have := ih (navigate action s) (by rw [hi]; exact hc)
      rw [hi] at this
      exact this
  obtain ⟨h1, h2, h3⟩ := hinv actions st (by rw [h0]; omega)
  refine ⟨h1, h2, h3, ?_⟩
  intro hne
  have : 0 < st.improvements.length := List.length_pos.mpr hne
  omega

/-- Witness for C11: three steps; three times `next` stops at 2, then four times `prev`
stops at 0. -/
theorem cursor_in_range_witness :
    (navigateAll [(.next, 1), (.next, 2), (.next, 3)] threeStepState).currentChangeIndex = 2 ∧
    (navigateAll [(.next, 1), (.next, 2), (.next, 3), (.prev, 4), (.prev, 5), (.prev, 6),
      (.prev, 7)] threeStepState).currentChangeIndex = 0 ∧
    0 ≤ (navigateAll [(.next, 1), (.next, 2), (.next, 3)] threeStepState).currentChangeIndex ∧
    (navigateAll [(.next, 1), (.next, 2), (.next, 3)] threeStepState).currentChangeIndex
      ≤ max 0 ((threeStepState.improvements.length : Int) - 1) :=
  ⟨by decide, by decide,
    (cursor_in_range threeStepState rfl [(.next, 1), (.next, 2), (.next, 3)]).2.1,
    (cursor_in_range threeStepState rfl [(.next, 1), (.next, 2), (.next, 3)]).2.2.1⟩

/-! ## The history -/

/-- C12: after `saveAnalysisToHistory` the history holds at most 20 entries, the new
session is the first entry and the other entries are the first 19 of the previous ones
in their order: all of them when there were fewer than 20, all but the last (oldest) when
there were 20.  This holds whether or not `localStorage` accepts the write. -/
theorem history_capped (now : Nat) (iso : String) (full : Bool) (st : ClientState) :
    (saveAnalysisToHistory now iso full st).2.savedAnalyses.length ≤ 20 ∧
    (saveAnalysisToHistory now iso full st).2.savedAnalyses.head? = some
      { id := now, originalImageDataUrl := st.originalImageUrl,
        resultImageUrl := st.resultImageUrl, analysis := st.analysisResults,
        improvements := st.improvements, generatedImages := st.generatedImages,
        timestamp := iso } ∧
    (saveAnalysisToHistory now iso full st).2.savedAnalyses.tail = st.savedAnalyses.take 19 ∧
    (st.savedAnalyses.length < 20 →
      (saveAnalysisToHistory now iso full st).2.savedAnalyses.tail = st.savedAnalyses) ∧
    (st.savedAnalyses.length = 20 →
      (saveAnalysisToHistory now iso full st).2.savedAnalyses.tail
        = st.savedAnalyses.dropLast) := by
  have hkept : (saveAnalysisToHistory now iso full st).2.savedAnalyses
      = ({ id := now, originalImageDataUrl := st.originalImageUrl,
           resultImageUrl := st.resultImageUrl, analysis := st.analysisResults,
           improvements := st.improvements, generatedImages := st.generatedImages,
           timestamp := iso } : SavedAnalysis) :: st.savedAnalyses.take 19 := by
    unfold saveAnalysisToHistory
    by_cases hlen : st.savedAnalyses.length + 1 > 20
    · cases full <;> simp [hlen, List.take_succ_cons]
    · have : st.savedAnalyses.take 19 = st.savedAnalyses := List.take_of_length_le (by omega)
      cases full <;> simp [hlen, this]
  rw [hkept]
  refine ⟨?_, rfl, rfl, ?_, ?_⟩
  · simp only [List.length_cons, List.length_take]
    omega
  · intro h
    exact List.take_of_length_le (by omega)
  · intro h
    rw [List.tail_cons, List.dropLast_eq_take, h]

/-- Witness for C12: a history of 20 entries with ids 20, ..., 1; after saving the
entry with id 21 the ids are 21, 20, ..., 2. -/
theorem history_capped_witness :
    ((saveAnalysisToHistory 21 "2026" false fullHistoryState).2.savedAnalyses.map (·.id))
      = [21, 20, 19, 18, 17, 16, 15, 14, 13, 12, 11, 10, 9, 8, 7, 6, 5, 4, 3, 2] ∧
    (saveAnalysisToHistory 21 "2026" false fullHistoryState).2.savedAnalyses.tail
      = fullHistoryState.savedAnalyses.dropLast :=
  ⟨by decide, (history_capped 21 "2026" false fullHistoryState).2.2.2.2 (by decide)⟩

/-! ## Jumping to the step of a recommendation -/

theorem findIndexFrom_spec (p : Change → Nat → Bool) :
    ∀ (cs : List Change) (i : Nat),
      (findIndexFrom p i cs = -1 ∧
        ∀ (j : Nat) (c : Change), cs[j]? = some c → p c (i + j) = false) ∨
      ∃ (k : Nat) (c : Change), findIndexFrom p i cs = ((i + k : Nat) : Int) ∧
        cs[k]? = some c ∧ p c (i + k) = true ∧
        ∀ (j : Nat) (c1 : Change), j < k → cs[j]? = some c1 → p c1 (i + j) = false := by
  intro cs
  induction cs with
  | nil => intro i; exact Or.inl ⟨rfl, by simp⟩
  | cons c rest ih =>
    intro i
    by_cases hp : p c i = true
    · right
      refine ⟨0, c, by simp [findIndexFrom, hp], by simp, by simpa using hp, ?_⟩
      intro j c1 hj
      omega
    · have hpf : p c i = false := by simpa using hp
      rcases ih (i + 1) with ⟨hnone, hall⟩ | ⟨k, c2, hk, hget, hpc, hfirst⟩
      · left
        refine ⟨by simp [findIndexFrom, hpf, hnone], ?_⟩
        intro j c1 hget1
        cases j with
        | zero =>
          simp only [List.getElem?_cons_zero, Option.some.injEq] at hget1
          rw [← hget1]
          exact hpf
        | succ j =>
          simp only [List.getElem?_cons_succ] at hget1
          have := hall j c1 hget1
          rw [show i + (j + 1) = i + 1 + j by omega]
          exact this
      · right
        refine ⟨k + 1, c2, ?_, by simpa using hget, ?_, ?_⟩
        · simp only [findIndexFrom, hpf, Bool.false_eq_true, if_false, hk]
          congr 1
          omega
        · rw [show i + (k + 1) = i + 1 + k by omega]
          exact hpc
        · intro j c1 hj hget1
          cases j with
          | zero =>
            simp only [List.getElem?_cons_zero, Option.some.injEq] at hget1
            rw [← hget1]
            exact hpf
          | succ j =>
            simp only [List.getElem?_cons_succ] at hget1
            have := hfirst j c1 (by omega) hget1
            rw [show i + (j + 1) = i + 1 + j by omega]
            exact this

theorem isFirstWithCategory_unique (same : Nat → Bool) (improvements : List Change)
    (category : JsVal) (k1 k2 : Nat) (h1 : IsFirstWithCategory same improvements category k1)
    (h2 : IsFirstWithCategory same improvements category k2) : k1 = k2 := by
  obtain ⟨⟨c1, hc1, hp1⟩, hf1⟩ := h1
  obtain ⟨⟨c2, hc2, hp2⟩, hf2⟩ := h2
  rcases Nat.lt_trichotomy k1 k2 with hlt | heq | hgt
  · have := hf2 k1 c1 hlt hc1
    rw [hp1] at this
    exact absurd this (by decide)
  · exact heq
  · have := hf1 k2 c2 hgt hc2
    rw [hp2] at this
    exact absurd this (by decide)

/-- The outcome of `showChangeForRecommendation` when recommendation `recIndex` is read
and is truthy: the tab is switched, and the cursor moves to the position found, if
any. -/
theorem showChangeForRecommendation_found (same : Nat → Bool) (now recIndex : Nat)
    (st : ClientState) (recs rec category : JsVal)
    (hrecs : st.analysisResults.prop "improvement_recommendations" = .ok recs)
    (ht : recs.truthy = true) (hel : elementOf recs recIndex = .ok rec)
    (htr : rec.truthy = true) (hcat : rec.prop "category" = .ok category) :
    showChangeForRecommendation same now recIndex st =
      if findIndexFrom (fun imp j => strictEquals (same j) imp.category category) 0
          st.improvements ≠ -1 then
        (.ok (), refreshCurrentImage now
          { st with activeTab := "comparison",
                    currentChangeIndex := findIndexFrom
                      (fun imp j => strictEquals (same j) imp.category category) 0
                      st.improvements })
      else (.ok (), { st with activeTab := "comparison" }) := by
  unfold showChangeForRecommendation
  dsimp only
  rw [hrecs]
  simp only [ht, hel, htr, hcat, Bool.not_true, Bool.false_eq_true, if_false]

/-- Every call of `showChangeForRecommendation` either only switches the tab, or reads a
truthy recommendation `recIndex` and its category. -/
theorem showChangeForRecommendation_cases (same : Nat → Bool) (now recIndex : Nat)
    (st : ClientState) :
    (∃ out, showChangeForRecommendation same now recIndex st
        = (out, { st with activeTab := "comparison" })) ∨
    ∃ recs rec category,
      st.analysisResults.prop "improvement_recommendations" = .ok recs ∧
      recs.truthy = true ∧ elementOf recs recIndex = .ok rec ∧
      rec.truthy = true ∧ rec.prop "category" = .ok category := by
  unfold showChangeForRecommendation
  dsimp only
  cases hrecs : st.analysisResults.prop "improvement_recommendations" with
  | error e => exact Or.inl ⟨_, rfl⟩
  | ok recs =>
    rcases Bool.eq_false_or_eq_true recs.truthy with ht | ht
    · cases hel : elementOf recs recIndex with
      | error e =>
        simp only [ht, hel, Bool.not_true, Bool.false_eq_true, if_false]
        exact Or.inl ⟨_, rfl⟩
      | ok rec =>
        rcases Bool.eq_false_or_eq_true rec.truthy with htr | htr
        · cases hcat : rec.prop "category" with
          | error e =>
            simp only [ht, hel, htr, hcat, Bool.not_true, Bool.false_eq_true, if_false]
            exact Or.inl ⟨_, rfl⟩
          | ok category => exact Or.inr ⟨recs, rec, category, rfl, ht, hel, htr, hcat⟩
        · simp only [ht, hel, htr, Bool.not_true, Bool.not_false, Bool.false_eq_true,
            if_false, if_true]
          exact Or.inl ⟨_, rfl⟩
    · simp only [ht, Bool.not_false, if_true]
      exact Or.inl ⟨_, rfl⟩

/-- C13 (as stated) fails: in the initial state, where there is no step, the call leaves
the cursor at 0, which is not an index of the empty list of steps. -/
theorem showChangeForRecommendation_counterexample :
    (showChangeForRecommendation (fun _ => false) 1 0 initialState).2.currentChangeIndex = 0 ∧
    (showChangeForRecommendation (fun _ => false) 1 0 initialState).2.improvements.length = 0 ∧
    ¬ ((showChangeForRecommendation (fun _ => false) 1 0 initialState).2.currentChangeIndex
        < ((showChangeForRecommendation (fun _ => false) 1 0
            initialState).2.improvements.length : Int)) :=
  ⟨by decide, by decide, by decide⟩

/-- What a call does once a truthy recommendation `recIndex` and its category are
read. -/
theorem showChangeForRecommendation_found_cursor (same : Nat → Bool) (now recIndex : Nat)
    (st : ClientState) (recs rec category : JsVal)
    (hrecs : st.analysisResults.prop "improvement_recommendations" = .ok recs)
    (ht : recs.truthy = true) (hel : elementOf recs recIndex = .ok rec)
    (htr : rec.truthy = true) (hcat : rec.prop "category" = .ok category) :
    (showChangeForRecommendation same now recIndex st).1 = .ok () ∧
    (showChangeForRecommendation same now recIndex st).2.improvements = st.improvements ∧
    (∀ k : Nat, IsFirstWithCategory same st.improvements category k →
      (showChangeForRecommendation same now recIndex st).2.currentChangeIndex = (k : Int)) ∧
    (NoneWithCategory same st.improvements category →
      (showChangeForRecommendation same now recIndex st).2.currentChangeIndex
        = st.currentChangeIndex) ∧
    ((showChangeForRecommendation same now recIndex st).2.currentChangeIndex
        = st.currentChangeIndex ∨
      (0 ≤ (showChangeForRecommendation same now recIndex st).2.currentChangeIndex ∧
        (showChangeForRecommendation same now recIndex st).2.currentChangeIndex
          < (st.improvements.length : Int))) := by
  rw [showChangeForRecommendation_found same now recIndex st recs rec category hrecs ht hel
    htr hcat]
  rcases findIndexFrom_spec (fun imp j => strictEquals (same j) imp.category category)
    st.improvements 0 with ⟨hnone, hall⟩ | ⟨k, c, hk, hget, hpc, hfirst⟩
  · have hm1 : ¬ ((-1 : Int) ≠ -1) := by decide
    rw [hnone, if_neg hm1]
    refine ⟨rfl, rfl, ?_, fun _ => rfl, Or.inl rfl⟩
    intro k1 hk1
    obtain ⟨⟨c1, hc1, hp1⟩, _⟩ := hk1
    have := hall k1 c1 hc1
    simp only [Nat.zero_add] at this
    rw [hp1] at this
    exact absurd this (by decide)
  · have hklt : k < st.improvements.length := by
      by_contra hcon
      rw [List.getElem?_eq_none (by omega)] at hget
      exact Option.noConfusion hget
    have hne1 : ((0 + k : Nat) : Int) ≠ -1 := by omega
    simp only [Nat.zero_add] at hpc hfirst
    rw [hk, if_pos hne1]
    dsimp only
    rw [(refreshCurrentImage_frame _ _).1, (refreshCurrentImage_frame _ _).2]
    dsimp only
    refine ⟨rfl, rfl, ?_, ?_, Or.inr ⟨by omega, by omega⟩⟩
    · intro k1 hk1
      have := isFirstWithCategory_unique same st.improvements category k1 k hk1
        ⟨⟨c, hget, hpc⟩, hfirst⟩
      rw [this]
      simp
    · intro hall
      have := hall k c hget
      rw [hpc] at this
      exact absurd this (by decide)

/-- C13 (amended): `showChangeForRecommendation` leaves the steps as they are.  When
recommendation `recIndex` is there (the element `recIndex` of
`improvement_recommendations` is read and is truthy), the call returns without
exception, the cursor moves to the smallest index of `improvements` whose category is
strictly equal to the category of the recommendation, and it is left unchanged if no
improvement has that category.  When there is no recommendation `recIndex` (the list or
the element is absent or falsy), the call returns without exception and the cursor is
left unchanged.  In every case the resulting cursor is the previous cursor or a valid
index of `improvements`. -/
theorem showChangeForRecommendation_cursor (same : Nat → Bool) (now recIndex : Nat)
    (st : ClientState) :
    (showChangeForRecommendation same now recIndex st).2.improvements = st.improvements ∧
    (∀ (recs rec category : JsVal),
      st.analysisResults.prop "improvement_recommendations" = .ok recs →
      recs.truthy = true → elementOf recs recIndex = .ok rec → rec.truthy = true →
      rec.prop "category" = .ok category →
      (showChangeForRecommendation same now recIndex st).1 = .ok () ∧
      (∀ k : Nat, IsFirstWithCategory same st.improvements category k →
        (showChangeForRecommendation same now recIndex st).2.currentChangeIndex = (k : Int)) ∧
      (NoneWithCategory same st.improvements category →
        (showChangeForRecommendation same now recIndex st).2.currentChangeIndex
          = st.currentChangeIndex)) ∧
    (∀ (recs : JsVal),
      st.analysisResults.prop "improvement_recommendations" = .ok recs →
      (recs.truthy = false ∨
        ∃ rec, elementOf recs recIndex = .ok rec ∧ rec.truthy = false) →
      (showChangeForRecommendation same now recIndex st).1 = .ok () ∧
      (showChangeForRecommendation same now recIndex st).2.currentChangeIndex
        = st.currentChangeIndex) ∧
    ((showChangeForRecommendation same now recIndex st).2.currentChangeIndex
        = st.currentChangeIndex ∨
      (0 ≤ (showChangeForRecommendation same now recIndex st).2.currentChangeIndex ∧
        (showChangeForRecommendation same now recIndex st).2.currentChangeIndex
          < (st.improvements.length : Int))) := by
  refine ⟨?_, ?_, ?_, ?_⟩
  · rcases showChangeForRecommendation_cases same now recIndex st with
      ⟨out, h⟩ | ⟨recs, rec, category, hrecs, ht, hel, htr, hcat⟩
    · rw [h]
    · exact (showChangeForRecommendation_found_cursor same now recIndex st recs rec category
        hrecs ht hel htr hcat).2.1
  · intro recs rec category hrecs ht hel htr hcat
    have h := showChangeForRecommendation_found_cursor same now recIndex st recs rec category
      hrecs ht hel htr hcat
    exact ⟨h.1, h.2.2.1, h.2.2.2.1⟩
  · intro recs hrecs hno
    unfold showChangeForRecommendation
    dsimp only
    rw [hrecs]
    rcases Bool.eq_false_or_eq_true recs.truthy with ht | ht
    · rcases hno with hf | ⟨rec, hel, htr⟩
      · rw [ht] at hf
        exact absurd hf (by decide)
      · simp only [ht, hel, htr, Bool.not_true, Bool.not_false, Bool.false_eq_true, if_false,
          if_true, and_self]
    · simp only [ht, Bool.not_false, if_true, and_self]
  · rcases showChangeForRecommendation_cases same now recIndex st with
      ⟨out, h⟩ | ⟨recs, rec, category, hrecs, ht, hel, htr, hcat⟩
    · rw [h]
      exact Or.inl rfl
    · exact (showChangeForRecommendation_found_cursor same now recIndex st recs rec category
        hrecs ht hel htr hcat).2.2.2.2

/-- Witness for C13 (amended).  Three steps with the categories `A`, `B`, `C`: for the
recommendation at index 2 the cursor moves to 2.  Two steps built by
`setupIncrementalChanges` from recommendations whose categories are objects, so that
step 1 holds the category object of recommendation 1: for the recommendation at index 1
the cursor moves to 1, the first step whose category is that object. -/
theorem showChangeForRecommendation_cursor_witness :
    (showChangeForRecommendation (fun _ => false) 9 2 threeStepState).2.currentChangeIndex
      = 2 ∧
    (setupIncrementalChanges
        { success := true, error := "", analysis := objectCategoryAnalysis,
          imageUrl := "/results/improved-5.png", incrementalImages := none,
          incrementalChanges := none }
        { initialState with analysisResults := objectCategoryAnalysis }).2.improvements
      = objectCategoryState.improvements ∧
    IsFirstWithCategory (fun j => j == 1) objectCategoryState.improvements
      (.obj [("name", .str "Mobility")]) 1 ∧
    (showChangeForRecommendation (fun j => j == 1) 9 1 objectCategoryState).2.currentChangeIndex
      = ((1 : Nat) : Int) :=
  have hfirst : IsFirstWithCategory (fun j => j == 1) objectCategoryState.improvements
      (.obj [("name", .str "Mobility")]) 1 :=
    ⟨⟨_, rfl, rfl⟩, fun j c hj hget => by
      obtain rfl : j = 0 := by omega
      simp only [objectCategoryState, List.getElem?_cons_zero, Option.some.injEq] at hget
      subst hget
      rfl⟩
  ⟨by decide, rfl, hfirst,
    ((showChangeForRecommendation_cursor (fun j => j == 1) 9 1 objectCategoryState).2.1
      _ _ _ rfl rfl rfl rfl rfl).2.1 1 hfirst⟩

/-! ## Selecting and submitting a file -/

theorem handleFileSelect_valid (file : UploadedFile) (st : ClientState)
    (h : IsValidUpload file) :
    handleFileSelect file st = { st with uploadedFile := some file } := by
  obtain ⟨htype, hsize⟩ := h
  have hc : validTypes.contains file.type = true := by simpa using htype
  have hs : ¬ file.size > maxSize := by omega
  unfold handleFileSelect
  simp only [hc, Bool.not_true, Bool.false_eq_true, if_false, hs]

theorem handleFileSelect_invalid (file : UploadedFile) (st : ClientState)
    (h : ¬ IsValidUpload file) :
    handleFileSelect file st = { st with alerts := st.alerts ++ [.invalidType] } ∨
    handleFileSelect file st = { st with alerts := st.alerts ++ [.tooLarge] } := by
  unfold handleFileSelect
  by_cases hc : validTypes.contains file.type = true
  · have hs : file.size > maxSize := by
      by_contra hcon
      exact h ⟨by simpa using hc, by omega⟩
    right
    simp only [hc, Bool.not_true, Bool.false_eq_true, if_false, hs, if_true]
  · left
    have hcf : validTypes.contains file.type = false := by simpa using hc
    simp only [hcf, Bool.not_false, if_true]

/-- C14: `handleFileSelect` stores the file as `uploadedFile`, and does nothing else, if
and only if its type is one of `image/jpeg`, `image/jpg`, `image/png` and its size is at
most 15 * 1024 * 1024 bytes; a rejected file leaves `uploadedFile`, `previewImageUrl` and
`previewVisible` unchanged and raises an alert; and while `uploadedFile` is `null`,
`analyzeUrbanSpace` leaves the state as it is, posting no request. -/
theorem handleFileSelect_accepts_iff (file : UploadedFile) (st : ClientState) :
    (handleFileSelect file st = { st with uploadedFile := some file } ↔ IsValidUpload file) ∧
    (¬ IsValidUpload file →
      (handleFileSelect file st).uploadedFile = st.uploadedFile ∧
      (handleFileSelect file st).previewImageUrl = st.previewImageUrl ∧
      (handleFileSelect file st).previewVisible = st.previewVisible ∧
      (handleFileSelect file st).posted = st.posted ∧
      (handleFileSelect file st).alerts.length = st.alerts.length + 1) ∧
    (st.uploadedFile = none →
      ∀ (outcome : FetchOutcome) (now : Nat) (iso : String) (full : Bool),
        analyzeUrbanSpace outcome now iso full st = st) := by
  refine ⟨⟨?_, handleFileSelect_valid file st⟩, ?_, ?_⟩
  · intro h
    by_contra hinv
    have hlen : (handleFileSelect file st).alerts.length = st.alerts.length := by rw [h]
    rcases handleFileSelect_invalid file st hinv with h1 | h1 <;>
      · rw [h1] at hlen
        simp at hlen
  · intro hinv
    rcases handleFileSelect_invalid file st hinv with h1 | h1 <;>
      · rw [h1]
        simp
  · intro hnone outcome now iso full
    simp [analyzeUrbanSpace, hnone]

/-- Witness for C14: the file of 20 MB is rejected and leaves the state alone; the file
of 2 MB is stored. -/
theorem handleFileSelect_accepts_iff_witness :
    ((handleFileSelect bigFile initialState).uploadedFile = initialState.uploadedFile ∧
      (handleFileSelect bigFile initialState).previewImageUrl = initialState.previewImageUrl ∧
      (handleFileSelect bigFile initialState).previewVisible = initialState.previewVisible ∧
      (handleFileSelect bigFile initialState).posted = initialState.posted ∧
      (handleFileSelect bigFile initialState).alerts.length
        = initialState.alerts.length + 1) ∧
    handleFileSelect smallFile initialState
      = { initialState with uploadedFile := some smallFile } ∧
    ∀ (outcome : FetchOutcome) (now : Nat) (iso : String) (full : Bool),
      analyzeUrbanSpace outcome now iso full initialState = initialState :=
  ⟨(handleFileSelect_accepts_iff bigFile initialState).2.1
      (fun h => absurd h.2 (by decide)),
    (handleFileSelect_accepts_iff smallFile initialState).1.mpr ⟨by decide, by decide⟩,
    (handleFileSelect_accepts_iff bigFile initialState).2.2 rfl⟩

/-! ## A request that fails -/

/-- C17 (as stated) fails: the preview is shown and nothing was submitted yet; the
fetch raises.  Afterwards `resultVisible` is `true` and `originalImageUrl` is the preview
URL, while before the submission they were `false` and empty. -/
theorem failed_request_counterexample :
    (previewState.resultVisible = false ∧ previewState.originalImageUrl = "") ∧
    (analyzeUrbanSpace (.failed (.error "Failed to fetch")) 1 "2026" false
      previewState).resultVisible = true ∧
    (analyzeUrbanSpace (.failed (.error "Failed to fetch")) 1 "2026" false
      previewState).originalImageUrl = "data:image/png;base64,AAAA" :=
  ⟨⟨rfl, rfl⟩, rfl, rfl⟩

/-- C17 (amended): when a submitted request fails (the fetch raises or the reply lacks
`success`), `isProcessing` is `false` again, `uploadedFile`, `previewImageUrl` and
`previewVisible` are unchanged, as are the analysis, the steps, the images, the cursor
and the history, and one alert is raised; `resultVisible` is `true` and
`originalImageUrl` is the preview URL, whatever they were before the submission. -/
theorem failed_request_state (outcome : FetchOutcome) (now : Nat) (iso : String) (full : Bool)
    (st : ClientState) (file : UploadedFile) (hfile : st.uploadedFile = some file)
    (hfail : RequestFailed outcome) :
    ∃ e : JsError,
      analyzeUrbanSpace outcome now iso full st =
        { st with isProcessing := false, resultVisible := true,
                  originalImageUrl := st.previewImageUrl,
                  posted := st.posted ++ [file],
                  alerts := st.alerts ++ [.failure e] } := by
  cases outcome with
  | failed e =>
    exact ⟨e, by simp [analyzeUrbanSpace, hfile, analyzeUrbanSpaceTry]⟩
  | data d =>
    have hs : d.success = false := hfail
    exact ⟨.error (if d.error = "" then "Failed to analyze urban space" else d.error),
      by simp [analyzeUrbanSpace, hfile, analyzeUrbanSpaceTry, hs]⟩

/-- Witness for C17 (amended): the preview state and a fetch that raises. -/
theorem failed_request_state_witness :
    ∃ e : JsError,
      analyzeUrbanSpace (.failed (.error "Failed to fetch")) 1 "2026" false previewState =
        { previewState with isProcessing := false, resultVisible := true,
                            originalImageUrl := previewState.previewImageUrl,
                            posted := previewState.posted ++ [smallFile],
                            alerts := previewState.alerts ++ [.failure e] } :=
  failed_request_state (.failed (.error "Failed to fetch")) 1 "2026" false previewState
    smallFile rfl trivial

/-! ## The image shown for the current step -/

/-- C21: `currentImageUrl` never reads outside `generatedImages`.  For every state whose
cursor is not negative, whatever its steps are: if `generatedImages` is not empty, the
result is the element at index `min(currentChangeIndex, generatedImages.length - 1)`,
which exists and is a member of the list; if it is empty, the result is
`originalImageUrl` (the empty string when that is empty).  Nothing is assumed about
`improvements`, which may be longer than `generatedImages`. -/
theorem currentImageUrl_in_range (st : ClientState) (h : 0 ≤ st.currentChangeIndex) :
    (st.generatedImages ≠ [] →
      ∃ url, currentImageUrl st = some url ∧
        st.generatedImages[min st.currentChangeIndex.toNat (st.generatedImages.length - 1)]?
          = some url ∧
        url ∈ st.generatedImages) ∧
    (st.generatedImages = [] → currentImageUrl st = some st.originalImageUrl) := by
  constructor
  · intro hne
    have hpos : 0 < st.generatedImages.length := List.length_pos.mpr hne
    have hlt : min st.currentChangeIndex.toNat (st.generatedImages.length - 1)
        < st.generatedImages.length := by omega
    have hidx : (min st.currentChangeIndex ((st.generatedImages.length : Int) - 1)).toNat
        = min st.currentChangeIndex.toNat (st.generatedImages.length - 1) := by omega
    have hnn : ¬ min st.currentChangeIndex ((st.generatedImages.length : Int) - 1) < 0 := by
      omega
    refine ⟨st.generatedImages[min st.currentChangeIndex.toNat
      (st.generatedImages.length - 1)], ?_, ?_, ?_⟩
    · unfold currentImageUrl imageAt
      rw [if_neg (by omega)]
      simp only [if_neg hnn, hidx]
      exact List.getElem?_eq_getElem hlt
    · exact List.getElem?_eq_getElem hlt
    · exact List.getElem_mem _
  · intro hnil
    unfold currentImageUrl
    simp only [hnil, List.length_nil, if_true]
    by_cases ho : st.originalImageUrl = ""
    · simp [ho]
    · simp [ho]

/-- Witness for C21: three steps and one image, the cursor on the third step; the image
shown is the only one. -/
theorem currentImageUrl_in_range_witness :
    0 ≤ singleShotState.currentChangeIndex ∧
    singleShotState.improvements.length = 3 ∧
    singleShotState.generatedImages.length = 1 ∧
    currentImageUrl singleShotState = some "/results/improved-5.png" ∧
    ((singleShotState.generatedImages ≠ [] →
      ∃ url, currentImageUrl singleShotState = some url ∧
        singleShotState.generatedImages[min singleShotState.currentChangeIndex.toNat
          (singleShotState.generatedImages.length - 1)]? = some url ∧
        url ∈ singleShotState.generatedImages) ∧
    (singleShotState.generatedImages = [] →
      currentImageUrl singleShotState = some singleShotState.originalImageUrl)) :=
  ⟨by decide, by decide, by decide, by decide,
    currentImageUrl_in_range singleShotState (by decide)⟩

/-! ## MIME type of an accepted upload -/

/-- The extension of a path that ends in a dot and a text without dot or slash, when the
dot comes after at least one character of the last component. -/
theorem extname_of_stem (stem tail e : List Char) (htail : tail ≠ [])
    (hslash : ∀ c ∈ tail, c ≠ '/') (he : e ≠ [])
    (hext : ∀ c ∈ e, c ≠ '.' ∧ c ≠ '/') :
    extname ⟨stem ++ tail ++ '.' :: e⟩ = ⟨'.' :: e⟩ := by
  have hrev : (stem ++ tail ++ '.' :: e).reverse
      = e.reverse ++ '.' :: (tail.reverse ++ stem.reverse) := by
    simp
  have hdrop : ((e.reverse ++ '.' :: (tail.reverse ++ stem.reverse)).dropWhile (· = '/'))
      = e.reverse ++ '.' :: (tail.reverse ++ stem.reverse) := by
    cases hr : e.reverse with
    | nil => simp at hr; exact absurd hr he
    | cons a r =>
      have ha : a ∈ e := by
        have : a ∈ e.reverse := by rw [hr]; simp
        simpa using this
      have := (hext a ha).2
      simp [List.dropWhile_cons, this]
  have htake : ((e.reverse ++ '.' :: (tail.reverse ++ stem.reverse)).takeWhile (· ≠ '/'))
      = e.reverse ++ '.' :: (tail.reverse ++ stem.reverse.takeWhile (· ≠ '/')) := by
    rw [List.takeWhile_append_of_pos]
    · rw [List.takeWhile_cons_of_pos (by decide), List.takeWhile_append_of_pos]
      intro c hc
      simpa using hslash c (by simpa using hc)
    · intro c hc
      simpa using (hext c (by simpa using hc)).2
  have htake2 : ∀ rest : List Char,
      ((e.reverse ++ '.' :: rest).takeWhile (· ≠ '.')) = e.reverse := by
    intro rest
    rw [List.takeWhile_append_of_pos]
    · rw [List.takeWhile_cons_of_neg (by decide)]
      simp
    · intro c hc
      simpa using (hext c (by simpa using hc)).1
  unfold extname
  dsimp only
  rw [hrev, hdrop]
  simp only [List.reverse_reverse]
  rw [htake, htake2]
  simp only [List.reverse_append, List.reverse_cons, List.reverse_reverse, List.append_assoc,
    List.singleton_append, List.cons_append, List.nil_append, List.length_append,
    List.length_cons, List.length_reverse]
  have hlen : ¬ e.length = (stem.reverse.takeWhile (· ≠ '/')).length
      + (tail.length + (e.length + 1)) := by omega
  rw [if_neg hlen]
  have htk : List.take ((stem.reverse.takeWhile (· ≠ '/')).length
        + (tail.length + (e.length + 1)) - e.length - 1)
      ((stem.reverse.takeWhile (· ≠ '/')).reverse ++ (tail ++ '.' :: e))
      = (stem.reverse.takeWhile (· ≠ '/')).reverse ++ tail := by
    rw [← List.append_assoc]
    apply List.take_left'
    simp
    omega
  rw [htk]
  have hne : ¬ (stem.reverse.takeWhile (· ≠ '/')).reverse ++ tail = [] := by
    simp [htail]
  rw [if_neg hne, if_neg (fun h => he h.2)]

/-- A last component that starts with its only dot has no extension. -/
theorem extname_of_dotfile (stem e : List Char)
    (hstem : stem = [] ∨ ∃ q, stem = q ++ ['/']) (he : e ≠ [])
    (hext : ∀ c ∈ e, c ≠ '.' ∧ c ≠ '/') :
    extname ⟨stem ++ '.' :: e⟩ = "" := by
  have hrev : (stem ++ '.' :: e).reverse = e.reverse ++ '.' :: stem.reverse := by
    simp
  have hdrop : ((e.reverse ++ '.' :: stem.reverse).dropWhile (· = '/'))
      = e.reverse ++ '.' :: stem.reverse := by
    cases hr : e.reverse with
    | nil => simp at hr; exact absurd hr he
    | cons a r =>
      have ha : a ∈ e := by
        have : a ∈ e.reverse := by rw [hr]; simp
        simpa using this
      have := (hext a ha).2
      simp [List.dropWhile_cons, this]
  have htake : ((e.reverse ++ '.' :: stem.reverse).takeWhile (· ≠ '/'))
      = e.reverse ++ ['.'] := by
    rw [List.takeWhile_append_of_pos]
    · rw [List.takeWhile_cons_of_pos (by decide)]
      rcases hstem with h | ⟨q, h⟩
      · simp [h]
      · simp [h]
    · intro c hc
      simpa using (hext c (by simpa using hc)).2
  have htake2 : ((e.reverse ++ ['.']).takeWhile (· ≠ '.')) = e.reverse := by
    rw [List.takeWhile_append_of_pos]
    · rw [List.takeWhile_cons_of_neg (by decide)]
      simp
    · intro c hc
      simpa using (hext c (by simpa using hc)).1
  unfold extname
  dsimp only
  rw [hrev, hdrop]
  simp only [List.reverse_reverse]
  rw [htake, htake2]
  simp only [List.reverse_append, List.reverse_cons, List.reverse_reverse, List.append_assoc,
    List.singleton_append, List.cons_append, List.nil_append, List.length_append,
    List.length_cons, List.length_reverse, List.reverse_nil, List.length_nil]
  have hlen : ¬ e.length = e.length + 1 := by omega
  rw [if_neg hlen]
  simp

/-- A last component without a dot has no extension. -/
theorem extname_of_no_dot (stem b : List Char) (hb : b ≠ [])
    (hchars : ∀ c ∈ b, c ≠ '.' ∧ c ≠ '/') :
    extname ⟨stem ++ '/' :: b⟩ = "" := by
  have hrev : (stem ++ '/' :: b).reverse = b.reverse ++ '/' :: stem.reverse := by
    simp
  have hdrop : ((b.reverse ++ '/' :: stem.reverse).dropWhile (· = '/'))
      = b.reverse ++ '/' :: stem.reverse := by
    cases hr : b.reverse with
    | nil => simp at hr; exact absurd hr hb
    | cons a r =>
      have ha : a ∈ b := by
        have : a ∈ b.reverse := by rw [hr]; simp
        simpa using this
      have := (hchars a ha).2
      simp [List.dropWhile_cons, this]
  have htake : ((b.reverse ++ '/' :: stem.reverse).takeWhile (· ≠ '/')) = b.reverse := by
    rw [List.takeWhile_append_of_pos]
    · rw [List.takeWhile_cons_of_neg (by decide)]
      simp
    · intro c hc
      simpa using (hchars c (by simpa using hc)).2
  have htake2 : (b.reverse.takeWhile (· ≠ '.')) = b.reverse := by
    rw [List.takeWhile_eq_self_iff]
    intro c hc
    simpa using (hchars c (by simpa using hc)).1
  unfold extname
  dsimp only
  rw [hrev, hdrop]
  simp only [List.reverse_reverse]
  rw [htake, htake2]
  simp

theorem toDigitsCore_chars (fuel : Nat) :
    ∀ (n : Nat) (ds : List Char) (c : Char), c ∈ Nat.toDigitsCore 10 fuel n ds →
      c ∈ ds ∨ ∃ k, k < 10 ∧ c = Nat.digitChar k := by
  induction fuel with
  | zero => intro n ds c h; exact Or.inl (by simpa [Nat.toDigitsCore] using h)
  | succ fuel ih =>
    intro n ds c h
    have hk : n % 10 < 10 := Nat.mod_lt n (by decide)
    by_cases h0 : n / 10 = 0
    · simp only [Nat.toDigitsCore, h0, if_true, List.mem_cons] at h
      rcases h with h | h
      · exact Or.inr ⟨n % 10, hk, h⟩
      · exact Or.inl h
    · simp only [Nat.toDigitsCore, h0, if_false] at h
      rcases ih _ _ _ h with h | h
      · rcases List.mem_cons.mp h with h | h
        · exact Or.inr ⟨n % 10, hk, h⟩
        · exact Or.inl h
      · exact Or.inr h

/-- The decimal text of a number holds neither a dot nor a slash. -/
theorem toString_nat_chars (n : Nat) (c : Char) (h : c ∈ (toString n).data) :
    c ≠ '.' ∧ c ≠ '/' := by
  have h1 : c ∈ Nat.toDigitsCore 10 (n + 1) n [] := h
  rcases toDigitsCore_chars _ _ _ _ h1 with h2 | ⟨k, hk, h2⟩
  · simp at h2
  · subst h2
    interval_cases k <;> decide

theorem uploadPath_data (dirname : String) (now rnd : Nat) (name : String) :
    (uploadPath dirname now rnd name).data
      = (pathJoin dirname "uploads").data ++ '/' ::
          ("upload-".data ++ (toString now).data) ++ '-' :: (toString rnd).data
            ++ (extname name).data := by
  have hU : pathJoin dirname "uploads" ≠ "" := by
    intro h
    have := congrArg (fun s : String => s.data.length) h
    unfold pathJoin at this
    split at this <;> simp at this
  unfold uploadPath
  rw [pathJoin, if_neg hU]
  simp [filename, uniqueSuffix, String.data_append]

theorem fileFilter_of_suffix (name ext : String) (stem : List Char)
    (hext : ext ∈ imageExtensions) (hname : name.data = stem ++ ext.data) :
    fileFilter name = true := by
  unfold fileFilter
  rw [List.any_eq_true]
  exact ⟨ext, hext, by rw [List.isSuffixOf_iff_suffix, hname]; exact List.suffix_append _ _⟩

theorem imageExtensions_shape (ext : String) (hext : ext ∈ imageExtensions) :
    ∃ e : List Char, ext = ⟨'.' :: e⟩ ∧ e ≠ [] ∧ (∀ c ∈ e, c ≠ '.' ∧ c ≠ '/') := by
  simp only [imageExtensions, List.mem_cons, List.mem_singleton, List.not_mem_nil,
    or_false] at hext
  rcases hext with rfl | rfl | rfl
  · exact ⟨"jpg".data, rfl, by decide, by decide⟩
  · exact ⟨"jpeg".data, rfl, by decide, by decide⟩
  · exact ⟨"png".data, rfl, by decide, by decide⟩

/-- An accepted name with at least one character, other than a slash, before its
extension: the stored name keeps the extension, and the MIME type of the stored file is
an image type. -/
theorem getMimeType_of_named_upload (dirname : String) (now rnd : Nat) (name ext : String)
    (pre : List Char) (c : Char) (hext : ext ∈ imageExtensions)
    (hname : name.data = pre ++ c :: ext.data) (hc : c ≠ '/') :
    fileFilter name = true ∧
    filename now rnd name = "upload-" ++ uniqueSuffix now rnd ++ ext ∧
    (getMimeType (uploadPath dirname now rnd name) = "image/jpeg" ∨
      getMimeType (uploadPath dirname now rnd name) = "image/png") := by
  obtain ⟨e, he, hne, hchars⟩ := imageExtensions_shape ext hext
  have hname2 : name = ⟨pre ++ [c] ++ '.' :: e⟩ := by
    apply String.ext
    rw [hname, he]
    simp
  have hx : extname name = ext := by
    rw [hname2, he]
    exact extname_of_stem pre [c] e (by simp) (by simpa using hc) hne hchars
  refine ⟨fileFilter_of_suffix name ext (pre ++ [c]) hext (by rw [hname]; simp), ?_, ?_⟩
  · unfold filename
    rw [hx]
  · have hp : uploadPath dirname now rnd name
        = ⟨((pathJoin dirname "uploads").data ++ '/' ::
            ("upload-".data ++ (toString now).data)) ++ '-' :: (toString rnd).data
              ++ '.' :: e⟩ := by
      apply String.ext
      rw [uploadPath_data, hx, he]
    have hx2 : extname (uploadPath dirname now rnd name) = ext := by
      rw [hp, he]
      apply extname_of_stem _ _ e (by simp) _ hne hchars
      intro x hxm
      rcases List.mem_cons.mp hxm with h | h
      · rw [h]; decide
      · exact (toString_nat_chars rnd x h).2
    unfold getMimeType
    rw [hx2]
    simp only [imageExtensions, List.mem_cons, List.mem_singleton, List.not_mem_nil,
      or_false] at hext
    rcases hext with rfl | rfl | rfl <;> decide

/-- An accepted name that is only an extension (possibly after a directory): the stored
name has no extension, and the MIME type of the stored file is the generic one. -/
theorem getMimeType_of_dotfile_upload (dirname : String) (now rnd : Nat) (name ext : String)
    (stem : List Char) (hext : ext ∈ imageExtensions)
    (hname : name.data = stem ++ ext.data) (hstem : stem = [] ∨ ∃ q, stem = q ++ ['/']) :
    fileFilter name = true ∧
    filename now rnd name = "upload-" ++ uniqueSuffix now rnd ∧
    getMimeType (uploadPath dirname now rnd name) = "application/octet-stream" := by
  obtain ⟨e, he, hne, hchars⟩ := imageExtensions_shape ext hext
  have hname2 : name = ⟨stem ++ '.' :: e⟩ := by
    apply String.ext
    rw [hname, he]
  have hx : extname name = "" := by
    rw [hname2]
    exact extname_of_dotfile stem e hstem hne hchars
  refine ⟨fileFilter_of_suffix name ext stem hext hname, ?_, ?_⟩
  · unfold filename
    rw [hx]
    simp
  · have hp : uploadPath dirname now rnd name
        = ⟨(pathJoin dirname "uploads").data ++ '/' ::
            ("upload-".data ++ (toString now).data ++ '-' :: (toString rnd).data)⟩ := by
      apply String.ext
      rw [uploadPath_data, hx]
      simp
    have hx2 : extname (uploadPath dirname now rnd name) = "" := by
      rw [hp]
      apply extname_of_no_dot _ _ (by simp)
      have hlit : ∀ x ∈ "upload-".data, x ≠ '.' ∧ x ≠ '/' := by decide
      intro x hxm
      rcases List.mem_append.mp hxm with h | h
      · rcases List.mem_append.mp h with h | h
        · exact hlit x h
        · exact toString_nat_chars now x h
      · rcases List.mem_cons.mp h with h | h
        · rw [h]; decide
        · exact toString_nat_chars rnd x h
    unfold getMimeType
    rw [hx2]
    decide

/-- C22: evaluation at the failing input.  The upload named `.png` matches the pattern
of `fileFilter` and is accepted; `path.extname` of that name is empty, so the file is
stored as `upload-1700000000000-42`, without extension, and `getMimeType` maps the stored
path to `application/octet-stream`.  The same happens for `.jpg` and `.jpeg`, and not
for `street.png`. -/
theorem dotfile_upload_mime_example :
    fileFilter ".png" = true ∧
    extname ".png" = "" ∧
    filename 1700000000000 42 ".png" = "upload-1700000000000-42" ∧
    uploadPath "/app" 1700000000000 42 ".png" = "/app/uploads/upload-1700000000000-42" ∧
    getMimeType (uploadPath "/app" 1700000000000 42 ".png") = "application/octet-stream" ∧
    fileFilter ".jpg" = true ∧
    getMimeType (uploadPath "/app" 1700000000000 42 ".jpg") = "application/octet-stream" ∧
    fileFilter ".jpeg" = true ∧
    getMimeType (uploadPath "/app" 1700000000000 42 ".jpeg") = "application/octet-stream" ∧
    getMimeType (uploadPath "/app" 1700000000000 42 "street.png") = "image/png" := by
  decide

end UrbanPlanner
